import Mathlib

/-!
# print_macho: a shallow embedding of the Mach-O analyzer

The development follows the three C translation units of the program:

* `fileio.c`  : `read_uint8`, `read_uint16`, `read_uint32`, `read_uint64`
* `macho.c`   : the record decoders (`macho_read_*`) and the printers
* `print_macho.c` : `parse_macho`, the load-command loop

A `FILE` is a read-only byte stream with a cursor.  File offsets are natural
numbers.  The C type `int` is a 32-bit two's complement integer, modelled by
`Int` with explicit wrapping; `uint32_t` and `uint64_t` are natural numbers
kept below `2^32` and `2^64`.  Text written to standard output is modelled by
a list of output events.  A relative seek fails when its target passes the
offset limit of the stream, which is a parameter of the decoders that seek.
A label lookup outside its table is undefined behaviour: the lookup functions
return `none` for it, and so does a run of `parse_macho` that meets one.
The loop counters are `int` variables compared with a `uint32_t` bound, hence
as unsigned numbers; their increment is taken to wrap in 32 bits, as it does
in the compiled program, so that a loop runs as many iterations as its bound
says.
-/

namespace PrintMacho

/-! ## Streams (`stdio.h`) -/

/-- One byte of the stream. -/
abbrev Byte := Fin 256

/-- A stdio stream opened for reading: the bytes of the file and the cursor.
The cursor may stand past the end of the file (after an `fseek`). -/
structure FILE where
  data : List Byte
  pos : Nat
deriving DecidableEq, Repr

/-- The value `EOF` of `stdio.h`. -/
def EOF : Int := -1

/-- C `getc`: the byte at the cursor as a non-negative `int`, advancing the
cursor by one; `EOF` when no byte is left, the cursor then stays. -/
def getc (f : FILE) : Int × FILE :=
  match f.data[f.pos]? with
  | some b => ((b.val : Int), { f with pos := f.pos + 1 })
  | none => (EOF, f)

/-- C `ftell`. -/
def ftell (f : FILE) : Nat := f.pos

/-- C `fseek(fp, offset, SEEK_SET)` for a non-negative offset.  The program
calls it with an offset below `2^33` or with a position that `ftell` returned;
such a seek succeeds. -/
def fseek_set (f : FILE) (offset : Nat) : FILE := { f with pos := offset }

/-- The value `LONG_MAX` of `limits.h` (64-bit `long`): no file offset is
above it. -/
def LONG_MAX : Nat := 2 ^ 63 - 1

/-- C `fseek(fp, offset, SEEK_CUR)` for a non-negative offset.  `limit` is the
largest offset the stream can be positioned at: `LONG_MAX`, or less where the
file system sets a lower limit.  A seek to a target above the limit fails and
leaves the cursor where it is; the program does not test the result of
`fseek`. -/
def fseek_cur (limit : Nat) (f : FILE) (offset : Nat) : FILE :=
  if f.pos + offset ≤ limit then { f with pos := f.pos + offset } else f

/-- C `fread(buf, 1, n, fp)`: the bytes obtained (at most `n`, fewer at the end
of the stream); the cursor advances by the number of bytes obtained. -/
def fread (n : Nat) (f : FILE) : List Byte × FILE :=
  let got := (f.data.drop f.pos).take n
  (got, { f with pos := f.pos + got.length })

/-- Storing the bytes obtained by `fread` into a buffer of `n` bytes: the
first bytes of the buffer are overwritten, the rest keeps its old content. -/
def store_buf (n : Nat) (old got : List Byte) : List Byte :=
  (got ++ old.drop got.length).take n

/-! ## Machine integers -/

/-- The `int` whose 32-bit two's complement pattern is `n % 2^32`. -/
def toInt32 (n : Nat) : Int :=
  if n % 2 ^ 32 < 2 ^ 31 then ((n % 2 ^ 32 : Nat) : Int) else ((n % 2 ^ 32 : Nat) : Int) - 2 ^ 32

/-- Conversion of an `int` to `uint8_t`. -/
def toUInt8 (x : Int) : Nat := (x % 2 ^ 8).toNat

/-- Conversion of an `int` to `uint16_t`. -/
def toUInt16 (x : Int) : Nat := (x % 2 ^ 16).toNat

/-- Conversion of an `int` to `uint32_t` (its 32-bit pattern). -/
def toUInt32 (x : Int) : Nat := (x % 2 ^ 32).toNat

/-- Conversion of an `int` to `uint64_t` (sign extension). -/
def toUInt64 (x : Int) : Nat := (x % 2 ^ 64).toNat

/-- The C expression `x << k` on `int`, wrapping in 32 bits. -/
def int_shl (x : Int) (k : Nat) : Int := toInt32 ((toUInt32 x <<< k) % 2 ^ 32)

/-- The C expression `x | y` on `int`. -/
def int_or (x y : Int) : Int := toInt32 (toUInt32 x ||| toUInt32 y)

/-- The C expression `x & y` on `int`. -/
def int_and (x y : Int) : Int := toInt32 (toUInt32 x &&& toUInt32 y)

/-- The C expression `x ^ y` on `int`. -/
def int_xor (x y : Int) : Int := toInt32 (toUInt32 x ^^^ toUInt32 y)

/-- The C expression `x << k` on `uint64_t`. -/
def u64_shl (x : Nat) (k : Nat) : Nat := (x <<< k) % 2 ^ 64

/-- The C expression `x + y` on `uint32_t` (`unsigned int`). -/
def u32_add (x y : Nat) : Nat := (x + y) % 2 ^ 32

/-- The C expression `x - y` on `uint32_t` (`unsigned int`): the difference
of the two 32-bit values, wrapped around by `2^32` when it is negative. -/
def u32_sub (x y : Nat) : Nat :=
  if y % 2 ^ 32 ≤ x % 2 ^ 32 then x % 2 ^ 32 - y % 2 ^ 32
  else 2 ^ 32 - (y % 2 ^ 32 - x % 2 ^ 32)

/-! ## fileio.c -/

/-- Embedding of `read_uint64`. -/
def read_uint64 (f : FILE) : Nat × FILE :=
  let (g0, f) := getc f
  let c := toUInt64 g0
  let (g1, f) := getc f
  let c := c ||| u64_shl (toUInt64 g1) 8
  let (g2, f) := getc f
  let c := c ||| u64_shl (toUInt64 g2) 16
  let (g3, f) := getc f
  let c := c ||| u64_shl (toUInt64 g3) 24
  let (g4, f) := getc f
  let c := c ||| u64_shl (toUInt64 g4) 32
  let (g5, f) := getc f
  let c := c ||| u64_shl (toUInt64 g5) 40
  let (g6, f) := getc f
  let c := c ||| u64_shl (toUInt64 g6) 48
  let (g7, f) := getc f
  let c := c ||| u64_shl (toUInt64 g7) 56
  (c, f)

/-- Embedding of `read_uint32`; the result is an `int`. -/
def read_uint32 (f : FILE) : Int × FILE :=
  let (g0, f) := getc f
  let c := g0
  let (g1, f) := getc f
  let c := int_or c (int_shl g1 8)
  let (g2, f) := getc f
  let c := int_or c (int_shl g2 16)
  let (g3, f) := getc f
  let c := int_or c (int_shl g3 24)
  (c, f)

/-- Embedding of `read_uint16`; the result is an `int`. -/
def read_uint16 (f : FILE) : Int × FILE :=
  let (g0, f) := getc f
  let c := g0
  let (g1, f) := getc f
  let c := int_or c (int_shl g1 8)
  (c, f)

/-- Embedding of `read_uint8`; the result is an `int`. -/
def read_uint8 (f : FILE) : Int × FILE :=
  let (g0, f) := getc f
  (g0, f)

/-! ## Reference values for the byte reader -/

/-- The bytes remaining in the stream from the cursor on. -/
def remaining (f : FILE) : List Byte := f.data.drop f.pos

/-- The `j`-th byte counted from the cursor (`0` when there is none). -/
def byte_at (f : FILE) (j : Nat) : Nat := ((f.data.getD (f.pos + j) 0).val : Nat)

/-- The little-endian value of the `n` bytes at the cursor:
the sum over `j < n` of `byte_j * 256^j`. -/
def le_sum (f : FILE) (n : Nat) : Nat :=
  ((List.range n).map (fun j => byte_at f j * 256 ^ j)).sum

/-- The number of bytes a read of `n` bytes obtains: `n`, or what is left of
the stream when that is less. -/
def avail (f : FILE) (n : Nat) : Nat := min n (f.data.length - f.pos)

/-- The bits contributed by the `EOF` results of `getc` when only `k` of the
`n` bytes of a `w`-bit read are present: all bits from bit `8 * k` upwards. -/
def eof_fill (w n k : Nat) : Nat := if k < n then 2 ^ w - 256 ^ k else 0

/-! ## macho.h: the records -/

/-- The C struct `MachoHeader`. -/
structure MachoHeader where
  magic_number : Nat
  cpu_type : Nat
  cpu_subtype : Nat
  file_type : Nat
  load_command_count : Nat
  load_command_size : Nat
  flags : Nat
  reserved : Nat
deriving DecidableEq, Repr

/-- The C struct `MachoLoadCommand`; `type` is the command tag. -/
structure MachoLoadCommand where
  type : Nat
  size : Nat
deriving DecidableEq, Repr

/-- The C struct `MachoSegmentLoad`. -/
structure MachoSegmentLoad where
  name : List Byte
  address : Nat
  address_size : Nat
  file_offset : Nat
  file_size : Nat
  protection_max : Nat
  protection_initial : Nat
  section_count : Nat
  flag : Nat
deriving DecidableEq, Repr

/-- The C struct `MachoSection`. -/
structure MachoSection where
  section_name : List Byte
  segment_name : List Byte
  address : Nat
  size : Nat
  offset : Nat
  align : Nat
  relocation_offset : Nat
  relocation_count : Nat
  flags : Nat
  reserved1 : Nat
  reserved2 : Nat
  reserved3 : Nat
deriving DecidableEq, Repr

/-- The C struct `MachoSymtab`. -/
structure MachoSymtab where
  symbol_table_offset : Nat
  symbol_count : Nat
  string_table_offset : Nat
  string_table_size : Nat
deriving DecidableEq, Repr

/-- The C struct `MachoSymbol`. -/
structure MachoSymbol where
  string_index : Nat
  type : Nat
  sect : Nat
  desc : Nat
  value : Nat
deriving DecidableEq, Repr

/-- The C struct `MachoDysymtab`. -/
structure MachoDysymtab where
  local_sym_index : Nat
  local_sym_count : Nat
  external_sym_index : Nat
  external_sym_count : Nat
  undefined_sym_index : Nat
  undefined_sym_count : Nat
  toc_offset : Nat
  toc_count : Nat
  mod_table_offset : Nat
  mod_count : Nat
  ref_sym_offset : Nat
  ref_sym_count : Nat
  indirect_sym_index : Nat
  indirect_sym_count : Nat
  external_reloc_offset : Nat
  external_reloc_count : Nat
  local_reloc_offset : Nat
  local_reloc_count : Nat
deriving DecidableEq, Repr

/-- What the program writes to standard output, one event per `printf` group.
The record printers write the fields of the record they are given. -/
inductive Out where
  | error_not_macho
  | header (h : MachoHeader)
  | load_command (c : MachoLoadCommand)
  | segment_load (s : MachoSegmentLoad)
  | sect (s : MachoSection)
  | symtab (s : MachoSymtab)
  | str_label (n : Nat)
  | chr (c : Nat)
  | newline
  | symbol (s : MachoSymbol)
  | dysymtab (d : MachoDysymtab)
  | build_version
  | hex (c : Nat)
  | file_offset (n : Nat)
deriving DecidableEq, Repr

/-! ## macho.c: the label tables -/

/-- The C array `cpu_type`. -/
def cpu_type : List String :=
  ["???", "VAX", "ROMP", "???", "NS32032", "NS32332", "MC680x0", "x86", "MIPS", "NS32352",
   "MC98000", "HP-PA", "ARM", "MC88000", "SPARC", "I860/BE", "I860/LE", "RS/6000", "PowerPC"]

/-- The C array `cpu_subtype_arm`. -/
def cpu_subtype_arm : List String :=
  ["All ARM processors.",
   "Optimized for ARM-A500 ARCH or newer.",
   "Optimized for ARM-A500 or newer.",
   "Optimized for ARM-A440 or newer.",
   "Optimized for ARM-M4 or newer.",
   "Optimized for ARM-V4T or newer.",
   "Optimized for ARM-V6 or newer.",
   "Optimized for ARM-V5TEJ or newer.",
   "Optimized for ARM-XSCALE or newer.",
   "Optimized for ARM-V7 or newer.",
   "Optimized for ARM-V7F (Cortex A9) or newer.",
   "Optimized for ARM-V7S (Swift) or newer.",
   "Optimized for ARM-V7K (Kirkwood40) or newer.",
   "Optimized for ARM-V8 or newer.",
   "Optimized for ARM-V6M or newer.",
   "Optimized for ARM-V7M or newer.",
   "Optimized for ARM-V7EM or newer."]

/-- The C array `file_type`. -/
def file_type : List String :=
  ["???",
   "Relocatable object",
   "Demand paged executable",
   "Fixed VM shared library",
   "Core",
   "Preloaded executable",
   "Dynamically bound shared library",
   "Dynamic link editor",
   "Dynamically bound bundle",
   "Shared library stub for static linking",
   "Companion file with only debug sections",
   "x86_64 kexts",
   "Composite MachOs"]

/-- The constant `MACHO_X86` of `macho.h`. -/
def MACHO_X86 : Int := 0x00000007

/-- The constant `MACHO_ARM` of `macho.h`. -/
def MACHO_ARM : Int := 0x0000000c

/-- The C expression `table[i]` for an `int` index `i`: the entry when `i`
lies inside the array, `none` when the access is outside the array (the
behaviour of the program is then undefined). -/
def table_at (table : List String) (i : Int) : Option String :=
  if 0 ≤ i then table[i.toNat]? else none

/-- Embedding of `get_cpu_type`; `max` is the number of entries of the
table. -/
def get_cpu_type (value : Int) : Option String :=
  let max : Int := cpu_type.length
  let value := if int_and value 0x01000000 = 0x01000000 then int_xor value 0x01000000 else value
  if value ≥ max then some "???" else table_at cpu_type value

/-- Embedding of `get_cpu_subtype_arm`. -/
def get_cpu_subtype_arm (value : Int) : Option String :=
  let max : Int := cpu_subtype_arm.length
  if value ≥ max then some "???" else table_at cpu_subtype_arm value

/-- Embedding of `get_cpu_subtype_x86`: a `switch` on the exact code. -/
def get_cpu_subtype_x86 (value : Int) : String :=
  if value = 0x03 then "All x86 processors."
  else if value = 0x04 then "Optimized for 486 or newer."
  else if value = 0x84 then "Optimized for 486SX or newer."
  else if value = 0x56 then "Optimized for Pentium M5 or newer."
  else if value = 0x67 then "Optimized for Celeron or newer."
  else if value = 0x77 then "Optimized for Celeron Mobile."
  else if value = 0x08 then "Optimized for Pentium 3 or newer."
  else if value = 0x18 then "Optimized for Pentium 3-M or newer."
  else if value = 0x28 then "Optimized for Pentium 3-XEON or newer."
  else if value = 0x0a then "Optimized for Pentium-4 or newer."
  else if value = 0x0b then "Optimized for Itanium or newer."
  else if value = 0x1b then "Optimized for Itanium-2 or newer."
  else if value = 0x0c then "Optimized for XEON or newer."
  else if value = 0x1c then "Optimized for XEON-MP or newer."
  else "???"

/-- Embedding of `get_cpu_subtype`: a `switch` on the cpu type. -/
def get_cpu_subtype (cpu_type : Int) (cpu_subtype : Int) : Option String :=
  if cpu_type = MACHO_ARM then get_cpu_subtype_arm cpu_subtype
  else if cpu_type = MACHO_X86 then some (get_cpu_subtype_x86 cpu_subtype)
  else some ""

/-- Embedding of `get_file_type`. -/
def get_file_type (value : Int) : Option String :=
  let max : Int := file_type.length
  if value ≥ max then some "???" else table_at file_type value

/-- The three label lookups of `macho_print_header`: the `uint32_t` fields
`cpu_type`, `cpu_subtype` and `file_type` of the header are passed as `int`.
The result is the label of the cpu type, of the cpu subtype and of the file
type. -/
def macho_print_header (h : MachoHeader) : Option String × Option String × Option String :=
  (get_cpu_type (toInt32 h.cpu_type),
   get_cpu_subtype (toInt32 h.cpu_type) (toInt32 h.cpu_subtype),
   get_file_type (toInt32 h.file_type))

/-! ## macho.c: the decoders -/

/-- Embedding of `macho_read_header`: the return code, the header written
through the pointer (zeroed by `memset` first), and the stream. -/
def macho_read_header (f : FILE) : Int × MachoHeader × FILE :=
  let (v, f) := read_uint32 f
  let magic_number := toUInt32 v
  if magic_number ≠ 0xfeedface ∧ magic_number ≠ 0xfeedfacf then
    (-1, ⟨magic_number, 0, 0, 0, 0, 0, 0, 0⟩, f)
  else
    let (v, f) := read_uint32 f
    let cpu_type := toUInt32 v
    let (v, f) := read_uint32 f
    let cpu_subtype := toUInt32 v
    let (v, f) := read_uint32 f
    let file_type := toUInt32 v
    let (v, f) := read_uint32 f
    let load_command_count := toUInt32 v
    let (v, f) := read_uint32 f
    let load_command_size := toUInt32 v
    let (v, f) := read_uint32 f
    let flags := toUInt32 v
    if magic_number = 0xfeedfacf then
      let (v, f) := read_uint32 f
      let reserved := toUInt32 v
      (0, ⟨magic_number, cpu_type, cpu_subtype, file_type, load_command_count,
        load_command_size, flags, reserved⟩, f)
    else
      (0, ⟨magic_number, cpu_type, cpu_subtype, file_type, load_command_count,
        load_command_size, flags, 0⟩, f)

/-- Embedding of `macho_read_load_command`. -/
def macho_read_load_command (f : FILE) : Int × MachoLoadCommand × FILE :=
  let (v, f) := read_uint32 f
  let type := toUInt32 v
  let (v, f) := read_uint32 f
  let size := toUInt32 v
  (0, ⟨type, size⟩, f)

/-- The four width-dependent fields of `macho_read_segment_load`: `read_uint32`
results converted to `uint64_t` when `bits == 32`, `read_uint64` otherwise. -/
def read_segment_sizes (f : FILE) (bits : Nat) : Nat × Nat × Nat × Nat × FILE :=
  if bits = 32 then
    let (v, f) := read_uint32 f
    let address := toUInt64 v
    let (v, f) := read_uint32 f
    let address_size := toUInt64 v
    let (v, f) := read_uint32 f
    let file_offset := toUInt64 v
    let (v, f) := read_uint32 f
    let file_size := toUInt64 v
    (address, address_size, file_offset, file_size, f)
  else
    let (address, f) := read_uint64 f
    let (address_size, f) := read_uint64 f
    let (file_offset, f) := read_uint64 f
    let (file_size, f) := read_uint64 f
    (address, address_size, file_offset, file_size, f)

/-- Embedding of `macho_read_segment_load`; `s` is the record the pointer
refers to before the call.  When the name cannot be read the function returns
at once and the other fields keep their old content. -/
def macho_read_segment_load (s : MachoSegmentLoad) (f : FILE) (bits : Nat) :
    Int × MachoSegmentLoad × FILE :=
  let (got, f) := fread 16 f
  let name := store_buf 16 s.name got
  if got.length ≠ 16 then (-1, { s with name := name }, f)
  else
    let (address, address_size, file_offset, file_size, f) := read_segment_sizes f bits
    let (v, f) := read_uint32 f
    let protection_max := toUInt32 v
    let (v, f) := read_uint32 f
    let protection_initial := toUInt32 v
    let (v, f) := read_uint32 f
    let section_count := toUInt32 v
    let (v, f) := read_uint32 f
    let flag := toUInt32 v
    (0, ⟨name, address, address_size, file_offset, file_size, protection_max,
      protection_initial, section_count, flag⟩, f)

/-- The two width-dependent fields of `macho_read_section`. -/
def read_section_sizes (f : FILE) (bits : Nat) : Nat × Nat × FILE :=
  if bits = 32 then
    let (v, f) := read_uint32 f
    let address := toUInt64 v
    let (v, f) := read_uint32 f
    let size := toUInt64 v
    (address, size, f)
  else
    let (address, f) := read_uint64 f
    let (size, f) := read_uint64 f
    (address, size, f)

/-- Embedding of `macho_read_section`; `s` is the record the pointer refers to
before the call.  When a name cannot be read the function returns at once and
the fields not yet written keep their old content. -/
def macho_read_section (s : MachoSection) (f : FILE) (bits : Nat) :
    Int × MachoSection × FILE :=
  let (got, f) := fread 16 f
  let section_name := store_buf 16 s.section_name got
  if got.length ≠ 16 then (-1, { s with section_name := section_name }, f)
  else
    let (got, f) := fread 16 f
    let segment_name := store_buf 16 s.segment_name got
    if got.length ≠ 16 then
      (-1, { s with section_name := section_name, segment_name := segment_name }, f)
    else
      let (address, size, f) := read_section_sizes f bits
      let (v, f) := read_uint32 f
      let offset := toUInt32 v
      let (v, f) := read_uint32 f
      let align := toUInt32 v
      let (v, f) := read_uint32 f
      let relocation_offset := toUInt32 v
      let (v, f) := read_uint32 f
      let relocation_count := toUInt32 v
      let (v, f) := read_uint32 f
      let flags := toUInt32 v
      let (v, f) := read_uint32 f
      let reserved1 := toUInt32 v
      let (v, f) := read_uint32 f
      let reserved2 := toUInt32 v
      let (v, f) := read_uint32 f
      let reserved3 := toUInt32 v
      (0, ⟨section_name, segment_name, address, size, offset, align, relocation_offset,
        relocation_count, flags, reserved1, reserved2, reserved3⟩, f)

/-- Embedding of `macho_read_symtab`. -/
def macho_read_symtab (f : FILE) : Int × MachoSymtab × FILE :=
  let (v0, f) := read_uint32 f
  let (v1, f) := read_uint32 f
  let (v2, f) := read_uint32 f
  let (v3, f) := read_uint32 f
  (0, ⟨toUInt32 v0, toUInt32 v1, toUInt32 v2, toUInt32 v3⟩, f)

/-- Embedding of `macho_read_symbol`. -/
def macho_read_symbol (f : FILE) (bits : Nat) : Int × MachoSymbol × FILE :=
  let (v, f) := read_uint32 f
  let string_index := toUInt32 v
  let (v, f) := read_uint8 f
  let type := toUInt8 v
  let (v, f) := read_uint8 f
  let sect := toUInt8 v
  let (v, f) := read_uint16 f
  let desc := toUInt16 v
  if bits = 32 then
    let (v, f) := read_uint32 f
    (0, ⟨string_index, type, sect, desc, toUInt64 v⟩, f)
  else
    let (v, f) := read_uint64 f
    (0, ⟨string_index, type, sect, desc, v⟩, f)

/-- Embedding of `macho_read_dysymtab`. -/
def macho_read_dysymtab (f : FILE) : Int × MachoDysymtab × FILE :=
  let (v0, f) := read_uint32 f
  let (v1, f) := read_uint32 f
  let (v2, f) := read_uint32 f
  let (v3, f) := read_uint32 f
  let (v4, f) := read_uint32 f
  let (v5, f) := read_uint32 f
  let (v6, f) := read_uint32 f
  let (v7, f) := read_uint32 f
  let (v8, f) := read_uint32 f
  let (v9, f) := read_uint32 f
  let (v10, f) := read_uint32 f
  let (v11, f) := read_uint32 f
  let (v12, f) := read_uint32 f
  let (v13, f) := read_uint32 f
  let (v14, f) := read_uint32 f
  let (v15, f) := read_uint32 f
  let (v16, f) := read_uint32 f
  let (v17, f) := read_uint32 f
  (0, ⟨toUInt32 v0, toUInt32 v1, toUInt32 v2, toUInt32 v3, toUInt32 v4, toUInt32 v5,
       toUInt32 v6, toUInt32 v7, toUInt32 v8, toUInt32 v9, toUInt32 v10, toUInt32 v11,
       toUInt32 v12, toUInt32 v13, toUInt32 v14, toUInt32 v15, toUInt32 v16,
       toUInt32 v17⟩, f)

/-! ## macho.c: the printers that touch the stream -/

/-- The `while (1)` loop of `macho_print_symbol`: `getc` until a NUL byte or
`EOF`, printing every other character.  `fuel` bounds the number of
iterations; `macho_print_symbol` supplies more than the stream can use. -/
def print_name_loop : Nat → FILE → List Out × FILE
  | 0, f => ([], f)
  | fuel + 1, f =>
    let (ch, f) := getc f
    if ch = 0 ∨ ch = EOF then ([], f)
    else
      let (o, f) := print_name_loop fuel f
      (Out.chr (toUInt8 ch) :: o, f)

/-- Embedding of `macho_print_symbol`; `symtab` is the offset of the string
table.  The output is the field line, the characters of the name, and the
final newline. -/
def macho_print_symbol (s : MachoSymbol) (f : FILE) (symtab : Nat) : List Out × FILE :=
  let marker := ftell f
  let f := fseek_set f (symtab + s.string_index)
  let (o, f) := print_name_loop (f.data.length + 1) f
  let f := fseek_set f marker
  (Out.symbol s :: o ++ [Out.newline], f)

/-- The first `for` loop of `macho_print_symtab` (the string table dump):
`iters` iterations are left, `n` is the loop counter, `length` the length of
the entry being printed. -/
def string_table_loop : Nat → Nat → Nat → FILE → List Out × FILE
  | 0, _, _, f => ([], f)
  | iters + 1, n, length, f =>
    let (ch, f) := getc f
    if ch = 0 then
      if length = 0 then ([Out.newline], f)
      else
        let (o, f) := string_table_loop iters (n + 1) 0 f
        (Out.newline :: o, f)
    else
      let (o, f1) := string_table_loop iters (n + 1) (length + 1) f
      if length = 0 then (Out.str_label n :: Out.chr (toUInt8 ch) :: o, f1)
      else (Out.chr (toUInt8 ch) :: o, f1)

/-- The second `for` loop of `macho_print_symtab`: read and print
`count` symbols. -/
def symbol_loop : Nat → FILE → Nat → Nat → List Out × FILE
  | 0, f, _, _ => ([], f)
  | count + 1, f, bits, symtab =>
    let (_, sym, f) := macho_read_symbol f bits
    let (o1, f) := macho_print_symbol sym f symtab
    let (o2, f) := symbol_loop count f bits symtab
    (o1 ++ o2, f)

/-- Embedding of `macho_print_symtab`. -/
def macho_print_symtab (s : MachoSymtab) (f : FILE) (bits : Nat) : List Out × FILE :=
  let marker := ftell f
  let f := fseek_set f (u32_add s.string_table_offset 1)
  let (o1, f) := string_table_loop (s.string_table_size - 1) 1 0 f
  let f := fseek_set f s.symbol_table_offset
  let (o2, f) := symbol_loop s.symbol_count f bits s.string_table_offset
  let f := fseek_set f marker
  (Out.symtab s :: o1 ++ o2 ++ [Out.newline], f)

/-! ## print_macho.c -/

/-- The local records of `parse_macho` that a failed decoder call leaves
(partly) unchanged; their initial content is indeterminate. -/
structure Locals where
  macho_segment_load : MachoSegmentLoad
  macho_section : MachoSection
deriving DecidableEq, Repr

/-- The section loop of the segment case: `count` iterations are left. -/
def section_loop : Nat → MachoSection → FILE → Nat → List Out × MachoSection × FILE
  | 0, sec, f, _ => ([], sec, f)
  | count + 1, sec, f, bits =>
    let (_, sec, f) := macho_read_section sec f bits
    let (o, sec1, f) := section_loop count sec f bits
    (Out.sect sec :: o, sec1, f)

/-- The hex dump loop of the build-version case: `iters` iterations are
left, `n` is the loop counter. -/
def build_version_loop : Nat → Nat → FILE → List Out × FILE
  | 0, _, f => ([], f)
  | iters + 1, n, f =>
    let (ch, f) := getc f
    let (o, f) := build_version_loop iters (n + 1) f
    if n % 8 = 0 then (Out.newline :: Out.hex (toUInt32 ch) :: o, f)
    else (Out.hex (toUInt32 ch) :: o, f)

/-- The variable `bits` of `parse_macho`. -/
def parse_macho_bits (h : MachoHeader) : Nat :=
  if h.cpu_type &&& 0x01000000 = 0x01000000 then 64 else 32

/-- The `case 0x00000001: case 0x00000019:` branch of `parse_macho`: a segment
and its sections. -/
def parse_macho_segment (bits : Nat) (l : Locals) (f : FILE) : List Out × Locals × FILE :=
  let (_, seg, f) := macho_read_segment_load l.macho_segment_load f bits
  let (o, sec, f) := section_loop seg.section_count l.macho_section f bits
  (Out.segment_load seg :: o, ⟨seg, sec⟩, f)

/-- The `case 0x00000002:` branch of `parse_macho`: the symbol table. -/
def parse_macho_symtab (bits : Nat) (f : FILE) : List Out × FILE :=
  let (_, st, f) := macho_read_symtab f
  macho_print_symtab st f bits

/-- The `case 0x0000000b:` branch of `parse_macho`: the dynamic symbol table. -/
def parse_macho_dysymtab (f : FILE) : List Out × FILE :=
  let (_, d, f) := macho_read_dysymtab f
  ([Out.dysymtab d], f)

/-- The `case 0x00000032:` branch of `parse_macho`: a hex dump of
`size - 8` bytes (the subtraction is on `uint32_t`). -/
def parse_macho_build_version (size : Nat) (f : FILE) : List Out × FILE :=
  let (o, f) := build_version_loop (u32_sub size 8) 0 f
  (Out.build_version :: o ++ [Out.newline], f)

/-- The `default:` branch of `parse_macho`: `fseek(fp, size - 8, SEEK_CUR)`
(the subtraction is on `uint32_t`); `limit` is the offset limit of the
stream. -/
def parse_macho_default (limit : Nat) (size : Nat) (f : FILE) : FILE :=
  fseek_cur limit f (u32_sub size 8)

/-- The `switch (macho_load_command.type)` of `parse_macho`. -/
def parse_macho_switch (limit bits : Nat) (l : Locals) (lc : MachoLoadCommand) (f : FILE) :
    List Out × Locals × FILE :=
  if lc.type = 0x00000001 ∨ lc.type = 0x00000019 then
    parse_macho_segment bits l f
  else if lc.type = 0x00000002 then
    ((parse_macho_symtab bits f).1, l, (parse_macho_symtab bits f).2)
  else if lc.type = 0x0000000b then
    ((parse_macho_dysymtab f).1, l, (parse_macho_dysymtab f).2)
  else if lc.type = 0x00000032 then
    ((parse_macho_build_version lc.size f).1, l, (parse_macho_build_version lc.size f).2)
  else
    ([], l, parse_macho_default limit lc.size f)

/-- One iteration of the load-command loop of `parse_macho`: read the command
header, print it, then dispatch on its tag. -/
def parse_macho_command (limit bits : Nat) (l : Locals) (f : FILE) :
    List Out × Locals × FILE :=
  let (_, lc, f) := macho_read_load_command f
  let (o, l, f) := parse_macho_switch limit bits l lc f
  (Out.load_command lc :: o, l, f)

/-- The load-command loop of `parse_macho`: `count` iterations are left. -/
def parse_macho_loop (limit bits : Nat) : Nat → Locals → FILE → List Out × Locals × FILE
  | 0, l, f => ([], l, f)
  | count + 1, l, f =>
    let (o1, l, f) := parse_macho_command limit bits l f
    let (o2, l, f) := parse_macho_loop limit bits count l f
    (o1 ++ o2, l, f)

/-- Whether the three label lookups of `macho_print_header` stay inside their
tables for the header `h`. -/
def macho_print_header_defined (h : MachoHeader) : Bool :=
  (macho_print_header h).1.isSome && (macho_print_header h).2.1.isSome
    && (macho_print_header h).2.2.isSome

/-- Embedding of `parse_macho`; `l` is the initial content of the local
records and `limit` the offset limit of the stream.  The result is the return
code, the output and the stream.  It is `none` when the behaviour of the program
is undefined: the header is accepted and `macho_print_header`, which is called
before the loop, looks up a label outside its table. -/
def parse_macho (limit : Nat) (f : FILE) (l : Locals) : Option (Int × List Out × FILE) :=
  let (r, h, f) := macho_read_header f
  if r ≠ 0 then some (-1, [Out.error_not_macho], f)
  else if macho_print_header_defined h = false then none
  else
    let (o, _, f) := parse_macho_loop limit (parse_macho_bits h) h.load_command_count l f
    some (0, Out.header h :: o ++ [Out.file_offset (ftell f)], f)

/-! ## Observations on the output -/

/-- Whether an output event is a load-command header line, the line that
`macho_print_load_command` writes once per iteration of the loop of
`parse_macho`. -/
def is_load_command : Out → Bool
  | Out.load_command _ => true
  | _ => false

/-- The number of load commands that a run has processed, read off its
output: the number of load-command header lines. -/
def count_load_commands (o : List Out) : Nat := o.countP is_load_command

/-- The Symbol record of an output event, when the event is the field line
that `macho_print_symbol` writes for a record. -/
def as_symbol : Out → Option MachoSymbol
  | Out.symbol s => some s
  | _ => none

/-- The Symbol records that a run has decoded and printed, in order, read off
its output. -/
def symbols_of (o : List Out) : List MachoSymbol := o.filterMap as_symbol

/-! ## Lemmas on the byte reader -/

theorem toUInt32_lt (x : Int) : toUInt32 x < 2 ^ 32 := by
  unfold toUInt32; omega

theorem toUInt32_toInt32 (n : Nat) : toUInt32 (toInt32 n) = n % 2 ^ 32 := by
  unfold toUInt32 toInt32
  split <;> omega

theorem toUInt32_int_or (x y : Int) : toUInt32 (int_or x y) = toUInt32 x ||| toUInt32 y := by
  unfold int_or
  rw [toUInt32_toInt32]
  exact Nat.mod_eq_of_lt (Nat.or_lt_two_pow (toUInt32_lt x) (toUInt32_lt y))

theorem toUInt32_int_shl (x : Int) (k : Nat) :
    toUInt32 (int_shl x k) = (toUInt32 x <<< k) % 2 ^ 32 := by
  unfold int_shl
  rw [toUInt32_toInt32, Nat.mod_mod]

theorem toUInt32_byte (b : Byte) : toUInt32 (b.val : Int) = b.val := by
  have := b.isLt
  unfold toUInt32; omega

theorem toUInt64_byte (b : Byte) : toUInt64 (b.val : Int) = b.val := by
  have := b.isLt
  unfold toUInt64; omega

theorem toUInt32_EOF : toUInt32 EOF = 2 ^ 32 - 1 := by decide

theorem toUInt64_EOF : toUInt64 EOF = 2 ^ 64 - 1 := by decide

/-- A value below `2^i` and a multiple of `2^i` have no bit in common. -/
theorem or_eq_add_of_dvd (a c i : Nat) (h : a < 2 ^ i) (hd : 2 ^ i ∣ c) : a ||| c = a + c := by
  obtain ⟨m, rfl⟩ := hd
  rw [Nat.or_comm, ← Nat.mul_add_lt_is_or h, Nat.add_comm]

theorem shl_mod_byte (b k w : Nat) (hb : b < 256) (hk : k + 8 ≤ w) :
    (b <<< k) % 2 ^ w = b * 2 ^ k := by
  rw [Nat.shiftLeft_eq]
  apply Nat.mod_eq_of_lt
  calc b * 2 ^ k < 256 * 2 ^ k := Nat.mul_lt_mul_of_pos_right hb (Nat.two_pow_pos k)
    _ = 2 ^ (k + 8) := by rw [Nat.pow_add]; omega
    _ ≤ 2 ^ w := Nat.pow_le_pow_right (by decide) hk

theorem or_step (c s a i : Nat) (hc : c = s) (hs : s < 2 ^ i) (hd : 2 ^ i ∣ a) :
    c ||| a = s + a := by
  subst hc
  exact or_eq_add_of_dvd _ _ i hs hd

theorem or_absorb (c s d a i : Nat) (hc : c = s + d) (hs : s < 2 ^ i) (hd : 2 ^ i ∣ d)
    (ha : d ||| a = d) : c ||| a = s + d := by
  subst hc
  rw [← or_eq_add_of_dvd _ _ i hs hd, Nat.or_assoc, ha]

theorem or16_avail0 :
    (2 ^ 32 - 1) ||| ((2 ^ 32 - 1) <<< 8) % 2 ^ 32
      = (2 ^ 32 - 256 ^ 0) := by
  exact (or_absorb _ _ _ _ 0 (Nat.zero_add _).symm (by omega) (by decide) (by decide)).trans
    (by norm_num [Nat.shiftLeft_eq])

theorem or16_avail1 (b0 : Nat) (h0 : b0 < 256) :
    b0 ||| ((2 ^ 32 - 1) <<< 8) % 2 ^ 32
      = b0 + (2 ^ 32 - 256 ^ 1) := by
  exact (or_step _ _ _ 8 rfl (by omega) (by decide)).trans
    (by norm_num [Nat.shiftLeft_eq])

theorem or16_avail2 (b0 b1 : Nat) (h0 : b0 < 256) (h1 : b1 < 256) :
    b0 ||| (b1 <<< 8) % 2 ^ 32
      = b0 + b1 * 256 ^ 1 := by
  rw [shl_mod_byte _ 8 32 h1 (by omega)]
  exact (or_step _ _ _ 8 rfl (by omega) (by omega)).trans
    (by norm_num [Nat.shiftLeft_eq])

theorem or32_avail0 :
    (2 ^ 32 - 1) ||| ((2 ^ 32 - 1) <<< 8) % 2 ^ 32 ||| ((2 ^ 32 - 1) <<< 16) % 2 ^ 32 ||| ((2 ^ 32 - 1) <<< 24) % 2 ^ 32
      = (2 ^ 32 - 256 ^ 0) := by
  exact (or_absorb _ _ _ _ 0 (or_absorb _ _ _ _ 0 (or_absorb _ _ _ _ 0 (Nat.zero_add _).symm (by omega) (by decide) (by decide)) (by omega) (by decide) (by decide)) (by omega) (by decide) (by decide)).trans
    (by norm_num [Nat.shiftLeft_eq])

theorem or32_avail1 (b0 : Nat) (h0 : b0 < 256) :
    b0 ||| ((2 ^ 32 - 1) <<< 8) % 2 ^ 32 ||| ((2 ^ 32 - 1) <<< 16) % 2 ^ 32 ||| ((2 ^ 32 - 1) <<< 24) % 2 ^ 32
      = b0 + (2 ^ 32 - 256 ^ 1) := by
  exact (or_absorb _ _ _ _ 8 (or_absorb _ _ _ _ 8 (or_step _ _ _ 8 rfl (by omega) (by decide)) (by omega) (by decide) (by decide)) (by omega) (by decide) (by decide)).trans
    (by norm_num [Nat.shiftLeft_eq])

theorem or32_avail2 (b0 b1 : Nat) (h0 : b0 < 256) (h1 : b1 < 256) :
    b0 ||| (b1 <<< 8) % 2 ^ 32 ||| ((2 ^ 32 - 1) <<< 16) % 2 ^ 32 ||| ((2 ^ 32 - 1) <<< 24) % 2 ^ 32
      = b0 + b1 * 256 ^ 1 + (2 ^ 32 - 256 ^ 2) := by
  rw [shl_mod_byte _ 8 32 h1 (by omega)]
  exact (or_absorb _ _ _ _ 16 (or_step _ _ _ 16 (or_step _ _ _ 8 rfl (by omega) (by omega)) (by omega) (by decide)) (by omega) (by decide) (by decide)).trans
    (by norm_num [Nat.shiftLeft_eq])

theorem or32_avail3 (b0 b1 b2 : Nat) (h0 : b0 < 256) (h1 : b1 < 256) (h2 : b2 < 256) :
    b0 ||| (b1 <<< 8) % 2 ^ 32 ||| (b2 <<< 16) % 2 ^ 32 ||| ((2 ^ 32 - 1) <<< 24) % 2 ^ 32
      = b0 + b1 * 256 ^ 1 + b2 * 256 ^ 2 + (2 ^ 32 - 256 ^ 3) := by
  rw [shl_mod_byte _ 8 32 h1 (by omega), shl_mod_byte _ 16 32 h2 (by omega)]
  exact (or_step _ _ _ 24 (or_step _ _ _ 16 (or_step _ _ _ 8 rfl (by omega) (by omega)) (by omega) (by omega)) (by omega) (by decide)).trans
    (by norm_num [Nat.shiftLeft_eq])

theorem or32_avail4 (b0 b1 b2 b3 : Nat) (h0 : b0 < 256) (h1 : b1 < 256) (h2 : b2 < 256) (h3 : b3 < 256) :
    b0 ||| (b1 <<< 8) % 2 ^ 32 ||| (b2 <<< 16) % 2 ^ 32 ||| (b3 <<< 24) % 2 ^ 32
      = b0 + b1 * 256 ^ 1 + b2 * 256 ^ 2 + b3 * 256 ^ 3 := by
  rw [shl_mod_byte _ 8 32 h1 (by omega), shl_mod_byte _ 16 32 h2 (by omega), shl_mod_byte _ 24 32 h3 (by omega)]
  exact (or_step _ _ _ 24 (or_step _ _ _ 16 (or_step _ _ _ 8 rfl (by omega) (by omega)) (by omega) (by omega)) (by omega) (by omega)).trans
    (by norm_num [Nat.shiftLeft_eq])

theorem or64_avail0 :
    (2 ^ 64 - 1) ||| ((2 ^ 64 - 1) <<< 8) % 2 ^ 64 ||| ((2 ^ 64 - 1) <<< 16) % 2 ^ 64 ||| ((2 ^ 64 - 1) <<< 24) % 2 ^ 64 ||| ((2 ^ 64 - 1) <<< 32) % 2 ^ 64 ||| ((2 ^ 64 - 1) <<< 40) % 2 ^ 64 ||| ((2 ^ 64 - 1) <<< 48) % 2 ^ 64 ||| ((2 ^ 64 - 1) <<< 56) % 2 ^ 64
      = (2 ^ 64 - 256 ^ 0) := by
  exact (or_absorb _ _ _ _ 0 (or_absorb _ _ _ _ 0 (or_absorb _ _ _ _ 0 (or_absorb _ _ _ _ 0 (or_absorb _ _ _ _ 0 (or_absorb _ _ _ _ 0 (or_absorb _ _ _ _ 0 (Nat.zero_add _).symm (by omega) (by decide) (by decide)) (by omega) (by decide) (by decide)) (by omega) (by decide) (by decide)) (by omega) (by decide) (by decide)) (by omega) (by decide) (by decide)) (by omega) (by decide) (by decide)) (by omega) (by decide) (by decide)).trans
    (by norm_num [Nat.shiftLeft_eq])

theorem or64_avail1 (b0 : Nat) (h0 : b0 < 256) :
    b0 ||| ((2 ^ 64 - 1) <<< 8) % 2 ^ 64 ||| ((2 ^ 64 - 1) <<< 16) % 2 ^ 64 ||| ((2 ^ 64 - 1) <<< 24) % 2 ^ 64 ||| ((2 ^ 64 - 1) <<< 32) % 2 ^ 64 ||| ((2 ^ 64 - 1) <<< 40) % 2 ^ 64 ||| ((2 ^ 64 - 1) <<< 48) % 2 ^ 64 ||| ((2 ^ 64 - 1) <<< 56) % 2 ^ 64
      = b0 + (2 ^ 64 - 256 ^ 1) := by
  exact (or_absorb _ _ _ _ 8 (or_absorb _ _ _ _ 8 (or_absorb _ _ _ _ 8 (or_absorb _ _ _ _ 8 (or_absorb _ _ _ _ 8 (or_absorb _ _ _ _ 8 (or_step _ _ _ 8 rfl (by omega) (by decide)) (by omega) (by decide) (by decide)) (by omega) (by decide) (by decide)) (by omega) (by decide) (by decide)) (by omega) (by decide) (by decide)) (by omega) (by decide) (by decide)) (by omega) (by decide) (by decide)).trans
    (by norm_num [Nat.shiftLeft_eq])

theorem or64_avail2 (b0 b1 : Nat) (h0 : b0 < 256) (h1 : b1 < 256) :
    b0 ||| (b1 <<< 8) % 2 ^ 64 ||| ((2 ^ 64 - 1) <<< 16) % 2 ^ 64 ||| ((2 ^ 64 - 1) <<< 24) % 2 ^ 64 ||| ((2 ^ 64 - 1) <<< 32) % 2 ^ 64 ||| ((2 ^ 64 - 1) <<< 40) % 2 ^ 64 ||| ((2 ^ 64 - 1) <<< 48) % 2 ^ 64 ||| ((2 ^ 64 - 1) <<< 56) % 2 ^ 64
      = b0 + b1 * 256 ^ 1 + (2 ^ 64 - 256 ^ 2) := by
  rw [shl_mod_byte _ 8 64 h1 (by omega)]
  exact (or_absorb _ _ _ _ 16 (or_absorb _ _ _ _ 16 (or_absorb _ _ _ _ 16 (or_absorb _ _ _ _ 16 (or_absorb _ _ _ _ 16 (or_step _ _ _ 16 (or_step _ _ _ 8 rfl (by omega) (by omega)) (by omega) (by decide)) (by omega) (by decide) (by decide)) (by omega) (by decide) (by decide)) (by omega) (by decide) (by decide)) (by omega) (by decide) (by decide)) (by omega) (by decide) (by decide)).trans
    (by norm_num [Nat.shiftLeft_eq])

theorem or64_avail3 (b0 b1 b2 : Nat) (h0 : b0 < 256) (h1 : b1 < 256) (h2 : b2 < 256) :
    b0 ||| (b1 <<< 8) % 2 ^ 64 ||| (b2 <<< 16) % 2 ^ 64 ||| ((2 ^ 64 - 1) <<< 24) % 2 ^ 64 ||| ((2 ^ 64 - 1) <<< 32) % 2 ^ 64 ||| ((2 ^ 64 - 1) <<< 40) % 2 ^ 64 ||| ((2 ^ 64 - 1) <<< 48) % 2 ^ 64 ||| ((2 ^ 64 - 1) <<< 56) % 2 ^ 64
      = b0 + b1 * 256 ^ 1 + b2 * 256 ^ 2 + (2 ^ 64 - 256 ^ 3) := by
  rw [shl_mod_byte _ 8 64 h1 (by omega), shl_mod_byte _ 16 64 h2 (by omega)]
  exact (or_absorb _ _ _ _ 24 (or_absorb _ _ _ _ 24 (or_absorb _ _ _ _ 24 (or_absorb _ _ _ _ 24 (or_step _ _ _ 24 (or_step _ _ _ 16 (or_step _ _ _ 8 rfl (by omega) (by omega)) (by omega) (by omega)) (by omega) (by decide)) (by omega) (by decide) (by decide)) (by omega) (by decide) (by decide)) (by omega) (by decide) (by decide)) (by omega) (by decide) (by decide)).trans
    (by norm_num [Nat.shiftLeft_eq])

theorem or64_avail4 (b0 b1 b2 b3 : Nat) (h0 : b0 < 256) (h1 : b1 < 256) (h2 : b2 < 256) (h3 : b3 < 256) :
    b0 ||| (b1 <<< 8) % 2 ^ 64 ||| (b2 <<< 16) % 2 ^ 64 ||| (b3 <<< 24) % 2 ^ 64 ||| ((2 ^ 64 - 1) <<< 32) % 2 ^ 64 ||| ((2 ^ 64 - 1) <<< 40) % 2 ^ 64 ||| ((2 ^ 64 - 1) <<< 48) % 2 ^ 64 ||| ((2 ^ 64 - 1) <<< 56) % 2 ^ 64
      = b0 + b1 * 256 ^ 1 + b2 * 256 ^ 2 + b3 * 256 ^ 3 + (2 ^ 64 - 256 ^ 4) := by
  rw [shl_mod_byte _ 8 64 h1 (by omega), shl_mod_byte _ 16 64 h2 (by omega), shl_mod_byte _ 24 64 h3 (by omega)]
  exact (or_absorb _ _ _ _ 32 (or_absorb _ _ _ _ 32 (or_absorb _ _ _ _ 32 (or_step _ _ _ 32 (or_step _ _ _ 24 (or_step _ _ _ 16 (or_step _ _ _ 8 rfl (by omega) (by omega)) (by omega) (by omega)) (by omega) (by omega)) (by omega) (by decide)) (by omega) (by decide) (by decide)) (by omega) (by decide) (by decide)) (by omega) (by decide) (by decide)).trans
    (by norm_num [Nat.shiftLeft_eq])

theorem or64_avail5 (b0 b1 b2 b3 b4 : Nat) (h0 : b0 < 256) (h1 : b1 < 256) (h2 : b2 < 256) (h3 : b3 < 256) (h4 : b4 < 256) :
    b0 ||| (b1 <<< 8) % 2 ^ 64 ||| (b2 <<< 16) % 2 ^ 64 ||| (b3 <<< 24) % 2 ^ 64 ||| (b4 <<< 32) % 2 ^ 64 ||| ((2 ^ 64 - 1) <<< 40) % 2 ^ 64 ||| ((2 ^ 64 - 1) <<< 48) % 2 ^ 64 ||| ((2 ^ 64 - 1) <<< 56) % 2 ^ 64
      = b0 + b1 * 256 ^ 1 + b2 * 256 ^ 2 + b3 * 256 ^ 3 + b4 * 256 ^ 4 + (2 ^ 64 - 256 ^ 5) := by
  rw [shl_mod_byte _ 8 64 h1 (by omega), shl_mod_byte _ 16 64 h2 (by omega), shl_mod_byte _ 24 64 h3 (by omega), shl_mod_byte _ 32 64 h4 (by omega)]
  exact (or_absorb _ _ _ _ 40 (or_absorb _ _ _ _ 40 (or_step _ _ _ 40 (or_step _ _ _ 32 (or_step _ _ _ 24 (or_step _ _ _ 16 (or_step _ _ _ 8 rfl (by omega) (by omega)) (by omega) (by omega)) (by omega) (by omega)) (by omega) (by omega)) (by omega) (by decide)) (by omega) (by decide) (by decide)) (by omega) (by decide) (by decide)).trans
    (by norm_num [Nat.shiftLeft_eq])

theorem or64_avail6 (b0 b1 b2 b3 b4 b5 : Nat) (h0 : b0 < 256) (h1 : b1 < 256) (h2 : b2 < 256) (h3 : b3 < 256) (h4 : b4 < 256) (h5 : b5 < 256) :
    b0 ||| (b1 <<< 8) % 2 ^ 64 ||| (b2 <<< 16) % 2 ^ 64 ||| (b3 <<< 24) % 2 ^ 64 ||| (b4 <<< 32) % 2 ^ 64 ||| (b5 <<< 40) % 2 ^ 64 ||| ((2 ^ 64 - 1) <<< 48) % 2 ^ 64 ||| ((2 ^ 64 - 1) <<< 56) % 2 ^ 64
      = b0 + b1 * 256 ^ 1 + b2 * 256 ^ 2 + b3 * 256 ^ 3 + b4 * 256 ^ 4 + b5 * 256 ^ 5 + (2 ^ 64 - 256 ^ 6) := by
  rw [shl_mod_byte _ 8 64 h1 (by omega), shl_mod_byte _ 16 64 h2 (by omega), shl_mod_byte _ 24 64 h3 (by omega), shl_mod_byte _ 32 64 h4 (by omega), shl_mod_byte _ 40 64 h5 (by omega)]
  exact (or_absorb _ _ _ _ 48 (or_step _ _ _ 48 (or_step _ _ _ 40 (or_step _ _ _ 32 (or_step _ _ _ 24 (or_step _ _ _ 16 (or_step _ _ _ 8 rfl (by omega) (by omega)) (by omega) (by omega)) (by omega) (by omega)) (by omega) (by omega)) (by omega) (by omega)) (by omega) (by decide)) (by omega) (by decide) (by decide)).trans
    (by norm_num [Nat.shiftLeft_eq])

theorem or64_avail7 (b0 b1 b2 b3 b4 b5 b6 : Nat) (h0 : b0 < 256) (h1 : b1 < 256) (h2 : b2 < 256) (h3 : b3 < 256) (h4 : b4 < 256) (h5 : b5 < 256) (h6 : b6 < 256) :
    b0 ||| (b1 <<< 8) % 2 ^ 64 ||| (b2 <<< 16) % 2 ^ 64 ||| (b3 <<< 24) % 2 ^ 64 ||| (b4 <<< 32) % 2 ^ 64 ||| (b5 <<< 40) % 2 ^ 64 ||| (b6 <<< 48) % 2 ^ 64 ||| ((2 ^ 64 - 1) <<< 56) % 2 ^ 64
      = b0 + b1 * 256 ^ 1 + b2 * 256 ^ 2 + b3 * 256 ^ 3 + b4 * 256 ^ 4 + b5 * 256 ^ 5 + b6 * 256 ^ 6 + (2 ^ 64 - 256 ^ 7) := by
  rw [shl_mod_byte _ 8 64 h1 (by omega), shl_mod_byte _ 16 64 h2 (by omega), shl_mod_byte _ 24 64 h3 (by omega), shl_mod_byte _ 32 64 h4 (by omega), shl_mod_byte _ 40 64 h5 (by omega), shl_mod_byte _ 48 64 h6 (by omega)]
  exact (or_step _ _ _ 56 (or_step _ _ _ 48 (or_step _ _ _ 40 (or_step _ _ _ 32 (or_step _ _ _ 24 (or_step _ _ _ 16 (or_step _ _ _ 8 rfl (by omega) (by omega)) (by omega) (by omega)) (by omega) (by omega)) (by omega) (by omega)) (by omega) (by omega)) (by omega) (by omega)) (by omega) (by decide)).trans
    (by norm_num [Nat.shiftLeft_eq])

theorem or64_avail8 (b0 b1 b2 b3 b4 b5 b6 b7 : Nat) (h0 : b0 < 256) (h1 : b1 < 256) (h2 : b2 < 256) (h3 : b3 < 256) (h4 : b4 < 256) (h5 : b5 < 256) (h6 : b6 < 256) (h7 : b7 < 256) :
    b0 ||| (b1 <<< 8) % 2 ^ 64 ||| (b2 <<< 16) % 2 ^ 64 ||| (b3 <<< 24) % 2 ^ 64 ||| (b4 <<< 32) % 2 ^ 64 ||| (b5 <<< 40) % 2 ^ 64 ||| (b6 <<< 48) % 2 ^ 64 ||| (b7 <<< 56) % 2 ^ 64
      = b0 + b1 * 256 ^ 1 + b2 * 256 ^ 2 + b3 * 256 ^ 3 + b4 * 256 ^ 4 + b5 * 256 ^ 5 + b6 * 256 ^ 6 + b7 * 256 ^ 7 := by
  rw [shl_mod_byte _ 8 64 h1 (by omega), shl_mod_byte _ 16 64 h2 (by omega), shl_mod_byte _ 24 64 h3 (by omega), shl_mod_byte _ 32 64 h4 (by omega), shl_mod_byte _ 40 64 h5 (by omega), shl_mod_byte _ 48 64 h6 (by omega), shl_mod_byte _ 56 64 h7 (by omega)]
  exact (or_step _ _ _ 56 (or_step _ _ _ 48 (or_step _ _ _ 40 (or_step _ _ _ 32 (or_step _ _ _ 24 (or_step _ _ _ 16 (or_step _ _ _ 8 rfl (by omega) (by omega)) (by omega) (by omega)) (by omega) (by omega)) (by omega) (by omega)) (by omega) (by omega)) (by omega) (by omega)) (by omega) (by omega)).trans
    (by norm_num [Nat.shiftLeft_eq])

theorem getc_cons (d : List Byte) (p : Nat) (b : Byte) (rest : List Byte)
    (h : d.drop p = b :: rest) :
    getc ⟨d, p⟩ = ((b.val : Int), ⟨d, p + 1⟩) ∧ d.drop (p + 1) = rest := by
  have h0 : d[p]? = some b := by
    have := List.getElem?_drop (L := d) (i := p) (j := 0)
    rw [h] at this
    simpa using this.symm
  constructor
  · simp [getc, h0]
  · rw [← List.drop_drop, h]
    rfl

theorem getc_nil (d : List Byte) (p : Nat) (h : d.drop p = []) :
    getc ⟨d, p⟩ = (EOF, ⟨d, p⟩) := by
  have h0 : d[p]? = none := by
    have := List.getElem?_drop (L := d) (i := p) (j := 0)
    rw [h] at this
    simpa using this.symm
  simp [getc, h0]

theorem byte_at_eq (d : List Byte) (p j : Nat) :
    byte_at ⟨d, p⟩ j = (((d.drop p).getD j 0).val : Nat) := by
  unfold byte_at
  rw [List.getD_eq_getElem?_getD, List.getD_eq_getElem?_getD, List.getElem?_drop]


theorem int_or_chain2 (g0 g1 : Int) :
    int_or g0 (int_shl g1 8) = toInt32 (toUInt32 g0 ||| (toUInt32 g1 <<< 8) % 2 ^ 32) := by
  rw [int_or, toUInt32_int_shl]

theorem int_or_chain4 (g0 g1 g2 g3 : Int) :
    int_or (int_or (int_or g0 (int_shl g1 8)) (int_shl g2 16)) (int_shl g3 24)
      = toInt32 (toUInt32 g0 ||| (toUInt32 g1 <<< 8) % 2 ^ 32 ||| (toUInt32 g2 <<< 16) % 2 ^ 32
          ||| (toUInt32 g3 <<< 24) % 2 ^ 32) := by
  rw [int_or, toUInt32_int_or, toUInt32_int_or, toUInt32_int_shl, toUInt32_int_shl,
    toUInt32_int_shl]

theorem read_uint16_of_getc (f f1 f2 : FILE) (g0 g1 : Int)
    (h0 : getc f = (g0, f1)) (h1 : getc f1 = (g1, f2)) :
    read_uint16 f = (toInt32 (toUInt32 g0 ||| (toUInt32 g1 <<< 8) % 2 ^ 32), f2) := by
  unfold read_uint16
  rw [h0]; dsimp only
  rw [h1]
  rw [int_or_chain2]

theorem read_uint16_eq (f : FILE) :
    read_uint16 f = (toInt32 (le_sum f (avail f 2) + eof_fill 32 2 (avail f 2)),
      { f with pos := f.pos + avail f 2 }) := by
  obtain ⟨d, p⟩ := f
  have hl : (d.drop p).length = d.length - p := List.length_drop _ _
  rcases h : d.drop p with
    _ | ⟨b0, _ | ⟨b1, rest⟩⟩
  · have e0 := getc_nil _ _ h
    have hk : avail ⟨d, p⟩ 2 = 0 := by rw [h] at hl; simp at hl; simp [avail]; omega
    rw [read_uint16_of_getc _ _ _ _ _ e0 e0]
    simp only [toUInt32_EOF, or16_avail0, hk]
    simp [le_sum, eof_fill, byte_at_eq, h, List.range_succ, Nat.add_assoc]
  · obtain ⟨e0, r0⟩ := getc_cons _ _ _ _ h
    have e1 := getc_nil _ _ r0
    have hk : avail ⟨d, p⟩ 2 = 1 := by rw [h] at hl; simp at hl; simp [avail]; omega
    rw [read_uint16_of_getc _ _ _ _ _ e0 e1]
    simp only [toUInt32_EOF, toUInt32_byte, or16_avail1 _ b0.isLt, hk]
    simp [le_sum, eof_fill, byte_at_eq, h, List.range_succ, Nat.add_assoc]
  · obtain ⟨e0, r0⟩ := getc_cons _ _ _ _ h
    obtain ⟨e1, -⟩ := getc_cons _ _ _ _ r0
    have hk : avail ⟨d, p⟩ 2 = 2 := by rw [h] at hl; simp at hl; simp [avail]; omega
    rw [read_uint16_of_getc _ _ _ _ _ e0 e1]
    simp only [toUInt32_byte, or16_avail2 _ _ b0.isLt b1.isLt, hk]
    simp [le_sum, eof_fill, byte_at_eq, h, List.range_succ, Nat.add_assoc]

theorem read_uint32_of_getc (f f1 f2 f3 f4 : FILE) (g0 g1 g2 g3 : Int)
    (h0 : getc f = (g0, f1)) (h1 : getc f1 = (g1, f2)) (h2 : getc f2 = (g2, f3))
    (h3 : getc f3 = (g3, f4)) :
    read_uint32 f = (toInt32 (toUInt32 g0 ||| (toUInt32 g1 <<< 8) % 2 ^ 32 ||| (toUInt32 g2 <<< 16) % 2 ^ 32 ||| (toUInt32 g3 <<< 24) % 2 ^ 32), f4) := by
  unfold read_uint32
  rw [h0]; dsimp only
  rw [h1]; dsimp only
  rw [h2]; dsimp only
  rw [h3]
  rw [int_or_chain4]

theorem read_uint32_eq (f : FILE) :
    read_uint32 f = (toInt32 (le_sum f (avail f 4) + eof_fill 32 4 (avail f 4)),
      { f with pos := f.pos + avail f 4 }) := by
  obtain ⟨d, p⟩ := f
  have hl : (d.drop p).length = d.length - p := List.length_drop _ _
  rcases h : d.drop p with
    _ | ⟨b0, _ | ⟨b1, _ | ⟨b2, _ | ⟨b3, rest⟩⟩⟩⟩
  · have e0 := getc_nil _ _ h
    have hk : avail ⟨d, p⟩ 4 = 0 := by rw [h] at hl; simp at hl; simp [avail]; omega
    rw [read_uint32_of_getc _ _ _ _ _ _ _ _ _ e0 e0 e0 e0]
    simp only [toUInt32_EOF, or32_avail0, hk]
    simp [le_sum, eof_fill, byte_at_eq, h, List.range_succ, Nat.add_assoc]
  · obtain ⟨e0, r0⟩ := getc_cons _ _ _ _ h
    have e1 := getc_nil _ _ r0
    have hk : avail ⟨d, p⟩ 4 = 1 := by rw [h] at hl; simp at hl; simp [avail]; omega
    rw [read_uint32_of_getc _ _ _ _ _ _ _ _ _ e0 e1 e1 e1]
    simp only [toUInt32_EOF, toUInt32_byte, or32_avail1 _ b0.isLt, hk]
    simp [le_sum, eof_fill, byte_at_eq, h, List.range_succ, Nat.add_assoc]
  · obtain ⟨e0, r0⟩ := getc_cons _ _ _ _ h
    obtain ⟨e1, r1⟩ := getc_cons _ _ _ _ r0
    have e2 := getc_nil _ _ r1
    have hk : avail ⟨d, p⟩ 4 = 2 := by rw [h] at hl; simp at hl; simp [avail]; omega
    rw [read_uint32_of_getc _ _ _ _ _ _ _ _ _ e0 e1 e2 e2]
    simp only [toUInt32_EOF, toUInt32_byte, or32_avail2 _ _ b0.isLt b1.isLt, hk]
    simp [le_sum, eof_fill, byte_at_eq, h, List.range_succ, Nat.add_assoc]
  · obtain ⟨e0, r0⟩ := getc_cons _ _ _ _ h
    obtain ⟨e1, r1⟩ := getc_cons _ _ _ _ r0
    obtain ⟨e2, r2⟩ := getc_cons _ _ _ _ r1
    have e3 := getc_nil _ _ r2
    have hk : avail ⟨d, p⟩ 4 = 3 := by rw [h] at hl; simp at hl; simp [avail]; omega
    rw [read_uint32_of_getc _ _ _ _ _ _ _ _ _ e0 e1 e2 e3]
    simp only [toUInt32_EOF, toUInt32_byte, or32_avail3 _ _ _ b0.isLt b1.isLt b2.isLt, hk]
    simp [le_sum, eof_fill, byte_at_eq, h, List.range_succ, Nat.add_assoc]
  · obtain ⟨e0, r0⟩ := getc_cons _ _ _ _ h
    obtain ⟨e1, r1⟩ := getc_cons _ _ _ _ r0
    obtain ⟨e2, r2⟩ := getc_cons _ _ _ _ r1
    obtain ⟨e3, -⟩ := getc_cons _ _ _ _ r2
    have hk : avail ⟨d, p⟩ 4 = 4 := by rw [h] at hl; simp at hl; simp [avail]; omega
    rw [read_uint32_of_getc _ _ _ _ _ _ _ _ _ e0 e1 e2 e3]
    simp only [toUInt32_byte, or32_avail4 _ _ _ _ b0.isLt b1.isLt b2.isLt b3.isLt, hk]
    simp [le_sum, eof_fill, byte_at_eq, h, List.range_succ, Nat.add_assoc]

theorem read_uint64_of_getc (f f1 f2 f3 f4 f5 f6 f7 f8 : FILE) (g0 g1 g2 g3 g4 g5 g6 g7 : Int)
    (h0 : getc f = (g0, f1)) (h1 : getc f1 = (g1, f2)) (h2 : getc f2 = (g2, f3))
    (h3 : getc f3 = (g3, f4)) (h4 : getc f4 = (g4, f5)) (h5 : getc f5 = (g5, f6))
    (h6 : getc f6 = (g6, f7)) (h7 : getc f7 = (g7, f8)) :
    read_uint64 f = (toUInt64 g0 ||| (toUInt64 g1 <<< 8) % 2 ^ 64 ||| (toUInt64 g2 <<< 16) % 2 ^ 64 ||| (toUInt64 g3 <<< 24) % 2 ^ 64
      ||| (toUInt64 g4 <<< 32) % 2 ^ 64 ||| (toUInt64 g5 <<< 40) % 2 ^ 64 ||| (toUInt64 g6 <<< 48) % 2 ^ 64 ||| (toUInt64 g7 <<< 56) % 2 ^ 64, f8) := by
  unfold read_uint64 u64_shl
  rw [h0]; dsimp only
  rw [h1]; dsimp only
  rw [h2]; dsimp only
  rw [h3]; dsimp only
  rw [h4]; dsimp only
  rw [h5]; dsimp only
  rw [h6]; dsimp only
  rw [h7]

theorem read_uint64_eq (f : FILE) :
    read_uint64 f = (le_sum f (avail f 8) + eof_fill 64 8 (avail f 8),
      { f with pos := f.pos + avail f 8 }) := by
  obtain ⟨d, p⟩ := f
  have hl : (d.drop p).length = d.length - p := List.length_drop _ _
  rcases h : d.drop p with
    _ | ⟨b0, _ | ⟨b1, _ | ⟨b2, _ | ⟨b3, _ | ⟨b4, _ | ⟨b5, _ | ⟨b6, _ | ⟨b7, rest⟩⟩⟩⟩⟩⟩⟩⟩
  · have e0 := getc_nil _ _ h
    have hk : avail ⟨d, p⟩ 8 = 0 := by rw [h] at hl; simp at hl; simp [avail]; omega
    rw [read_uint64_of_getc _ _ _ _ _ _ _ _ _ _ _ _ _ _ _ _ _ e0 e0 e0 e0 e0 e0 e0 e0]
    simp only [toUInt64_EOF, or64_avail0, hk]
    simp [le_sum, eof_fill, byte_at_eq, h, List.range_succ, Nat.add_assoc]
  · obtain ⟨e0, r0⟩ := getc_cons _ _ _ _ h
    have e1 := getc_nil _ _ r0
    have hk : avail ⟨d, p⟩ 8 = 1 := by rw [h] at hl; simp at hl; simp [avail]; omega
    rw [read_uint64_of_getc _ _ _ _ _ _ _ _ _ _ _ _ _ _ _ _ _ e0 e1 e1 e1 e1 e1 e1 e1]
    simp only [toUInt64_EOF, toUInt64_byte, or64_avail1 _ b0.isLt, hk]
    simp [le_sum, eof_fill, byte_at_eq, h, List.range_succ, Nat.add_assoc]
  · obtain ⟨e0, r0⟩ := getc_cons _ _ _ _ h
    obtain ⟨e1, r1⟩ := getc_cons _ _ _ _ r0
    have e2 := getc_nil _ _ r1
    have hk : avail ⟨d, p⟩ 8 = 2 := by rw [h] at hl; simp at hl; simp [avail]; omega
    rw [read_uint64_of_getc _ _ _ _ _ _ _ _ _ _ _ _ _ _ _ _ _ e0 e1 e2 e2 e2 e2 e2 e2]
    simp only [toUInt64_EOF, toUInt64_byte, or64_avail2 _ _ b0.isLt b1.isLt, hk]
    simp [le_sum, eof_fill, byte_at_eq, h, List.range_succ, Nat.add_assoc]
  · obtain ⟨e0, r0⟩ := getc_cons _ _ _ _ h
    obtain ⟨e1, r1⟩ := getc_cons _ _ _ _ r0
    obtain ⟨e2, r2⟩ := getc_cons _ _ _ _ r1
    have e3 := getc_nil _ _ r2
    have hk : avail ⟨d, p⟩ 8 = 3 := by rw [h] at hl; simp at hl; simp [avail]; omega
    rw [read_uint64_of_getc _ _ _ _ _ _ _ _ _ _ _ _ _ _ _ _ _ e0 e1 e2 e3 e3 e3 e3 e3]
    simp only [toUInt64_EOF, toUInt64_byte, or64_avail3 _ _ _ b0.isLt b1.isLt b2.isLt, hk]
    simp [le_sum, eof_fill, byte_at_eq, h, List.range_succ, Nat.add_assoc]
  · obtain ⟨e0, r0⟩ := getc_cons _ _ _ _ h
    obtain ⟨e1, r1⟩ := getc_cons _ _ _ _ r0
    obtain ⟨e2, r2⟩ := getc_cons _ _ _ _ r1
    obtain ⟨e3, r3⟩ := getc_cons _ _ _ _ r2
    have e4 := getc_nil _ _ r3
    have hk : avail ⟨d, p⟩ 8 = 4 := by rw [h] at hl; simp at hl; simp [avail]; omega
    rw [read_uint64_of_getc _ _ _ _ _ _ _ _ _ _ _ _ _ _ _ _ _ e0 e1 e2 e3 e4 e4 e4 e4]
    simp only [toUInt64_EOF, toUInt64_byte, or64_avail4 _ _ _ _ b0.isLt b1.isLt b2.isLt b3.isLt, hk]
    simp [le_sum, eof_fill, byte_at_eq, h, List.range_succ, Nat.add_assoc]
  · obtain ⟨e0, r0⟩ := getc_cons _ _ _ _ h
    obtain ⟨e1, r1⟩ := getc_cons _ _ _ _ r0
    obtain ⟨e2, r2⟩ := getc_cons _ _ _ _ r1
    obtain ⟨e3, r3⟩ := getc_cons _ _ _ _ r2
    obtain ⟨e4, r4⟩ := getc_cons _ _ _ _ r3
    have e5 := getc_nil _ _ r4
    have hk : avail ⟨d, p⟩ 8 = 5 := by rw [h] at hl; simp at hl; simp [avail]; omega
    rw [read_uint64_of_getc _ _ _ _ _ _ _ _ _ _ _ _ _ _ _ _ _ e0 e1 e2 e3 e4 e5 e5 e5]
    simp only [toUInt64_EOF, toUInt64_byte, or64_avail5 _ _ _ _ _ b0.isLt b1.isLt b2.isLt b3.isLt b4.isLt, hk]
    simp [le_sum, eof_fill, byte_at_eq, h, List.range_succ, Nat.add_assoc]
  · obtain ⟨e0, r0⟩ := getc_cons _ _ _ _ h
    obtain ⟨e1, r1⟩ := getc_cons _ _ _ _ r0
    obtain ⟨e2, r2⟩ := getc_cons _ _ _ _ r1
    obtain ⟨e3, r3⟩ := getc_cons _ _ _ _ r2
    obtain ⟨e4, r4⟩ := getc_cons _ _ _ _ r3
    obtain ⟨e5, r5⟩ := getc_cons _ _ _ _ r4
    have e6 := getc_nil _ _ r5
    have hk : avail ⟨d, p⟩ 8 = 6 := by rw [h] at hl; simp at hl; simp [avail]; omega
    rw [read_uint64_of_getc _ _ _ _ _ _ _ _ _ _ _ _ _ _ _ _ _ e0 e1 e2 e3 e4 e5 e6 e6]
    simp only [toUInt64_EOF, toUInt64_byte, or64_avail6 _ _ _ _ _ _ b0.isLt b1.isLt b2.isLt b3.isLt b4.isLt b5.isLt, hk]
    simp [le_sum, eof_fill, byte_at_eq, h, List.range_succ, Nat.add_assoc]
  · obtain ⟨e0, r0⟩ := getc_cons _ _ _ _ h
    obtain ⟨e1, r1⟩ := getc_cons _ _ _ _ r0
    obtain ⟨e2, r2⟩ := getc_cons _ _ _ _ r1
    obtain ⟨e3, r3⟩ := getc_cons _ _ _ _ r2
    obtain ⟨e4, r4⟩ := getc_cons _ _ _ _ r3
    obtain ⟨e5, r5⟩ := getc_cons _ _ _ _ r4
    obtain ⟨e6, r6⟩ := getc_cons _ _ _ _ r5
    have e7 := getc_nil _ _ r6
    have hk : avail ⟨d, p⟩ 8 = 7 := by rw [h] at hl; simp at hl; simp [avail]; omega
    rw [read_uint64_of_getc _ _ _ _ _ _ _ _ _ _ _ _ _ _ _ _ _ e0 e1 e2 e3 e4 e5 e6 e7]
    simp only [toUInt64_EOF, toUInt64_byte, or64_avail7 _ _ _ _ _ _ _ b0.isLt b1.isLt b2.isLt b3.isLt b4.isLt b5.isLt b6.isLt, hk]
    simp [le_sum, eof_fill, byte_at_eq, h, List.range_succ, Nat.add_assoc]
  · obtain ⟨e0, r0⟩ := getc_cons _ _ _ _ h
    obtain ⟨e1, r1⟩ := getc_cons _ _ _ _ r0
    obtain ⟨e2, r2⟩ := getc_cons _ _ _ _ r1
    obtain ⟨e3, r3⟩ := getc_cons _ _ _ _ r2
    obtain ⟨e4, r4⟩ := getc_cons _ _ _ _ r3
    obtain ⟨e5, r5⟩ := getc_cons _ _ _ _ r4
    obtain ⟨e6, r6⟩ := getc_cons _ _ _ _ r5
    obtain ⟨e7, -⟩ := getc_cons _ _ _ _ r6
    have hk : avail ⟨d, p⟩ 8 = 8 := by rw [h] at hl; simp at hl; simp [avail]; omega
    rw [read_uint64_of_getc _ _ _ _ _ _ _ _ _ _ _ _ _ _ _ _ _ e0 e1 e2 e3 e4 e5 e6 e7]
    simp only [toUInt64_byte, or64_avail8 _ _ _ _ _ _ _ _ b0.isLt b1.isLt b2.isLt b3.isLt b4.isLt b5.isLt b6.isLt b7.isLt, hk]
    simp [le_sum, eof_fill, byte_at_eq, h, List.range_succ, Nat.add_assoc]

/-! ## Lemmas on the decoders

From here on `getc` is kept folded, so that the decoders are compared as
they are written and not through the bytes of the stream. -/

section Decoders

attribute [local irreducible] getc

theorem read_uint8_eq (f : FILE) : read_uint8 f = getc f := rfl

theorem le_sum_succ (f : FILE) (n : Nat) :
    le_sum f (n + 1) = le_sum f n + byte_at f n * 256 ^ n := by
  simp [le_sum, List.range_succ]

theorem byte_at_lt (f : FILE) (j : Nat) : byte_at f j < 256 := by
  unfold byte_at; exact Fin.isLt _

theorem le_sum_lt (f : FILE) (n : Nat) : le_sum f n < 256 ^ n := by
  induction n with
  | zero => simp [le_sum]
  | succ n ih =>
    rw [le_sum_succ, pow_succ]
    have := byte_at_lt f n
    have hp : 0 < 256 ^ n := by positivity
    nlinarith

theorem avail_of_le (d : List Byte) (p n : Nat) (h : p + n ≤ d.length) : avail ⟨d, p⟩ n = n := by
  simp only [avail]; omega

theorem toInt32_of_lt (n : Nat) (h : n < 2 ^ 31) : toInt32 n = (n : Int) := by
  unfold toInt32
  have : n % 2 ^ 32 = n := Nat.mod_eq_of_lt (by omega)
  rw [this, if_pos h]

theorem read_uint32_mk (d : List Byte) (p : Nat) (h : p + 4 ≤ d.length) :
    read_uint32 ⟨d, p⟩ = (toInt32 (le_sum ⟨d, p⟩ 4), ⟨d, p + 4⟩) := by
  rw [read_uint32_eq, avail_of_le d p 4 h]
  simp [eof_fill]

theorem read_uint64_mk (d : List Byte) (p : Nat) (h : p + 8 ≤ d.length) :
    read_uint64 ⟨d, p⟩ = (le_sum ⟨d, p⟩ 8, ⟨d, p + 8⟩) := by
  rw [read_uint64_eq, avail_of_le d p 8 h]
  simp [eof_fill]

theorem read_uint16_mk (d : List Byte) (p : Nat) (h : p + 2 ≤ d.length) :
    read_uint16 ⟨d, p⟩ = (toInt32 (le_sum ⟨d, p⟩ 2), ⟨d, p + 2⟩) := by
  rw [read_uint16_eq, avail_of_le d p 2 h]
  simp [eof_fill]

theorem take_drop_length (d : List Byte) (p n : Nat) (h : p + n ≤ d.length) :
    ((d.drop p).take n).length = n := by
  rw [List.length_take, List.length_drop]; omega

theorem fread_mk (d : List Byte) (p n : Nat) (h : p + n ≤ d.length) :
    fread n ⟨d, p⟩ = ((d.drop p).take n, ⟨d, p + n⟩) := by
  simp only [fread, take_drop_length d p n h]

theorem avail_of_lt (d : List Byte) (p n : Nat) (h : d.length - p < n) :
    avail ⟨d, p⟩ n = d.length - p := by
  simp only [avail]; omega

theorem pow256_le (k n : Nat) (h : k ≤ n) : 256 ^ k ≤ 256 ^ n :=
  Nat.pow_le_pow_right (by decide) h

theorem read_uint32_val_full (d : List Byte) (p : Nat) (h : p + 4 ≤ d.length) :
    toUInt32 (read_uint32 ⟨d, p⟩).1 = le_sum ⟨d, p⟩ 4 := by
  rw [read_uint32_mk d p h]
  have := le_sum_lt ⟨d, p⟩ 4
  show toUInt32 (toInt32 _) = _
  rw [toUInt32_toInt32]
  exact Nat.mod_eq_of_lt (by omega)

theorem read_uint16_val_short (d : List Byte) (p : Nat) (h : d.length - p < 2) :
    toUInt32 (read_uint16 ⟨d, p⟩).1
      = le_sum ⟨d, p⟩ (d.length - p) + (2 ^ 32 - 256 ^ (d.length - p)) := by
  rw [read_uint16_eq, avail_of_lt d p 2 h]
  show toUInt32 (toInt32 _) = _
  rw [toUInt32_toInt32, eof_fill, if_pos h]
  apply Nat.mod_eq_of_lt
  have := le_sum_lt ⟨d, p⟩ (d.length - p)
  have := pow256_le (d.length - p) 4 (by omega)
  omega

theorem read_uint32_val_short (d : List Byte) (p : Nat) (h : d.length - p < 4) :
    toUInt32 (read_uint32 ⟨d, p⟩).1
      = le_sum ⟨d, p⟩ (d.length - p) + (2 ^ 32 - 256 ^ (d.length - p)) := by
  rw [read_uint32_eq, avail_of_lt d p 4 h]
  show toUInt32 (toInt32 _) = _
  rw [toUInt32_toInt32, eof_fill, if_pos h]
  apply Nat.mod_eq_of_lt
  have := le_sum_lt ⟨d, p⟩ (d.length - p)
  have := pow256_le (d.length - p) 4 (by omega)
  omega

theorem read_uint32_file (f : FILE) :
    (read_uint32 f).2 = { f with pos := f.pos + avail f 4 } := by
  rw [read_uint32_eq]

/-- The magic number test of `macho_read_header` in terms of the stream: it
passes exactly when four bytes are present and spell one of the two magic
numbers in little-endian order. -/
theorem magic_recognized_iff (f : FILE) :
    (toUInt32 (read_uint32 f).1 = 0xfeedface ∨ toUInt32 (read_uint32 f).1 = 0xfeedfacf)
      ↔ (f.pos + 4 ≤ f.data.length ∧ (le_sum f 4 = 0xFEEDFACE ∨ le_sum f 4 = 0xFEEDFACF)) := by
  obtain ⟨d, p⟩ := f
  by_cases h : p + 4 ≤ d.length
  · rw [read_uint32_val_full d p h]
    simp [h]
  · have hs := read_uint32_val_short d p (by omega)
    have hlt := le_sum_lt ⟨d, p⟩ (d.length - p)
    have hp := pow256_le (d.length - p) 3 (by omega)
    constructor
    · intro hm
      exfalso
      rcases hm with hm | hm <;> omega
    · rintro ⟨h', -⟩
      exact absurd h' h

theorem macho_read_header_reject (f : FILE)
    (h : ¬ (toUInt32 (read_uint32 f).1 = 0xfeedface ∨ toUInt32 (read_uint32 f).1 = 0xfeedfacf)) :
    macho_read_header f
      = (-1, ⟨toUInt32 (read_uint32 f).1, 0, 0, 0, 0, 0, 0, 0⟩, (read_uint32 f).2) := by
  rcases hr : read_uint32 f with ⟨v, f1⟩
  rw [hr] at h
  unfold macho_read_header
  rw [hr]
  dsimp only
  rw [if_pos]
  simp only [not_or] at h
  exact h

theorem macho_read_header_accept (f : FILE)
    (h : toUInt32 (read_uint32 f).1 = 0xfeedface ∨ toUInt32 (read_uint32 f).1 = 0xfeedfacf) :
    (macho_read_header f).1 = 0
      ∧ (macho_read_header f).2.1.magic_number = toUInt32 (read_uint32 f).1 := by
  rcases hr : read_uint32 f with ⟨v, f1⟩
  rw [hr] at h
  unfold macho_read_header
  rw [hr]
  dsimp only
  rw [if_neg (by simp only [not_and_or, not_not]; exact h)]
  split <;> exact ⟨rfl, rfl⟩

theorem and_arch64_iff (c : Nat) : c &&& 0x01000000 = 0x01000000 ↔ c.testBit 24 = true := by
  have e : (0x01000000 : Nat) = 2 ^ 24 := by norm_num
  rw [e]
  constructor
  · intro h
    have h1 : (c &&& 2 ^ 24).testBit 24 = (2 ^ 24).testBit 24 := by rw [h]
    rw [Nat.testBit_and, Nat.testBit_two_pow_self, Bool.and_true] at h1
    exact h1
  · intro h
    apply Nat.eq_of_testBit_eq
    intro i
    rw [Nat.testBit_and, Nat.testBit_two_pow]
    by_cases hi : 24 = i
    · subst hi; simp [h]
    · simp [hi]

theorem parse_macho_bits_eq (h : MachoHeader) :
    parse_macho_bits h = if h.cpu_type.testBit 24 = true then 64 else 32 := by
  unfold parse_macho_bits
  by_cases hb : h.cpu_type.testBit 24 = true
  · rw [if_pos ((and_arch64_iff _).2 hb), if_pos hb]
  · rw [if_neg (mt (and_arch64_iff _).1 hb), if_neg hb]

theorem parse_macho_accept (lim : Nat) (f : FILE) (l : Locals) (h : (macho_read_header f).1 = 0)
    (hl : macho_print_header_defined (macho_read_header f).2.1 = true) :
    parse_macho lim f l =
      some (0, Out.header (macho_read_header f).2.1 ::
          (parse_macho_loop lim (parse_macho_bits (macho_read_header f).2.1)
            (macho_read_header f).2.1.load_command_count l (macho_read_header f).2.2).1
          ++ [Out.file_offset (parse_macho_loop lim (parse_macho_bits (macho_read_header f).2.1)
            (macho_read_header f).2.1.load_command_count l (macho_read_header f).2.2).2.2.pos],
        (parse_macho_loop lim (parse_macho_bits (macho_read_header f).2.1)
            (macho_read_header f).2.1.load_command_count l (macho_read_header f).2.2).2.2) := by
  rcases hh : macho_read_header f with ⟨r, hd, f1⟩
  rw [hh] at h hl
  simp only at h hl
  subst h
  unfold parse_macho
  rw [hh]
  dsimp only
  rw [if_neg (by decide), hl, if_neg (by decide)]
  rfl

/-- An accepted header with a label lookup outside its table: the behaviour of
`parse_macho` is undefined. -/
theorem parse_macho_undefined (lim : Nat) (f : FILE) (l : Locals)
    (h : (macho_read_header f).1 = 0)
    (hl : macho_print_header_defined (macho_read_header f).2.1 = false) :
    parse_macho lim f l = none := by
  rcases hh : macho_read_header f with ⟨r, hd, f1⟩
  rw [hh] at h hl
  simp only at h hl
  subst h
  unfold parse_macho
  rw [hh]
  dsimp only
  rw [if_neg (by decide), hl, if_pos rfl]

theorem macho_read_load_command_mk (d : List Byte) (p : Nat) (h : p + 8 ≤ d.length) :
    macho_read_load_command ⟨d, p⟩
      = (0, ⟨toUInt32 (toInt32 (le_sum ⟨d, p⟩ 4)), toUInt32 (toInt32 (le_sum ⟨d, p + 4⟩ 4))⟩,
          ⟨d, p + 8⟩) := by
  unfold macho_read_load_command
  rw [read_uint32_mk d p (by omega)]
  dsimp only
  rw [read_uint32_mk d (p + 4) (by omega)]

theorem macho_read_load_command_eq (f : FILE) :
    macho_read_load_command f
      = (0, ⟨toUInt32 (read_uint32 f).1, toUInt32 (read_uint32 (read_uint32 f).2).1⟩,
          (read_uint32 (read_uint32 f).2).2) := by
  rcases h1 : read_uint32 f with ⟨v1, f1⟩
  rcases h2 : read_uint32 f1 with ⟨v2, f2⟩
  unfold macho_read_load_command
  rw [h1]
  dsimp only
  rw [h2]

theorem macho_read_load_command_size_lt (f : FILE) :
    (macho_read_load_command f).2.1.size < 2 ^ 32 := by
  rw [macho_read_load_command_eq]
  dsimp only
  exact toUInt32_lt _

theorem read_segment_sizes_file (d : List Byte) (p bits : Nat)
    (h : p + (if bits = 32 then 16 else 32) ≤ d.length) :
    (read_segment_sizes ⟨d, p⟩ bits).2.2.2.2 = ⟨d, p + (if bits = 32 then 16 else 32)⟩ := by
  unfold read_segment_sizes
  by_cases hb : bits = 32
  · rw [if_pos hb] at h ⊢
    rw [if_pos hb]
    rw [read_uint32_mk d p (by omega)]
    dsimp only
    rw [read_uint32_mk d (p + 4) (by omega)]
    dsimp only
    rw [read_uint32_mk d (p + 4 + 4) (by omega)]
    dsimp only
    rw [read_uint32_mk d (p + 4 + 4 + 4) (by omega)]
  · rw [if_neg hb] at h ⊢
    rw [if_neg hb]
    rw [read_uint64_mk d p (by omega)]
    dsimp only
    rw [read_uint64_mk d (p + 8) (by omega)]
    dsimp only
    rw [read_uint64_mk d (p + 8 + 8) (by omega)]
    dsimp only
    rw [read_uint64_mk d (p + 8 + 8 + 8) (by omega)]

theorem macho_read_segment_load_file (s : MachoSegmentLoad) (d : List Byte) (p bits : Nat)
    (h : p + (if bits = 32 then 48 else 64) ≤ d.length) :
    (macho_read_segment_load s ⟨d, p⟩ bits).1 = 0
    ∧ (macho_read_segment_load s ⟨d, p⟩ bits).2.2 = ⟨d, p + (if bits = 32 then 48 else 64)⟩ := by
  obtain ⟨w, hw, hw2⟩ : ∃ w, (if bits = 32 then 16 else 32) = w
      ∧ (if bits = 32 then 48 else 64) = 32 + w := by
    split <;> exact ⟨_, rfl, rfl⟩
  rw [hw2] at h ⊢
  have hf := read_segment_sizes_file d (p + 16) bits (by rw [hw]; omega)
  rw [hw] at hf
  rcases hr : read_segment_sizes ⟨d, p + 16⟩ bits with ⟨a, b, c, e, f1⟩
  rw [hr] at hf
  simp only at hf
  subst hf
  unfold macho_read_segment_load
  rw [fread_mk d p 16 (by omega)]
  dsimp only
  rw [if_neg (by rw [take_drop_length d p 16 (by omega)]; decide)]
  rw [hr]
  dsimp only
  rw [read_uint32_mk d _ (by omega)]
  dsimp only
  rw [read_uint32_mk d _ (by omega)]
  dsimp only
  rw [read_uint32_mk d _ (by omega)]
  dsimp only
  rw [read_uint32_mk d _ (by omega)]
  refine ⟨rfl, ?_⟩
  show FILE.mk d _ = FILE.mk d _
  congr 1
  omega

theorem read_section_sizes_file (d : List Byte) (p bits : Nat)
    (h : p + (if bits = 32 then 8 else 16) ≤ d.length) :
    (read_section_sizes ⟨d, p⟩ bits).2.2 = ⟨d, p + (if bits = 32 then 8 else 16)⟩ := by
  unfold read_section_sizes
  by_cases hb : bits = 32
  · rw [if_pos hb] at h ⊢
    rw [if_pos hb]
    rw [read_uint32_mk d p (by omega)]
    dsimp only
    rw [read_uint32_mk d (p + 4) (by omega)]
  · rw [if_neg hb] at h ⊢
    rw [if_neg hb]
    rw [read_uint64_mk d p (by omega)]
    dsimp only
    rw [read_uint64_mk d (p + 8) (by omega)]

theorem macho_read_section_file (s : MachoSection) (d : List Byte) (p bits : Nat)
    (h : p + (if bits = 32 then 72 else 80) ≤ d.length) :
    (macho_read_section s ⟨d, p⟩ bits).1 = 0
    ∧ (macho_read_section s ⟨d, p⟩ bits).2.2 = ⟨d, p + (if bits = 32 then 72 else 80)⟩ := by
  obtain ⟨w, hw, hw2⟩ : ∃ w, (if bits = 32 then 8 else 16) = w
      ∧ (if bits = 32 then 72 else 80) = 64 + w := by
    split <;> exact ⟨_, rfl, rfl⟩
  rw [hw2] at h ⊢
  have hf := read_section_sizes_file d (p + 16 + 16) bits (by rw [hw]; omega)
  rw [hw] at hf
  rcases hr : read_section_sizes ⟨d, p + 16 + 16⟩ bits with ⟨a, b, f1⟩
  rw [hr] at hf
  simp only at hf
  subst hf
  unfold macho_read_section
  rw [fread_mk d p 16 (by omega)]
  dsimp only
  rw [if_neg (by rw [take_drop_length d p 16 (by omega)]; decide)]
  rw [fread_mk d (p + 16) 16 (by omega)]
  dsimp only
  rw [if_neg (by rw [take_drop_length d (p + 16) 16 (by omega)]; decide)]
  rw [hr]
  dsimp only
  rw [read_uint32_mk d _ (by omega)]
  dsimp only
  rw [read_uint32_mk d _ (by omega)]
  dsimp only
  rw [read_uint32_mk d _ (by omega)]
  dsimp only
  rw [read_uint32_mk d _ (by omega)]
  dsimp only
  rw [read_uint32_mk d _ (by omega)]
  dsimp only
  rw [read_uint32_mk d _ (by omega)]
  dsimp only
  rw [read_uint32_mk d _ (by omega)]
  dsimp only
  rw [read_uint32_mk d _ (by omega)]
  refine ⟨rfl, ?_⟩
  show FILE.mk d _ = FILE.mk d _
  congr 1
  omega

/-- The section loop prints one `Section` record per iteration. -/
theorem section_loop_out (k : Nat) (sec : MachoSection) (f : FILE) (bits : Nat) :
    ∃ secs : List MachoSection, secs.length = k
      ∧ (section_loop k sec f bits).1 = secs.map Out.sect := by
  induction k generalizing sec f with
  | zero => exact ⟨[], rfl, rfl⟩
  | succ k ih =>
    rcases hr : macho_read_section sec f bits with ⟨r, sec1, f1⟩
    obtain ⟨secs, hl, ho⟩ := ih sec1 f1
    refine ⟨sec1 :: secs, by simp [hl], ?_⟩
    unfold section_loop
    rw [hr]
    dsimp only
    rw [List.map_cons, ← ho]

/-- With all the bytes present the section loop advances by one record per
iteration. -/
theorem section_loop_file (k : Nat) (sec : MachoSection) (d : List Byte) (p bits : Nat)
    (h : p + (if bits = 32 then 72 else 80) * k ≤ d.length) :
    (section_loop k sec ⟨d, p⟩ bits).2.2 = ⟨d, p + (if bits = 32 then 72 else 80) * k⟩ := by
  induction k generalizing sec p with
  | zero => rfl
  | succ k ih =>
    have h1 : p + (if bits = 32 then 72 else 80) ≤ d.length := by
      rw [Nat.mul_succ] at h; omega
    have hf := (macho_read_section_file sec d p bits h1).2
    rcases hr : macho_read_section sec ⟨d, p⟩ bits with ⟨r, sec1, f1⟩
    rw [hr] at hf
    simp only at hf
    subst hf
    have h2 : p + (if bits = 32 then 72 else 80) + (if bits = 32 then 72 else 80) * k
        ≤ d.length := by
      rw [Nat.mul_succ] at h; omega
    have := ih sec1 (p + (if bits = 32 then 72 else 80)) h2
    unfold section_loop
    rw [hr]
    dsimp only
    rw [this]
    show FILE.mk d _ = FILE.mk d _
    congr 1
    rw [Nat.mul_succ]; omega

theorem u32_sub_eight (n : Nat) (h8 : 8 ≤ n) (hn : n < 2 ^ 32) : u32_sub n 8 = n - 8 := by
  unfold u32_sub
  split <;> omega

theorem read_uint32_data (f : FILE) : (read_uint32 f).2.data = f.data := by
  rw [read_uint32_file]

theorem macho_read_load_command_inv (f : FILE) (r : Int) (lc : MachoLoadCommand) (f1 : FILE)
    (hr : macho_read_load_command f = (r, lc, f1)) :
    r = 0 ∧ lc.type < 2 ^ 32 ∧ lc.size < 2 ^ 32 ∧ f1.data = f.data
      ∧ (f.pos + 8 ≤ f.data.length → f1.pos = f.pos + 8) := by
  obtain ⟨t, s⟩ := lc
  have hmk : f.pos + 8 ≤ f.data.length → macho_read_load_command f
      = (0, ⟨toUInt32 (toInt32 (le_sum f 4)),
          toUInt32 (toInt32 (le_sum ⟨f.data, f.pos + 4⟩ 4))⟩, ⟨f.data, f.pos + 8⟩) :=
    fun h => macho_read_load_command_mk f.data f.pos h
  rw [hr] at hmk
  rw [macho_read_load_command_eq] at hr
  simp only [Prod.mk.injEq, MachoLoadCommand.mk.injEq] at hr hmk
  obtain ⟨h0, ⟨h1, h2⟩, h3⟩ := hr
  refine ⟨h0.symm, ?_, ?_, ?_, fun h => ?_⟩
  · dsimp only
    rw [← h1]
    exact toUInt32_lt _
  · dsimp only
    rw [← h2]
    exact toUInt32_lt _
  · rw [← h3, read_uint32_data, read_uint32_data]
  · rw [(hmk h).2.2]

theorem parse_macho_command_eq (lim : Nat) (bits : Nat) (l : Locals) (f : FILE) (r : Int)
    (lc : MachoLoadCommand) (f1 : FILE) (o : List Out) (l2 : Locals) (f2 : FILE)
    (hr : macho_read_load_command f = (r, lc, f1))
    (hs : parse_macho_switch lim bits l lc f1 = (o, l2, f2)) :
    parse_macho_command lim bits l f = (Out.load_command lc :: o, l2, f2) := by
  unfold parse_macho_command
  rw [hr]
  dsimp only
  rw [hs]

theorem parse_macho_switch_default (lim : Nat) (bits : Nat) (l : Locals) (lc : MachoLoadCommand) (f : FILE)
    (h1 : lc.type ≠ 0x01) (h2 : lc.type ≠ 0x19) (h3 : lc.type ≠ 0x02) (h4 : lc.type ≠ 0x0b)
    (h5 : lc.type ≠ 0x32) :
    parse_macho_switch lim bits l lc f = ([], l, fseek_cur lim f (u32_sub lc.size 8)) := by
  unfold parse_macho_switch
  rw [if_neg (fun h => h.elim h1 h2), if_neg h3, if_neg h4, if_neg h5]
  rfl

theorem parse_macho_switch_segment (lim : Nat) (bits : Nat) (l : Locals) (lc : MachoLoadCommand) (f : FILE)
    (h : lc.type = 0x01 ∨ lc.type = 0x19) :
    parse_macho_switch lim bits l lc f = parse_macho_segment bits l f := by
  unfold parse_macho_switch
  rw [if_pos h]

theorem parse_macho_segment_eq (bits : Nat) (l : Locals) (f : FILE) (r : Int)
    (seg : MachoSegmentLoad) (f1 : FILE) (o : List Out) (sec : MachoSection) (f2 : FILE)
    (hs : macho_read_segment_load l.macho_segment_load f bits = (r, seg, f1))
    (hl : section_loop seg.section_count l.macho_section f1 bits = (o, sec, f2)) :
    parse_macho_segment bits l f = (Out.segment_load seg :: o, ⟨seg, sec⟩, f2) := by
  unfold parse_macho_segment
  rw [hs]
  dsimp only
  rw [hl]

theorem file_eq_of (f : FILE) (d : List Byte) (p : Nat) (hd : f.data = d) (hp : f.pos = p) :
    f = ⟨d, p⟩ := by
  cases f
  simp only at hd hp
  rw [hd, hp]

/-- A segment command whose bytes are all present: the command header, the
segment header and `section_count` section records are consumed, and one
`Section` record is printed per section. -/
theorem parse_macho_command_segment_full (lim : Nat) (bits : Nat) (l : Locals) (f : FILE) (r : Int)
    (lc : MachoLoadCommand) (f1 : FILE) (r2 : Int) (seg : MachoSegmentLoad) (f2 : FILE)
    (hr : macho_read_load_command f = (r, lc, f1))
    (htag : lc.type = 0x01 ∨ lc.type = 0x19)
    (hs : macho_read_segment_load l.macho_segment_load f1 bits = (r2, seg, f2))
    (hpresent : f.pos + (8 + (if bits = 32 then 48 else 64)
        + (if bits = 32 then 72 else 80) * seg.section_count) ≤ f.data.length) :
    ∃ (secs : List MachoSection) (l2 : Locals), secs.length = seg.section_count
      ∧ parse_macho_command lim bits l f
        = (Out.load_command lc :: Out.segment_load seg :: secs.map Out.sect, l2,
            ⟨f.data, f.pos + (8 + (if bits = 32 then 48 else 64)
              + (if bits = 32 then 72 else 80) * seg.section_count)⟩) := by
  obtain ⟨-, -, -, hd, hp⟩ := macho_read_load_command_inv f r lc f1 hr
  have hf1 : f1 = ⟨f.data, f.pos + 8⟩ := file_eq_of f1 _ _ hd (hp (by omega))
  subst hf1
  have hseg := (macho_read_segment_load_file l.macho_segment_load f.data (f.pos + 8) bits
    (by omega)).2
  rw [hs] at hseg
  simp only at hseg
  subst hseg
  have hfile := section_loop_file seg.section_count l.macho_section f.data
    (f.pos + 8 + (if bits = 32 then 48 else 64)) bits (by omega)
  obtain ⟨secs, hlen, hout⟩ := section_loop_out seg.section_count l.macho_section
    ⟨f.data, f.pos + 8 + (if bits = 32 then 48 else 64)⟩ bits
  rcases hl : section_loop seg.section_count l.macho_section
    ⟨f.data, f.pos + 8 + (if bits = 32 then 48 else 64)⟩ bits with ⟨o, sec, f3⟩
  rw [hl] at hfile hout
  simp only at hfile hout
  subst hfile hout
  refine ⟨secs, ⟨seg, sec⟩, hlen, ?_⟩
  have e1 := parse_macho_segment_eq bits l _ r2 seg _ _ sec _ hs hl
  have e2 := (parse_macho_switch_segment lim bits l lc _ htag).trans e1
  rw [parse_macho_command_eq lim bits l f r lc _ _ _ _ hr e2]
  simp only [Nat.add_assoc]

theorem toUInt8_byte (b : Byte) : toUInt8 (b.val : Int) = b.val := by
  have := b.isLt
  unfold toUInt8; omega

theorem byte_int_ne_zero (b : Byte) (h : b ≠ 0) : ¬ (((b.val : Nat) : Int) = 0 ∨ ((b.val : Nat) : Int) = EOF) := by
  have hb : b.val ≠ 0 := fun h0 => h (Fin.ext h0)
  unfold EOF
  omega

/-- The name loop of `macho_print_symbol`, given more fuel than bytes left:
it prints the bytes from the cursor up to the first NUL byte or the end of
the stream, and leaves the bytes of the stream as they are. -/
theorem print_name_loop_eq (fuel : Nat) (d : List Byte) (p : Nat)
    (h : (d.drop p).length < fuel) :
    (print_name_loop fuel ⟨d, p⟩).1
        = ((d.drop p).takeWhile (fun b => b != 0)).map (fun b => Out.chr b.val)
      ∧ (print_name_loop fuel ⟨d, p⟩).2.data = d := by
  induction fuel generalizing p with
  | zero => exact absurd h (Nat.not_lt_zero _)
  | succ fuel ih =>
    rcases hd : d.drop p with _ | ⟨b, rest⟩
    · have e := getc_nil d p hd
      unfold print_name_loop
      rw [e]
      dsimp only
      rw [if_pos (by exact Or.inr rfl)]
      exact ⟨rfl, rfl⟩
    · obtain ⟨e, hrest⟩ := getc_cons d p b rest hd
      unfold print_name_loop
      rw [e]
      dsimp only
      by_cases hb : b = 0
      · subst hb
        rw [if_pos (by exact Or.inl rfl)]
        exact ⟨rfl, rfl⟩
      · rw [if_neg (byte_int_ne_zero b hb)]
        have hlen : (d.drop (p + 1)).length < fuel := by
          rw [hrest]; rw [hd] at h; simp at h; omega
        obtain ⟨i1, i2⟩ := ih (p + 1) hlen
        rcases hrec : print_name_loop fuel ⟨d, p + 1⟩ with ⟨o, f'⟩
        rw [hrec] at i1 i2
        simp only at i1 i2
        dsimp only
        rw [List.takeWhile_cons_of_pos (by simpa using hb), List.map_cons, toUInt8_byte,
          i1, hrest]
        exact ⟨rfl, i2⟩

theorem macho_print_symbol_eq (s : MachoSymbol) (f : FILE) (symtab : Nat) :
    macho_print_symbol s f symtab
      = (Out.symbol s :: ((f.data.drop (symtab + s.string_index)).takeWhile
            (fun b => b != 0)).map (fun b => Out.chr b.val) ++ [Out.newline], f) := by
  obtain ⟨d, p⟩ := f
  have h := print_name_loop_eq (d.length + 1) d (symtab + s.string_index)
    (by rw [List.length_drop]; omega)
  rcases hrec : print_name_loop (d.length + 1) ⟨d, symtab + s.string_index⟩ with ⟨o, f'⟩
  rw [hrec] at h
  simp only at h
  obtain ⟨h1, h2⟩ := h
  unfold macho_print_symbol
  simp only [fseek_set, ftell]
  rw [hrec]
  dsimp only
  rw [h1, h2]

theorem getc_data (f : FILE) (ch : Int) (f1 : FILE) (h : getc f = (ch, f1)) :
    f1.data = f.data := by
  unfold getc at h
  split at h
  · simp only [Prod.mk.injEq] at h
    rw [← h.2]
  · simp only [Prod.mk.injEq] at h
    rw [← h.2]

theorem read_uint8_data (f : FILE) (v : Int) (f1 : FILE) (h : read_uint8 f = (v, f1)) :
    f1.data = f.data :=
  getc_data f v f1 h

theorem read_uint16_data (f : FILE) (v : Int) (f1 : FILE) (h : read_uint16 f = (v, f1)) :
    f1.data = f.data := by
  rw [read_uint16_eq] at h
  simp only [Prod.mk.injEq] at h
  rw [← h.2]

theorem read_uint32_data_of (f : FILE) (v : Int) (f1 : FILE) (h : read_uint32 f = (v, f1)) :
    f1.data = f.data := by
  rw [read_uint32_eq] at h
  simp only [Prod.mk.injEq] at h
  rw [← h.2]

theorem read_uint64_data_of (f : FILE) (v : Nat) (f1 : FILE) (h : read_uint64 f = (v, f1)) :
    f1.data = f.data := by
  rw [read_uint64_eq] at h
  simp only [Prod.mk.injEq] at h
  rw [← h.2]

theorem macho_read_symbol_data (f : FILE) (bits : Nat) :
    (macho_read_symbol f bits).2.2.data = f.data := by
  rcases h1 : read_uint32 f with ⟨v1, f1⟩
  rcases h2 : read_uint8 f1 with ⟨v2, f2⟩
  rcases h3 : read_uint8 f2 with ⟨v3, f3⟩
  rcases h4 : read_uint16 f3 with ⟨v4, f4⟩
  rcases h5 : read_uint32 f4 with ⟨v5, f5⟩
  rcases h6 : read_uint64 f4 with ⟨v6, f6⟩
  have d1 := read_uint32_data_of f v1 f1 h1
  have d2 := read_uint8_data f1 v2 f2 h2
  have d3 := read_uint8_data f2 v3 f3 h3
  have d4 := read_uint16_data f3 v4 f4 h4
  have d5 := read_uint32_data_of f4 v5 f5 h5
  have d6 := read_uint64_data_of f4 v6 f6 h6
  unfold macho_read_symbol
  rw [h1]
  dsimp only
  rw [h2]
  dsimp only
  rw [h3]
  dsimp only
  rw [h4]
  dsimp only
  by_cases hb : bits = 32
  · rw [if_pos hb, h5]
    dsimp only
    rw [d5, d4, d3, d2, d1]
  · rw [if_neg hb, h6]
    dsimp only
    rw [d6, d4, d3, d2, d1]

theorem string_table_loop_data (iters n length : Nat) (f : FILE) :
    (string_table_loop iters n length f).2.data = f.data := by
  induction iters generalizing n length f with
  | zero => rfl
  | succ iters ih =>
    rcases hg : getc f with ⟨ch, f1⟩
    have d1 := getc_data f ch f1 hg
    have i0 := ih (n + 1) 0 f1
    have i1 := ih (n + 1) (length + 1) f1
    rcases hr0 : string_table_loop iters (n + 1) 0 f1 with ⟨o0, g0⟩
    rcases hr1 : string_table_loop iters (n + 1) (length + 1) f1 with ⟨o1, g1⟩
    rw [hr0] at i0
    rw [hr1] at i1
    simp only at i0 i1
    unfold string_table_loop
    rw [hg]
    dsimp only
    by_cases hc : ch = 0
    · rw [if_pos hc]
      by_cases hl : length = 0
      · rw [if_pos hl]
        exact d1
      · rw [if_neg hl, hr0]
        dsimp only
        rw [i0, d1]
    · rw [if_neg hc, hr1]
      dsimp only
      by_cases hl : length = 0
      · rw [if_pos hl]
        dsimp only
        rw [i1, d1]
      · rw [if_neg hl]
        dsimp only
        rw [i1, d1]

theorem symbol_loop_data (count : Nat) (f : FILE) (bits symtab : Nat) :
    (symbol_loop count f bits symtab).2.data = f.data := by
  induction count generalizing f with
  | zero => rfl
  | succ count ih =>
    have d1 := macho_read_symbol_data f bits
    rcases h1 : macho_read_symbol f bits with ⟨r, sym, f1⟩
    rw [h1] at d1
    simp only at d1
    have i1 := ih f1
    rcases h2 : symbol_loop count f1 bits symtab with ⟨o2, f2⟩
    rw [h2] at i1
    simp only at i1
    unfold symbol_loop
    rw [h1]
    dsimp only
    rw [macho_print_symbol_eq]
    dsimp only
    rw [h2]
    dsimp only
    rw [i1, d1]

theorem macho_print_symtab_file (s : MachoSymtab) (f : FILE) (bits : Nat) :
    (macho_print_symtab s f bits).2 = f := by
  obtain ⟨d, p⟩ := f
  have a1 := string_table_loop_data (s.string_table_size - 1) 1 0
    ⟨d, u32_add s.string_table_offset 1⟩
  rcases h1 : string_table_loop (s.string_table_size - 1) 1 0
    ⟨d, u32_add s.string_table_offset 1⟩ with ⟨o1, f1⟩
  rw [h1] at a1
  simp only at a1
  have a2 := symbol_loop_data s.symbol_count ⟨f1.data, s.symbol_table_offset⟩ bits
    s.string_table_offset
  rcases h2 : symbol_loop s.symbol_count ⟨f1.data, s.symbol_table_offset⟩ bits
    s.string_table_offset with ⟨o2, f2⟩
  rw [h2] at a2
  simp only at a2
  unfold macho_print_symtab
  simp only [fseek_set, ftell]
  rw [h1]
  dsimp only
  rw [h2]
  dsimp only
  rw [a2, a1]

theorem toUInt32_le_sum (f : FILE) : toUInt32 (toInt32 (le_sum f 4)) = le_sum f 4 := by
  rw [toUInt32_toInt32]
  have := le_sum_lt f 4
  omega

theorem read_uint32_at (d : List Byte) (p q : Nat) (hq : q = p + 4) (h : p + 4 ≤ d.length) :
    read_uint32 ⟨d, p⟩ = (toInt32 (le_sum ⟨d, p⟩ 4), ⟨d, q⟩) := by
  subst hq
  exact read_uint32_mk d p h

theorem macho_read_header_mk (d : List Byte) (p : Nat)
    (hm : le_sum ⟨d, p⟩ 4 = 0xfeedface ∨ le_sum ⟨d, p⟩ 4 = 0xfeedfacf)
    (hc : p + (if le_sum ⟨d, p⟩ 4 = 0xfeedfacf then 32 else 28) ≤ d.length) :
    macho_read_header ⟨d, p⟩
      = (0, ⟨le_sum ⟨d, p⟩ 4, le_sum ⟨d, p + 4⟩ 4, le_sum ⟨d, p + 8⟩ 4, le_sum ⟨d, p + 12⟩ 4,
            le_sum ⟨d, p + 16⟩ 4, le_sum ⟨d, p + 20⟩ 4, le_sum ⟨d, p + 24⟩ 4,
            if le_sum ⟨d, p⟩ 4 = 0xfeedfacf then le_sum ⟨d, p + 28⟩ 4 else 0⟩,
          ⟨d, p + (if le_sum ⟨d, p⟩ 4 = 0xfeedfacf then 32 else 28)⟩) := by
  have h28 : p + 28 ≤ d.length := by
    split at hc <;> omega
  unfold macho_read_header
  rw [read_uint32_at d p (p + 4) rfl (by omega)]
  dsimp only
  rw [toUInt32_le_sum]
  rw [if_neg (by simp only [not_and_or, not_not]; exact hm)]
  rw [read_uint32_at d (p + 4) (p + 8) rfl (by omega)]
  dsimp only
  rw [read_uint32_at d (p + 8) (p + 12) rfl (by omega)]
  dsimp only
  rw [read_uint32_at d (p + 12) (p + 16) rfl (by omega)]
  dsimp only
  rw [read_uint32_at d (p + 16) (p + 20) rfl (by omega)]
  dsimp only
  rw [read_uint32_at d (p + 20) (p + 24) rfl (by omega)]
  dsimp only
  rw [read_uint32_at d (p + 24) (p + 28) rfl (by omega)]
  dsimp only
  simp only [toUInt32_le_sum]
  by_cases h64 : le_sum ⟨d, p⟩ 4 = 0xfeedfacf
  · rw [if_pos h64] at hc
    rw [if_pos h64, if_pos h64, if_pos h64]
    rw [read_uint32_at d (p + 28) (p + 32) rfl (by omega)]
    dsimp only
    rw [toUInt32_le_sum]
  · rw [if_neg h64, if_neg h64, if_neg h64]

theorem macho_read_symtab_mk (d : List Byte) (p : Nat) (h : p + 16 ≤ d.length) :
    macho_read_symtab ⟨d, p⟩
      = (0, ⟨le_sum ⟨d, p⟩ 4, le_sum ⟨d, p + 4⟩ 4, le_sum ⟨d, p + 8⟩ 4, le_sum ⟨d, p + 12⟩ 4⟩,
          ⟨d, p + 16⟩) := by
  unfold macho_read_symtab
  rw [read_uint32_at d p (p + 4) rfl (by omega)]
  dsimp only
  rw [read_uint32_at d (p + 4) (p + 8) rfl (by omega)]
  dsimp only
  rw [read_uint32_at d (p + 8) (p + 12) rfl (by omega)]
  dsimp only
  rw [read_uint32_at d (p + 12) (p + 16) rfl (by omega)]
  dsimp only
  simp only [toUInt32_le_sum]

theorem macho_read_dysymtab_mk (d : List Byte) (p : Nat) (h : p + 72 ≤ d.length) :
    macho_read_dysymtab ⟨d, p⟩
      = (0, ⟨le_sum ⟨d, p⟩ 4, le_sum ⟨d, p + 4⟩ 4, le_sum ⟨d, p + 8⟩ 4, le_sum ⟨d, p + 12⟩ 4,
            le_sum ⟨d, p + 16⟩ 4, le_sum ⟨d, p + 20⟩ 4, le_sum ⟨d, p + 24⟩ 4,
            le_sum ⟨d, p + 28⟩ 4, le_sum ⟨d, p + 32⟩ 4, le_sum ⟨d, p + 36⟩ 4,
            le_sum ⟨d, p + 40⟩ 4, le_sum ⟨d, p + 44⟩ 4, le_sum ⟨d, p + 48⟩ 4,
            le_sum ⟨d, p + 52⟩ 4, le_sum ⟨d, p + 56⟩ 4, le_sum ⟨d, p + 60⟩ 4,
            le_sum ⟨d, p + 64⟩ 4, le_sum ⟨d, p + 68⟩ 4⟩,
          ⟨d, p + 72⟩) := by
  unfold macho_read_dysymtab
  rw [read_uint32_at d p (p + 4) rfl (by omega)]
  dsimp only
  rw [read_uint32_at d (p + 4) (p + 8) rfl (by omega)]
  dsimp only
  rw [read_uint32_at d (p + 8) (p + 12) rfl (by omega)]
  dsimp only
  rw [read_uint32_at d (p + 12) (p + 16) rfl (by omega)]
  dsimp only
  rw [read_uint32_at d (p + 16) (p + 20) rfl (by omega)]
  dsimp only
  rw [read_uint32_at d (p + 20) (p + 24) rfl (by omega)]
  dsimp only
  rw [read_uint32_at d (p + 24) (p + 28) rfl (by omega)]
  dsimp only
  rw [read_uint32_at d (p + 28) (p + 32) rfl (by omega)]
  dsimp only
  rw [read_uint32_at d (p + 32) (p + 36) rfl (by omega)]
  dsimp only
  rw [read_uint32_at d (p + 36) (p + 40) rfl (by omega)]
  dsimp only
  rw [read_uint32_at d (p + 40) (p + 44) rfl (by omega)]
  dsimp only
  rw [read_uint32_at d (p + 44) (p + 48) rfl (by omega)]
  dsimp only
  rw [read_uint32_at d (p + 48) (p + 52) rfl (by omega)]
  dsimp only
  rw [read_uint32_at d (p + 52) (p + 56) rfl (by omega)]
  dsimp only
  rw [read_uint32_at d (p + 56) (p + 60) rfl (by omega)]
  dsimp only
  rw [read_uint32_at d (p + 60) (p + 64) rfl (by omega)]
  dsimp only
  rw [read_uint32_at d (p + 64) (p + 68) rfl (by omega)]
  dsimp only
  rw [read_uint32_at d (p + 68) (p + 72) rfl (by omega)]
  dsimp only
  simp only [toUInt32_le_sum]

theorem parse_macho_switch_symtab (lim : Nat) (bits : Nat) (l : Locals) (lc : MachoLoadCommand) (f : FILE)
    (h : lc.type = 0x02) :
    parse_macho_switch lim bits l lc f
      = ((parse_macho_symtab bits f).1, l, (parse_macho_symtab bits f).2) := by
  unfold parse_macho_switch
  rw [h, if_neg (by decide), if_pos rfl]

theorem parse_macho_switch_dysymtab (lim : Nat) (bits : Nat) (l : Locals) (lc : MachoLoadCommand) (f : FILE)
    (h : lc.type = 0x0b) :
    parse_macho_switch lim bits l lc f
      = ((parse_macho_dysymtab f).1, l, (parse_macho_dysymtab f).2) := by
  unfold parse_macho_switch
  rw [h, if_neg (by decide), if_neg (by decide), if_pos rfl]

theorem parse_macho_switch_build_version (lim : Nat) (bits : Nat) (l : Locals) (lc : MachoLoadCommand)
    (f : FILE) (h : lc.type = 0x32) :
    parse_macho_switch lim bits l lc f
      = ((parse_macho_build_version lc.size f).1, l, (parse_macho_build_version lc.size f).2) := by
  unfold parse_macho_switch
  rw [h, if_neg (by decide), if_neg (by decide), if_neg (by decide), if_pos rfl]

theorem parse_macho_dysymtab_mk (d : List Byte) (p : Nat) (h : p + 72 ≤ d.length) :
    parse_macho_dysymtab ⟨d, p⟩
      = ([Out.dysymtab (macho_read_dysymtab ⟨d, p⟩).2.1], ⟨d, p + 72⟩) := by
  unfold parse_macho_dysymtab
  rw [macho_read_dysymtab_mk d p h]

theorem parse_macho_symtab_file (bits : Nat) (f : FILE) :
    (parse_macho_symtab bits f).2 = (macho_read_symtab f).2.2 := by
  unfold parse_macho_symtab
  rcases macho_read_symtab f with ⟨r, st, f1⟩
  dsimp only
  rw [macho_print_symtab_file]

theorem fread_eq (n : Nat) (f : FILE) :
    fread n f = ((f.data.drop f.pos).take n, ⟨f.data, f.pos + min n (f.data.length - f.pos)⟩) := by
  unfold fread
  simp only [List.length_take, List.length_drop]

theorem fread_length (n : Nat) (f : FILE) :
    (fread n f).1.length = min n (f.data.length - f.pos) := by
  rw [fread_eq]
  simp only [List.length_take, List.length_drop]

theorem macho_read_segment_load_short (s : MachoSegmentLoad) (f : FILE) (bits : Nat)
    (h : f.data.length - f.pos < 16) :
    macho_read_segment_load s f bits
      = (-1, { s with name := store_buf 16 s.name ((f.data.drop f.pos).take 16) },
          ⟨f.data, f.pos + (f.data.length - f.pos)⟩) := by
  have hl := fread_length 16 f
  have he := fread_eq 16 f
  rcases hfr : fread 16 f with ⟨got, f1⟩
  rw [hfr] at hl he
  simp only [Prod.mk.injEq] at he
  obtain ⟨hg, hf1⟩ := he
  unfold macho_read_segment_load
  rw [hfr]
  dsimp only at hl ⊢
  rw [if_pos (by omega), hg, hf1, Nat.min_eq_right (by omega)]

theorem macho_read_segment_load_ok (s : MachoSegmentLoad) (f : FILE) (bits : Nat)
    (h : 16 ≤ f.data.length - f.pos) :
    (macho_read_segment_load s f bits).1 = 0 := by
  have hl := fread_length 16 f
  rcases hfr : fread 16 f with ⟨got, f1⟩
  rw [hfr] at hl
  rcases h1 : read_segment_sizes f1 bits with ⟨a, b, c, e, f2⟩
  unfold macho_read_segment_load
  rw [hfr]
  dsimp only at hl ⊢
  rw [if_neg (by omega), h1]

theorem macho_read_section_short1 (s : MachoSection) (f : FILE) (bits : Nat)
    (h : f.data.length - f.pos < 16) :
    macho_read_section s f bits
      = (-1, { s with section_name := store_buf 16 s.section_name ((f.data.drop f.pos).take 16) },
          ⟨f.data, f.pos + (f.data.length - f.pos)⟩) := by
  have hl := fread_length 16 f
  have he := fread_eq 16 f
  rcases hfr : fread 16 f with ⟨got, f1⟩
  rw [hfr] at hl he
  simp only [Prod.mk.injEq] at he
  obtain ⟨hg, hf1⟩ := he
  unfold macho_read_section
  rw [hfr]
  dsimp only at hl ⊢
  rw [if_pos (by omega), hg, hf1, Nat.min_eq_right (by omega)]

theorem macho_read_section_short2 (s : MachoSection) (f : FILE) (bits : Nat)
    (h1 : 16 ≤ f.data.length - f.pos) (h2 : f.data.length - f.pos < 32) :
    macho_read_section s f bits
      = (-1, { s with
            section_name := store_buf 16 s.section_name ((f.data.drop f.pos).take 16),
            segment_name := store_buf 16 s.segment_name ((f.data.drop (f.pos + 16)).take 16) },
          ⟨f.data, f.pos + (f.data.length - f.pos)⟩) := by
  have hl := fread_length 16 f
  have he := fread_eq 16 f
  rcases hfr : fread 16 f with ⟨got, f1⟩
  rw [hfr] at hl he
  simp only [Prod.mk.injEq] at he
  obtain ⟨hg, hf1⟩ := he
  rw [Nat.min_eq_left h1] at hf1
  subst hf1
  have hl2 := fread_length 16 ⟨f.data, f.pos + 16⟩
  have he2 := fread_eq 16 ⟨f.data, f.pos + 16⟩
  rcases hfr2 : fread 16 ⟨f.data, f.pos + 16⟩ with ⟨got2, f2⟩
  rw [hfr2] at hl2 he2
  simp only [Prod.mk.injEq] at he2
  obtain ⟨hg2, hf2⟩ := he2
  unfold macho_read_section
  rw [hfr]
  dsimp only at hl hl2 ⊢
  rw [if_neg (by omega), hfr2]
  dsimp only
  rw [if_pos (by omega), hg, hg2, hf2]
  have e : f.pos + 16 + min 16 (f.data.length - (f.pos + 16))
      = f.pos + (f.data.length - f.pos) := by omega
  rw [e]

theorem macho_read_section_ok (s : MachoSection) (f : FILE) (bits : Nat)
    (h : 32 ≤ f.data.length - f.pos) :
    (macho_read_section s f bits).1 = 0 := by
  have hl := fread_length 16 f
  have he := fread_eq 16 f
  rcases hfr : fread 16 f with ⟨got, f1⟩
  rw [hfr] at hl he
  simp only [Prod.mk.injEq] at he
  obtain ⟨-, hf1⟩ := he
  rw [Nat.min_eq_left (by omega)] at hf1
  subst hf1
  have hl2 := fread_length 16 ⟨f.data, f.pos + 16⟩
  rcases hfr2 : fread 16 ⟨f.data, f.pos + 16⟩ with ⟨got2, f2⟩
  rw [hfr2] at hl2
  rcases h1 : read_section_sizes f2 bits with ⟨a, b, g0⟩
  unfold macho_read_section
  rw [hfr]
  dsimp only at hl hl2 ⊢
  rw [if_neg (by omega), hfr2]
  dsimp only
  rw [if_neg (by omega), h1]

theorem toInt32_neg_iff (n : Nat) : toInt32 n < 0 ↔ 2 ^ 31 ≤ n % 2 ^ 32 := by
  unfold toInt32
  split <;> omega

theorem table_at_eq_none_iff (t : List String) (v : Int) :
    (if v ≥ (t.length : Int) then some "???" else table_at t v) = none ↔ v < 0 := by
  unfold table_at
  by_cases h1 : v ≥ (t.length : Int)
  · rw [if_pos h1]
    constructor
    · intro h
      exact absurd h (by simp)
    · intro h
      omega
  · rw [if_neg h1]
    by_cases h0 : 0 ≤ v
    · rw [if_pos h0]
      constructor
      · intro h
        rw [List.getElem?_eq_none_iff] at h
        omega
      · intro h
        omega
    · rw [if_neg h0]
      constructor
      · intro _
        omega
      · intro _
        rfl

theorem ge_iff_testBit_31 (x : Nat) (hx : x < 2 ^ 32) : 2 ^ 31 ≤ x ↔ x.testBit 31 = true := by
  rw [Nat.testBit_to_div_mod]
  simp only [decide_eq_true_eq]
  omega

theorem xor_arch64_sign (m : Nat) (hm : m < 2 ^ 32) :
    2 ^ 31 ≤ (m ^^^ 0x01000000) % 2 ^ 32 ↔ 2 ^ 31 ≤ m := by
  have e : (0x01000000 : Nat) = 2 ^ 24 := by norm_num
  rw [e]
  have hx : m ^^^ 2 ^ 24 < 2 ^ 32 := Nat.xor_lt_two_pow hm (by norm_num)
  rw [Nat.mod_eq_of_lt hx, ge_iff_testBit_31 _ hx, ge_iff_testBit_31 _ hm, Nat.testBit_xor,
    Nat.testBit_two_pow]
  simp

theorem get_file_type_eq_none_iff (n : Nat) :
    get_file_type (toInt32 n) = none ↔ 2 ^ 31 ≤ n % 2 ^ 32 := by
  unfold get_file_type
  dsimp only
  rw [table_at_eq_none_iff, toInt32_neg_iff]

theorem get_cpu_subtype_arm_eq_none_iff (n : Nat) :
    get_cpu_subtype_arm (toInt32 n) = none ↔ 2 ^ 31 ≤ n % 2 ^ 32 := by
  unfold get_cpu_subtype_arm
  dsimp only
  rw [table_at_eq_none_iff, toInt32_neg_iff]

theorem get_cpu_type_eq_none_iff (n : Nat) :
    get_cpu_type (toInt32 n) = none ↔ 2 ^ 31 ≤ n % 2 ^ 32 := by
  unfold get_cpu_type
  dsimp only
  rw [table_at_eq_none_iff]
  split
  · unfold int_xor
    rw [toInt32_neg_iff, toUInt32_toInt32]
    have e : toUInt32 (0x01000000 : Int) = 0x01000000 := by decide
    rw [e]
    exact xor_arch64_sign _ (Nat.mod_lt _ (by norm_num))
  · rw [toInt32_neg_iff]

theorem get_cpu_subtype_x86_default (v : Int)
    (h : v ∉ ([0x03, 0x04, 0x84, 0x56, 0x67, 0x77, 0x08, 0x18, 0x28, 0x0a, 0x0b, 0x1b, 0x0c,
      0x1c] : List Int)) :
    get_cpu_subtype_x86 v = "???" := by
  simp only [List.mem_cons, List.mem_singleton, List.not_mem_nil, not_or, or_false] at h
  obtain ⟨h1, h2, h3, h4, h5, h6, h7, h8, h9, h10, h11, h12, h13, h14⟩ := h
  unfold get_cpu_subtype_x86
  rw [if_neg h1, if_neg h2, if_neg h3, if_neg h4, if_neg h5, if_neg h6, if_neg h7, if_neg h8,
    if_neg h9, if_neg h10, if_neg h11, if_neg h12, if_neg h13, if_neg h14]

theorem getc_file (d : List Byte) (p : Nat) :
    (getc ⟨d, p⟩).2 = ⟨d, p + min 1 (d.length - p)⟩ := by
  rcases hd : d.drop p with _ | ⟨b, rest⟩
  · rw [getc_nil d p hd]
    have hl : d.length ≤ p := List.drop_eq_nil_iff.1 hd
    rw [Nat.sub_eq_zero_of_le hl]
    rfl
  · rw [(getc_cons d p b rest hd).1]
    have hl : (d.drop p).length = rest.length + 1 := by rw [hd]; rfl
    rw [List.length_drop] at hl
    rw [Nat.min_eq_left (by omega)]

theorem build_version_loop_file (iters n : Nat) (d : List Byte) (p : Nat) :
    (build_version_loop iters n ⟨d, p⟩).2 = ⟨d, p + min iters (d.length - p)⟩ := by
  induction iters generalizing n p with
  | zero =>
    unfold build_version_loop
    rw [Nat.zero_min]
    rfl
  | succ iters ih =>
    have hg := getc_file d p
    rcases hgc : getc ⟨d, p⟩ with ⟨ch, f1⟩
    rw [hgc] at hg
    dsimp only at hg
    subst hg
    have hi := ih (n + 1) (p + min 1 (d.length - p))
    rcases hrec : build_version_loop iters (n + 1) ⟨d, p + min 1 (d.length - p)⟩ with ⟨o, f2⟩
    rw [hrec] at hi
    dsimp only at hi
    subst hi
    unfold build_version_loop
    rw [hgc]
    dsimp only
    rw [hrec]
    dsimp only
    have e : p + min 1 (d.length - p) + min iters (d.length - (p + min 1 (d.length - p)))
        = p + min (iters + 1) (d.length - p) := by omega
    rw [e]
    split <;> rfl

theorem parse_macho_build_version_eq (size : Nat) (d : List Byte) (p : Nat) :
    ∃ o, parse_macho_build_version size ⟨d, p⟩
      = (o, ⟨d, p + min (u32_sub size 8) (d.length - p)⟩) := by
  unfold parse_macho_build_version
  generalize u32_sub size 8 = k
  have h := build_version_loop_file k 0 d p
  rcases hrec : build_version_loop k 0 ⟨d, p⟩ with ⟨o, f2⟩
  rw [hrec] at h
  dsimp only at h ⊢
  exact ⟨_, by rw [h]⟩

theorem count_load_commands_nil : count_load_commands [] = 0 := rfl

theorem read_uint32_pos (d : List Byte) (p : Nat) (v : Int) (f1 : FILE)
    (h : read_uint32 ⟨d, p⟩ = (v, f1)) : f1 = ⟨d, p + min 4 (d.length - p)⟩ := by
  rw [read_uint32_eq] at h
  simp only [Prod.mk.injEq] at h
  rw [← h.2]
  rfl

theorem read_uint16_pos (d : List Byte) (p : Nat) (v : Int) (f1 : FILE)
    (h : read_uint16 ⟨d, p⟩ = (v, f1)) : f1 = ⟨d, p + min 2 (d.length - p)⟩ := by
  rw [read_uint16_eq] at h
  simp only [Prod.mk.injEq] at h
  rw [← h.2]
  rfl

theorem read_uint64_pos (d : List Byte) (p : Nat) (v : Nat) (f1 : FILE)
    (h : read_uint64 ⟨d, p⟩ = (v, f1)) : f1 = ⟨d, p + min 8 (d.length - p)⟩ := by
  rw [read_uint64_eq] at h
  simp only [Prod.mk.injEq] at h
  rw [← h.2]
  rfl

theorem read_uint8_pos (d : List Byte) (p : Nat) (v : Int) (f1 : FILE)
    (h : read_uint8 ⟨d, p⟩ = (v, f1)) : f1 = ⟨d, p + min 1 (d.length - p)⟩ := by
  rw [read_uint8_eq] at h
  have hg := getc_file d p
  rw [h] at hg
  exact hg

/-- The cursor after `macho_read_symbol`: 12 bytes further in 32-bit width, 16
bytes further otherwise, or at the end of the stream when fewer bytes are
left. -/
theorem macho_read_symbol_pos (d : List Byte) (p bits : Nat) :
    (macho_read_symbol ⟨d, p⟩ bits).2.2
      = ⟨d, p + min (if bits = 32 then 12 else 16) (d.length - p)⟩ := by
  rcases h1 : read_uint32 ⟨d, p⟩ with ⟨v1, f1⟩
  have e1 := read_uint32_pos d p v1 f1 h1
  subst e1
  rcases h2 : read_uint8 ⟨d, p + min 4 (d.length - p)⟩ with ⟨v2, f2⟩
  have e2 := read_uint8_pos d _ v2 f2 h2
  subst e2
  rcases h3 : read_uint8 ⟨d, p + min 4 (d.length - p)
    + min 1 (d.length - (p + min 4 (d.length - p)))⟩ with ⟨v3, f3⟩
  have e3 := read_uint8_pos d _ v3 f3 h3
  subst e3
  generalize hq3 : p + min 4 (d.length - p) + min 1 (d.length - (p + min 4 (d.length - p)))
    + min 1 (d.length - (p + min 4 (d.length - p)
      + min 1 (d.length - (p + min 4 (d.length - p))))) = q3 at h3
  rcases h4 : read_uint16 ⟨d, q3⟩ with ⟨v4, f4⟩
  have e4 := read_uint16_pos d _ v4 f4 h4
  subst e4
  rcases h5 : read_uint32 ⟨d, q3 + min 2 (d.length - q3)⟩ with ⟨v5, f5⟩
  have e5 := read_uint32_pos d _ v5 f5 h5
  subst e5
  rcases h6 : read_uint64 ⟨d, q3 + min 2 (d.length - q3)⟩ with ⟨v6, f6⟩
  have e6 := read_uint64_pos d _ v6 f6 h6
  subst e6
  unfold macho_read_symbol
  rw [h1]
  dsimp only
  rw [h2]
  dsimp only
  rw [h3]
  dsimp only
  rw [h4]
  dsimp only
  by_cases hb : bits = 32
  · rw [if_pos hb, if_pos hb, h5]
    dsimp only
    congr 1
    omega
  · rw [if_neg hb, if_neg hb, h6]
    dsimp only
    congr 1
    omega

theorem getc_past (d : List Byte) (p : Nat) (h : d.length ≤ p) :
    getc ⟨d, p⟩ = (EOF, ⟨d, p⟩) :=
  getc_nil d p (List.drop_eq_nil_of_le h)

/-- Past the end of the stream `macho_read_symbol` decodes a record that does
not depend on the position, and does not move. -/
theorem macho_read_symbol_past (d : List Byte) (p bits : Nat) (h : d.length ≤ p) :
    macho_read_symbol ⟨d, p⟩ bits
      = (0, ⟨toUInt32 (read_uint32 ⟨[], 0⟩).1, toUInt8 EOF, toUInt8 EOF,
            toUInt16 (read_uint16 ⟨[], 0⟩).1,
            if bits = 32 then toUInt64 (read_uint32 ⟨[], 0⟩).1 else (read_uint64 ⟨[], 0⟩).1⟩,
          ⟨d, p⟩) := by
  have e0 := getc_past d p h
  have n0 := getc_past [] 0 (Nat.le_refl 0)
  have a32 := read_uint32_of_getc _ _ _ _ _ _ _ _ _ e0 e0 e0 e0
  have b32 := read_uint32_of_getc _ _ _ _ _ _ _ _ _ n0 n0 n0 n0
  have a16 := read_uint16_of_getc _ _ _ _ _ e0 e0
  have b16 := read_uint16_of_getc _ _ _ _ _ n0 n0
  have a64 := read_uint64_of_getc _ _ _ _ _ _ _ _ _ _ _ _ _ _ _ _ _ e0 e0 e0 e0 e0 e0 e0 e0
  have b64 := read_uint64_of_getc _ _ _ _ _ _ _ _ _ _ _ _ _ _ _ _ _ n0 n0 n0 n0 n0 n0 n0 n0
  have a8 : read_uint8 ⟨d, p⟩ = (EOF, ⟨d, p⟩) := by rw [read_uint8_eq, e0]
  rw [b32, b16, b64]
  unfold macho_read_symbol
  rw [a32]
  dsimp only
  rw [a8]
  dsimp only
  rw [a8]
  dsimp only
  rw [a16]
  dsimp only
  by_cases hb : bits = 32
  · rw [if_pos hb, if_pos hb, a32]
  · rw [if_neg hb, if_neg hb, a64]

theorem symbols_of_append (a b : List Out) :
    symbols_of (a ++ b) = symbols_of a ++ symbols_of b := by
  unfold symbols_of
  rw [List.filterMap_append]

theorem symbols_of_chars (l : List Byte) :
    symbols_of (l.map (fun b => Out.chr b.val)) = [] := by
  induction l with
  | nil => rfl
  | cons b l ih =>
    unfold symbols_of at ih ⊢
    rw [List.map_cons, List.filterMap_cons_none (by rfl), ih]

theorem macho_print_symbol_symbols (s : MachoSymbol) (f : FILE) (symtab : Nat) :
    symbols_of (macho_print_symbol s f symtab).1 = [s] := by
  rw [macho_print_symbol_eq]
  dsimp only
  rw [symbols_of_append]
  have e : ∀ o : List Out, symbols_of (Out.symbol s :: o) = s :: symbols_of o := fun _ => rfl
  rw [e, symbols_of_chars]
  rfl

/-- The second pass of `macho_print_symtab`, started at cursor `c`, prints the
records that `macho_read_symbol` decodes at the offsets `q + i * R`, where `q`
is `c`, or any offset past the end of the stream when `c` is past the end. -/
theorem symbol_loop_symbols (d : List Byte) (bits symtab count c q : Nat)
    (h : c = q ∨ (d.length ≤ c ∧ d.length ≤ q)) :
    symbols_of (symbol_loop count ⟨d, c⟩ bits symtab).1
      = (List.range count).map (fun i =>
          (macho_read_symbol ⟨d, q + i * (if bits = 32 then 12 else 16)⟩ bits).2.1) := by
  induction count generalizing c q with
  | zero => rfl
  | succ count ih =>
    have hpos := macho_read_symbol_pos d c bits
    have hrec : (macho_read_symbol ⟨d, c⟩ bits).2.1 = (macho_read_symbol ⟨d, q⟩ bits).2.1 := by
      rcases h with h | ⟨h1, h2⟩
      · rw [h]
      · rw [macho_read_symbol_past d c bits h1, macho_read_symbol_past d q bits h2]
    rcases h1 : macho_read_symbol ⟨d, c⟩ bits with ⟨r, sym, f1⟩
    rw [h1] at hpos hrec
    dsimp only at hpos hrec
    subst hpos
    have hnext : c + min (if bits = 32 then 12 else 16) (d.length - c)
          = q + (if bits = 32 then 12 else 16)
        ∨ (d.length ≤ c + min (if bits = 32 then 12 else 16) (d.length - c)
            ∧ d.length ≤ q + (if bits = 32 then 12 else 16)) := by
      rcases h with h | ⟨h1, h2⟩
      · subst h
        by_cases hle : c + (if bits = 32 then 12 else 16) ≤ d.length
        · left; omega
        · right; omega
      · right; omega
    have i1 := ih _ _ hnext
    rw [List.range_succ_eq_map, List.map_cons, List.map_map]
    unfold symbol_loop
    rw [h1]
    dsimp only
    rw [macho_print_symbol_eq]
    dsimp only
    rcases h2 : symbol_loop count ⟨d, c + min (if bits = 32 then 12 else 16) (d.length - c)⟩
      bits symtab with ⟨o2, f2⟩
    rw [h2] at i1
    dsimp only at i1 ⊢
    have hs := macho_print_symbol_symbols sym
      ⟨d, c + min (if bits = 32 then 12 else 16) (d.length - c)⟩ symtab
    rw [macho_print_symbol_eq] at hs
    dsimp only at hs
    rw [symbols_of_append, hs, i1, hrec]
    simp only [List.singleton_append, Nat.zero_mul, Nat.add_zero, List.cons.injEq, true_and]
    apply List.map_congr_left
    intro i _
    simp only [Function.comp_apply, Nat.succ_eq_add_one]
    rw [Nat.add_mul, Nat.one_mul, Nat.add_assoc, Nat.add_comm _ (i * _)]

theorem string_table_loop_symbols (iters n length : Nat) (f : FILE) :
    symbols_of (string_table_loop iters n length f).1 = [] := by
  induction iters generalizing n length f with
  | zero => rfl
  | succ iters ih =>
    rcases hg : getc f with ⟨ch, f1⟩
    have i0 := ih (n + 1) 0 f1
    have i1 := ih (n + 1) (length + 1) f1
    rcases hr0 : string_table_loop iters (n + 1) 0 f1 with ⟨o0, g0⟩
    rcases hr1 : string_table_loop iters (n + 1) (length + 1) f1 with ⟨o1, g1⟩
    rw [hr0] at i0
    rw [hr1] at i1
    simp only at i0 i1
    have en : ∀ o : List Out, symbols_of (Out.newline :: o) = symbols_of o := fun _ => rfl
    have ec : ∀ (c : Nat) (o : List Out), symbols_of (Out.chr c :: o) = symbols_of o :=
      fun _ _ => rfl
    have el : ∀ (c : Nat) (o : List Out), symbols_of (Out.str_label c :: o) = symbols_of o :=
      fun _ _ => rfl
    unfold string_table_loop
    rw [hg]
    dsimp only
    by_cases hc : ch = 0
    · rw [if_pos hc]
      by_cases hl : length = 0
      · rw [if_pos hl]
        rfl
      · rw [if_neg hl, hr0]
        dsimp only
        rw [en, i0]
    · rw [if_neg hc, hr1]
      dsimp only
      by_cases hl : length = 0
      · rw [if_pos hl]
        dsimp only
        rw [el, ec, i1]
      · rw [if_neg hl]
        dsimp only
        rw [ec, i1]

/-- A segment command, whichever of its two tags it carries, is decoded by
the segment branch applied to the stream after the command header. -/
theorem parse_macho_command_segment (lim : Nat) (bits : Nat) (l : Locals) (f : FILE) (r : Int)
    (lc : MachoLoadCommand) (f1 : FILE) (hr : macho_read_load_command f = (r, lc, f1))
    (htag : lc.type = 0x01 ∨ lc.type = 0x19) :
    parse_macho_command lim bits l f
      = (Out.load_command lc :: (parse_macho_segment bits l f1).1,
          (parse_macho_segment bits l f1).2.1, (parse_macho_segment bits l f1).2.2) := by
  have hs := parse_macho_switch_segment lim bits l lc f1 htag
  rcases hseg : parse_macho_segment bits l f1 with ⟨o, l2, f2⟩
  rw [hseg] at hs
  exact parse_macho_command_eq lim bits l f r lc f1 o l2 f2 hr hs

theorem get_cpu_subtype_other (c s : Int) (h1 : c ≠ 0x0C) (h2 : c ≠ 0x07) :
    get_cpu_subtype c s = some "" := by
  unfold get_cpu_subtype MACHO_ARM MACHO_X86
  rw [if_neg h1, if_neg h2]

/-- The run of `parse_macho` on an accepted header whose labels are defined:
the header is printed, the loop runs with the width `parse_macho_bits`, and the
return code is 0. -/
theorem parse_macho_of_header (lim : Nat) (f : FILE) (l : Locals) (h : MachoHeader) (f1 : FILE)
    (hh : macho_read_header f = (0, h, f1)) (hl : macho_print_header_defined h = true) :
    parse_macho lim f l
      = some (0, Out.header h ::
          (parse_macho_loop lim (parse_macho_bits h) h.load_command_count l f1).1
          ++ [Out.file_offset
            (parse_macho_loop lim (parse_macho_bits h) h.load_command_count l f1).2.2.pos],
        (parse_macho_loop lim (parse_macho_bits h) h.load_command_count l f1).2.2) := by
  unfold parse_macho
  rw [hh]
  dsimp only
  rw [if_neg (by decide), hl, if_neg (by decide)]
  rfl

/-- A command header read at or past the end of the stream is all `EOF`. -/
theorem macho_read_load_command_past (d : List Byte) (p : Nat) (h : d.length ≤ p) :
    macho_read_load_command ⟨d, p⟩ = (0, ⟨0xFFFFFFFF, 0xFFFFFFFF⟩, ⟨d, p⟩) := by
  have e0 := getc_past d p h
  have a32 := read_uint32_of_getc _ _ _ _ _ _ _ _ _ e0 e0 e0 e0
  unfold macho_read_load_command
  rw [a32]
  dsimp only
  rw [a32]
  rfl

/-- One iteration of the loop at or past the end of the stream: the command
read is unrecognized and the seek is by 4294967287 bytes, if the limit allows
it. -/
theorem parse_macho_command_past (lim bits : Nat) (l : Locals) (d : List Byte) (p : Nat)
    (h : d.length ≤ p) :
    parse_macho_command lim bits l ⟨d, p⟩
      = ([Out.load_command ⟨0xFFFFFFFF, 0xFFFFFFFF⟩], l,
          if p + 4294967287 ≤ lim then ⟨d, p + 4294967287⟩ else ⟨d, p⟩) := by
  have hr := macho_read_load_command_past d p h
  have hs := parse_macho_switch_default lim bits l ⟨0xFFFFFFFF, 0xFFFFFFFF⟩ ⟨d, p⟩
    (by decide) (by decide) (by decide) (by decide) (by decide)
  rw [parse_macho_command_eq lim bits l ⟨d, p⟩ 0 _ _ _ _ _ hr hs]
  have e : u32_sub (0xFFFFFFFF : Nat) 8 = 4294967287 := by decide
  dsimp only
  rw [e]
  rfl

/-- The loop at or past the end of the stream: the cursor advances by
4294967287 bytes per iteration until the next seek would pass the limit, and
then stays. -/
theorem parse_macho_loop_past (lim bits : Nat) (d : List Byte) (n k p : Nat) (l : Locals)
    (h : d.length ≤ p) (h1 : p + 4294967287 * k ≤ lim) (h2 : lim < p + 4294967287 * (k + 1)) :
    (parse_macho_loop lim bits n l ⟨d, p⟩).2.2 = ⟨d, p + 4294967287 * min n k⟩ := by
  induction n generalizing k p l with
  | zero =>
    rw [Nat.zero_min]
    rfl
  | succ n ih =>
    have hc := parse_macho_command_past lim bits l d p h
    unfold parse_macho_loop
    rw [hc]
    dsimp only
    rcases k with _ | k
    · rw [if_neg (by omega)]
      have i1 := ih 0 p l h h1 h2
      rcases hl : parse_macho_loop lim bits n l ⟨d, p⟩ with ⟨o2, l3, f3⟩
      rw [hl] at i1
      dsimp only at i1 ⊢
      rw [i1, Nat.min_zero, Nat.min_zero]
    · rw [if_pos (by omega)]
      have i1 := ih k (p + 4294967287) l (by omega) (by omega) (by omega)
      rcases hl : parse_macho_loop lim bits n l ⟨d, p + 4294967287⟩ with ⟨o2, l3, f3⟩
      rw [hl] at i1
      dsimp only at i1 ⊢
      rw [i1]
      congr 1
      rw [Nat.succ_min_succ]
      omega

/-- The segment branch as the code has it: for a segment command (tag 0x01 or
0x19) whose SegmentLoad declares `section_count = k` and whose bytes are all
present, one iteration of the loop prints the segment and `k` Section records,
and the cursor advances from the start of the command by 8 + 64 + 80 * k bytes
in 64-bit width and by 8 + 48 + 72 * k bytes when `bits = 32`. -/
theorem segment_command_consumes (lim : Nat) (bits : Nat) (l : Locals) (f : FILE) (r : Int)
    (lc : MachoLoadCommand) (f1 : FILE) (r2 : Int) (seg : MachoSegmentLoad) (f2 : FILE)
    (k : Nat)
    (hr : macho_read_load_command f = (r, lc, f1))
    (htag : lc.type = 0x01 ∨ lc.type = 0x19)
    (hs : macho_read_segment_load l.macho_segment_load f1 bits = (r2, seg, f2))
    (hk : seg.section_count = k)
    (hpresent : f.pos + (8 + (if bits = 32 then 48 else 64)
        + (if bits = 32 then 72 else 80) * k) ≤ f.data.length) :
    (∃ (secs : List MachoSection) (l2 : Locals), secs.length = k
      ∧ parse_macho_command lim bits l f
        = (Out.load_command lc :: Out.segment_load seg :: secs.map Out.sect, l2,
            ⟨f.data, f.pos + (8 + (if bits = 32 then 48 else 64)
              + (if bits = 32 then 72 else 80) * k)⟩))
    ∧ (lc.size = 8 + (if bits = 32 then 48 else 64) + (if bits = 32 then 72 else 80) * k →
        (parse_macho_command lim bits l f).2.2 = ⟨f.data, f.pos + lc.size⟩) := by
  subst hk
  obtain ⟨secs, l2, hlen, he⟩ :=
    parse_macho_command_segment_full lim bits l f r lc f1 r2 seg f2 hr htag hs hpresent
  refine ⟨⟨secs, l2, hlen, he⟩, fun hsz => ?_⟩
  rw [he, hsz]

/-! ## The claims -/

/-- C2 as amended: for a load command whose tag is none of 0x01, 0x19, 0x02,
0x0B, 0x32 and whose declared size is at least 8, one iteration of the loop of
`parse_macho` prints the command header and calls
`fseek(fp, size - 8, SEEK_CUR)`, whatever the tag is.  When the target offset
is within the offset limit of the stream the cursor ends exactly `size - 8`
bytes past the position reached after reading the command header, which is
`size - 8` bytes past the 8-byte header when the header is present.  When the
target passes the limit the seek fails and the cursor stays where the read of
the command header left it. -/
theorem unrecognized_command_skips (lim : Nat) (bits : Nat) (l : Locals) (f : FILE) (r : Int)
    (lc : MachoLoadCommand) (f1 : FILE) (hr : macho_read_load_command f = (r, lc, f1))
    (h1 : lc.type ≠ 0x01) (h2 : lc.type ≠ 0x19) (h3 : lc.type ≠ 0x02) (h4 : lc.type ≠ 0x0B)
    (h5 : lc.type ≠ 0x32) (hsize : 8 ≤ lc.size) :
    (f1.pos + (lc.size - 8) ≤ lim →
        parse_macho_command lim bits l f
          = ([Out.load_command lc], l, ⟨f.data, f1.pos + (lc.size - 8)⟩))
    ∧ (f.pos + 8 ≤ f.data.length → f.pos + lc.size ≤ lim →
        parse_macho_command lim bits l f
          = ([Out.load_command lc], l, ⟨f.data, f.pos + 8 + (lc.size - 8)⟩))
    ∧ (lim < f1.pos + (lc.size - 8) →
        parse_macho_command lim bits l f = ([Out.load_command lc], l, f1)) := by
  obtain ⟨-, -, hlt, hd, hp⟩ := macho_read_load_command_inv f r lc f1 hr
  have e := parse_macho_command_eq lim bits l f r lc f1 _ _ _ hr
    (parse_macho_switch_default lim bits l lc f1 h1 h2 h3 h4 h5)
  rw [u32_sub_eight _ hsize hlt] at e
  have e2 : f1.pos + (lc.size - 8) ≤ lim → parse_macho_command lim bits l f
      = ([Out.load_command lc], l, ⟨f.data, f1.pos + (lc.size - 8)⟩) := by
    intro hle
    rw [e, ← hd]
    unfold fseek_cur
    rw [if_pos hle]
  refine ⟨e2, fun h hle => ?_, fun hgt => ?_⟩
  · have hp1 := hp h
    rw [e2 (by omega), hp1]
  · rw [e]
    unfold fseek_cur
    rw [if_neg (by omega)]

/-- C5: for every stream and every symtab descriptor, whatever its offsets,
counts and string table size are, the stream after `macho_print_symtab` is the
stream before the call, so the cursor is where it was; and the stream after
each `macho_print_symbol` call is the stream before that call. -/
theorem symtab_pass_restores_cursor (s : MachoSymtab) (sym : MachoSymbol) (f : FILE)
    (bits symtab : Nat) :
    (macho_print_symtab s f bits).2 = f
    ∧ ftell (macho_print_symtab s f bits).2 = ftell f
    ∧ (macho_print_symbol sym f symtab).2 = f
    ∧ ftell (macho_print_symbol sym f symtab).2 = ftell f := by
  rw [macho_print_symtab_file, macho_print_symbol_eq]
  exact ⟨rfl, rfl, rfl, rfl⟩

/-- C7: `macho_read_header` returns 0 if and only if four bytes are present at
the cursor and their little-endian 32-bit value is 0xFEEDFACE or 0xFEEDFACF;
in every other case, a stream with fewer than four bytes included, it
returns -1. -/
theorem macho_read_header_accepts_iff (f : FILE) :
    ((macho_read_header f).1 = 0
      ↔ (f.pos + 4 ≤ f.data.length ∧ (le_sum f 4 = 0xFEEDFACE ∨ le_sum f 4 = 0xFEEDFACF)))
    ∧ ((macho_read_header f).1 = 0 ∨ (macho_read_header f).1 = -1) := by
  by_cases h : toUInt32 (read_uint32 f).1 = 0xfeedface ∨ toUInt32 (read_uint32 f).1 = 0xfeedfacf
  · have ha := (macho_read_header_accept f h).1
    exact ⟨⟨fun _ => (magic_recognized_iff f).1 h, fun _ => ha⟩, Or.inl ha⟩
  · have hr := macho_read_header_reject f h
    refine ⟨⟨fun h0 => ?_, fun hm => absurd ((magic_recognized_iff f).2 hm) h⟩, Or.inr ?_⟩
    · rw [hr] at h0
      have h1 : (-1 : Int) = 0 := h0
      exact absurd h1 (by decide)
    · rw [hr]


/-- C8: when the magic is not one of the two recognized values,
`macho_read_header` returns -1 and leaves the stream where the read of the
magic left it, at most 4 bytes after the start, and `parse_macho` returns -1
having printed only the error line: no load command is read or processed. -/
theorem bad_magic_stops_decoding (lim : Nat) (f : FILE) (l : Locals)
    (h : ¬ (f.pos + 4 ≤ f.data.length ∧ (le_sum f 4 = 0xFEEDFACE ∨ le_sum f 4 = 0xFEEDFACF))) :
    (macho_read_header f).1 = -1
    ∧ (macho_read_header f).2.2 = (read_uint32 f).2
    ∧ (macho_read_header f).2.2.pos ≤ f.pos + 4
    ∧ parse_macho lim f l = some (-1, [Out.error_not_macho], (read_uint32 f).2) := by
  have hm := mt (magic_recognized_iff f).1 h
  have hr := macho_read_header_reject f hm
  refine ⟨by rw [hr], by rw [hr], ?_, ?_⟩
  · rw [hr]
    show (read_uint32 f).2.pos ≤ _
    rw [read_uint32_file]
    show f.pos + avail f 4 ≤ _
    unfold avail
    omega
  · unfold parse_macho
    rw [hr]
    rfl

/-- C9: with at least N bytes at the cursor (N = 2, 4, 8), `read_uint16`,
`read_uint32` and `read_uint64` return, as an unsigned N-byte value (the `int`
results taken modulo 2^16 and 2^32), the sum over `j < N` of
`byte_j * 256^j`, and advance the cursor by exactly N. -/
theorem read_uint_little_endian (f : FILE) :
    (f.pos + 2 ≤ f.data.length →
      toUInt16 (read_uint16 f).1 = le_sum f 2
        ∧ (read_uint16 f).2 = { f with pos := f.pos + 2 }) ∧
    (f.pos + 4 ≤ f.data.length →
      toUInt32 (read_uint32 f).1 = le_sum f 4
        ∧ (read_uint32 f).2 = { f with pos := f.pos + 4 }) ∧
    (f.pos + 8 ≤ f.data.length →
      (read_uint64 f).1 = le_sum f 8
        ∧ (read_uint64 f).2 = { f with pos := f.pos + 8 }) := by
  obtain ⟨d, p⟩ := f
  refine ⟨fun h => ?_, fun h => ?_, fun h => ?_⟩
  · rw [read_uint16_mk d p h]
    have := le_sum_lt ⟨d, p⟩ 2
    refine ⟨?_, rfl⟩
    show toUInt16 (toInt32 _) = _
    rw [toInt32_of_lt _ (by omega)]
    unfold toUInt16; omega
  · exact ⟨read_uint32_val_full d p h, by rw [read_uint32_mk d p h]⟩
  · rw [read_uint64_mk d p h]
    exact ⟨rfl, rfl⟩


/-- C10 as amended: when only `k` bytes remain and the field needs more,
the readers do not fail: `read_uint8` returns `EOF`, and the value returned by
`read_uint16`, `read_uint32` and `read_uint64` holds the `k` bytes present
in its low-order positions and has every bit from bit `8 * k` upwards set (as a
32-bit pattern for the `int` results, 64-bit for `read_uint64`); the cursor
stops after the last byte present.  `macho_read_load_command` returns 0 on
every stream. -/
theorem short_read_fills_with_eof (f : FILE) (k : Nat) (hk : k = f.data.length - f.pos) :
    (k < 1 → read_uint8 f = (EOF, f)) ∧
    (k < 2 → toUInt32 (read_uint16 f).1 = le_sum f k + (2 ^ 32 - 256 ^ k)
      ∧ (read_uint16 f).2 = { f with pos := f.pos + k }) ∧
    (k < 4 → toUInt32 (read_uint32 f).1 = le_sum f k + (2 ^ 32 - 256 ^ k)
      ∧ (read_uint32 f).2 = { f with pos := f.pos + k }) ∧
    (k < 8 → (read_uint64 f).1 = le_sum f k + (2 ^ 64 - 256 ^ k)
      ∧ (read_uint64 f).2 = { f with pos := f.pos + k }) ∧
    (macho_read_load_command f).1 = 0 := by
  obtain ⟨d, p⟩ := f
  simp only at hk
  subst hk
  refine ⟨fun h => ?_, fun h => ?_, fun h => ?_, fun h => ?_, ?_⟩
  · rw [read_uint8_eq]
    apply getc_nil
    apply List.drop_eq_nil_of_le
    omega
  · refine ⟨read_uint16_val_short d p h, ?_⟩
    rw [read_uint16_eq, avail_of_lt d p 2 h]
  · refine ⟨read_uint32_val_short d p h, ?_⟩
    rw [read_uint32_eq, avail_of_lt d p 4 h]
  · rw [read_uint64_eq, avail_of_lt d p 8 h]
    refine ⟨?_, rfl⟩
    show _ + eof_fill 64 8 _ = _
    rw [eof_fill, if_pos h]
  · rw [macho_read_load_command_eq]

/-- C12 as amended: for a build-version command (tag 0x32) with declared size
at least 8, one iteration of the loop of `parse_macho` consumes the `size - 8`
bytes after the command header with `getc`, which does not move past the end
of the stream: the cursor ends `min (size - 8) (bytes left)` after the command
header.  When the stream holds all `size` bytes of the command that is
command start + size; when the stream holds the 8-byte command header but
ends before command start + size, the cursor stops at the end of the
stream. -/
theorem build_version_stops_at_end (lim : Nat) (bits : Nat) (l : Locals) (f : FILE) (r : Int)
    (lc : MachoLoadCommand) (f1 : FILE) (hr : macho_read_load_command f = (r, lc, f1))
    (htag : lc.type = 0x32) (hsize : 8 ≤ lc.size) :
    (parse_macho_command lim bits l f).2.2
        = ⟨f.data, f1.pos + min (lc.size - 8) (f.data.length - f1.pos)⟩
    ∧ (f.pos + lc.size ≤ f.data.length →
        (parse_macho_command lim bits l f).2.2 = ⟨f.data, f.pos + lc.size⟩)
    ∧ (f.pos + 8 ≤ f.data.length → f.data.length < f.pos + lc.size →
        (parse_macho_command lim bits l f).2.2 = ⟨f.data, f.data.length⟩) := by
  obtain ⟨-, -, hlt, hd, hp⟩ := macho_read_load_command_inv f r lc f1 hr
  obtain ⟨d1, p1⟩ := f1
  dsimp only at hd hp
  subst hd
  have e := parse_macho_command_eq lim bits l f r lc _ _ _ _ hr
    (parse_macho_switch_build_version lim bits l lc _ htag)
  obtain ⟨o, ho⟩ := parse_macho_build_version_eq lc.size f.data p1
  rw [e, ho, u32_sub_eight _ hsize hlt]
  refine ⟨rfl, fun h => ?_, fun h8 h => ?_⟩
  · have := hp (by omega)
    dsimp only
    congr 1
    omega
  · have := hp h8
    dsimp only
    congr 1
    omega

/-- C13: for a stream that holds a recognized magic at the cursor and a
complete header after it (28 bytes, 32 for the magic 0xFEEDFACF),
`macho_read_header` returns 0 and sets `cpu_type`, `cpu_subtype`, `file_type`,
`load_command_count`, `load_command_size` and `flags` to the little-endian 32-bit
values at offsets 4, 8, 12, 16, 20 and 24 from the start of the header, in that
order.  With the magic 0xFEEDFACF it reads the reserved word at offset 28 and
leaves the cursor at offset 32; with the magic 0xFEEDFACE it leaves the cursor
at offset 28 and `reserved` is 0. -/
theorem header_fields_in_order (d : List Byte) (p : Nat)
    (hm : le_sum ⟨d, p⟩ 4 = 0xFEEDFACE ∨ le_sum ⟨d, p⟩ 4 = 0xFEEDFACF)
    (hc : p + (if le_sum ⟨d, p⟩ 4 = 0xFEEDFACF then 32 else 28) ≤ d.length) :
    (macho_read_header ⟨d, p⟩).1 = 0
    ∧ (macho_read_header ⟨d, p⟩).2.1.magic_number = le_sum ⟨d, p⟩ 4
    ∧ (macho_read_header ⟨d, p⟩).2.1.cpu_type = le_sum ⟨d, p + 4⟩ 4
    ∧ (macho_read_header ⟨d, p⟩).2.1.cpu_subtype = le_sum ⟨d, p + 8⟩ 4
    ∧ (macho_read_header ⟨d, p⟩).2.1.file_type = le_sum ⟨d, p + 12⟩ 4
    ∧ (macho_read_header ⟨d, p⟩).2.1.load_command_count = le_sum ⟨d, p + 16⟩ 4
    ∧ (macho_read_header ⟨d, p⟩).2.1.load_command_size = le_sum ⟨d, p + 20⟩ 4
    ∧ (macho_read_header ⟨d, p⟩).2.1.flags = le_sum ⟨d, p + 24⟩ 4
    ∧ (le_sum ⟨d, p⟩ 4 = 0xFEEDFACF →
        (macho_read_header ⟨d, p⟩).2.1.reserved = le_sum ⟨d, p + 28⟩ 4
        ∧ (macho_read_header ⟨d, p⟩).2.2 = ⟨d, p + 32⟩)
    ∧ (le_sum ⟨d, p⟩ 4 ≠ 0xFEEDFACF →
        (macho_read_header ⟨d, p⟩).2.1.reserved = 0
        ∧ (macho_read_header ⟨d, p⟩).2.2 = ⟨d, p + 28⟩) := by
  rw [macho_read_header_mk d p hm hc]
  refine ⟨rfl, rfl, rfl, rfl, rfl, rfl, rfl, rfl, fun h => ?_, fun h => ?_⟩
  · dsimp only
    rw [if_pos h, if_pos h]
    exact ⟨rfl, rfl⟩
  · dsimp only
    rw [if_neg h, if_neg h]
    exact ⟨rfl, rfl⟩

/-- C17: `macho_read_segment_load` returns -1 if and only if fewer than 16
bytes remain at the cursor (and 0 otherwise), and `macho_read_section` returns
-1 if and only if fewer than 32 bytes remain (and 0 otherwise).  In both
failure cases no integer field is read: the record keeps every field other
than the name buffers as it was before the call, and the cursor has only
moved over the name bytes that `fread` obtained, to the end of the stream. -/
theorem name_read_failure (s : MachoSegmentLoad) (sec : MachoSection) (f : FILE) (bits : Nat) :
    ((macho_read_segment_load s f bits).1 = -1 ↔ f.data.length - f.pos < 16)
    ∧ ((macho_read_segment_load s f bits).1 = 0 ↔ 16 ≤ f.data.length - f.pos)
    ∧ (f.data.length - f.pos < 16 →
        (macho_read_segment_load s f bits).2.1
            = { s with name := (macho_read_segment_load s f bits).2.1.name }
        ∧ (macho_read_segment_load s f bits).2.2 = ⟨f.data, f.pos + (f.data.length - f.pos)⟩)
    ∧ ((macho_read_section sec f bits).1 = -1 ↔ f.data.length - f.pos < 32)
    ∧ ((macho_read_section sec f bits).1 = 0 ↔ 32 ≤ f.data.length - f.pos)
    ∧ (f.data.length - f.pos < 32 →
        (macho_read_section sec f bits).2.1
            = { sec with section_name := (macho_read_section sec f bits).2.1.section_name,
                         segment_name := (macho_read_section sec f bits).2.1.segment_name }
        ∧ (macho_read_section sec f bits).2.2 = ⟨f.data, f.pos + (f.data.length - f.pos)⟩) := by
  have hne : ¬ ((0 : Int) = -1) := by decide
  have hne2 : ¬ ((-1 : Int) = 0) := by decide
  have hseg : f.data.length - f.pos < 16 → (macho_read_segment_load s f bits).1 = -1 ∧
      (macho_read_segment_load s f bits).2.1
            = { s with name := (macho_read_segment_load s f bits).2.1.name }
        ∧ (macho_read_segment_load s f bits).2.2
            = ⟨f.data, f.pos + (f.data.length - f.pos)⟩ := by
    intro h
    rw [macho_read_segment_load_short s f bits h]
    exact ⟨rfl, rfl, rfl⟩
  have hsec : f.data.length - f.pos < 32 → (macho_read_section sec f bits).1 = -1 ∧
      (macho_read_section sec f bits).2.1
            = { sec with section_name := (macho_read_section sec f bits).2.1.section_name,
                         segment_name := (macho_read_section sec f bits).2.1.segment_name }
        ∧ (macho_read_section sec f bits).2.2
            = ⟨f.data, f.pos + (f.data.length - f.pos)⟩ := by
    intro h
    by_cases h16 : f.data.length - f.pos < 16
    · rw [macho_read_section_short1 sec f bits h16]
      exact ⟨rfl, rfl, rfl⟩
    · rw [macho_read_section_short2 sec f bits (by omega) h]
      exact ⟨rfl, rfl, rfl⟩
  refine ⟨⟨fun h => ?_, fun h => (hseg h).1⟩, ⟨fun h => ?_, fun h => ?_⟩, fun h => (hseg h).2,
    ⟨fun h => ?_, fun h => (hsec h).1⟩, ⟨fun h => ?_, fun h => ?_⟩, fun h => (hsec h).2⟩
  · by_contra hc
    rw [macho_read_segment_load_ok s f bits (by omega)] at h
    exact hne h
  · by_contra hc
    rw [(hseg (by omega)).1] at h
    exact hne2 h
  · exact macho_read_segment_load_ok s f bits h
  · by_contra hc
    rw [macho_read_section_ok sec f bits (by omega)] at h
    exact hne h
  · by_contra hc
    rw [(hsec (by omega)).1] at h
    exact hne2 h
  · exact macho_read_section_ok sec f bits h

/-- C19: for every stream, every symtab descriptor and both widths, the
Symbol records that the second pass of `macho_print_symtab` decodes and prints
are, in order, the records that `macho_read_symbol` decodes at the absolute
offsets `symbol_table_offset + i * R` for `i < symbol_count`, where `R = 12` in
32-bit width and `R = 16` otherwise; the `string_index` values of the earlier
symbols play no part.  (Past the end of the stream every offset decodes the
same record, so this also holds for a truncated symbol table.) -/
theorem symbol_records_are_sequential (s : MachoSymtab) (f : FILE) (bits : Nat) :
    symbols_of (macho_print_symtab s f bits).1
      = (List.range s.symbol_count).map (fun i =>
          (macho_read_symbol
            ⟨f.data, s.symbol_table_offset + i * (if bits = 32 then 12 else 16)⟩ bits).2.1) := by
  obtain ⟨d, p⟩ := f
  have a1 := string_table_loop_data (s.string_table_size - 1) 1 0
    ⟨d, u32_add s.string_table_offset 1⟩
  have c1 : symbols_of (string_table_loop (s.string_table_size - 1) 1 0
    ⟨d, u32_add s.string_table_offset 1⟩).1 = [] := string_table_loop_symbols _ _ _ _
  rcases h1 : string_table_loop (s.string_table_size - 1) 1 0
    ⟨d, u32_add s.string_table_offset 1⟩ with ⟨o1, f1⟩
  rw [h1] at a1 c1
  dsimp only at a1 c1
  have a2 := symbol_loop_symbols d bits s.string_table_offset s.symbol_count
    s.symbol_table_offset s.symbol_table_offset (Or.inl rfl)
  rcases h2 : symbol_loop s.symbol_count ⟨d, s.symbol_table_offset⟩ bits
    s.string_table_offset with ⟨o2, f2⟩
  rw [h2] at a2
  dsimp only at a2
  unfold macho_print_symtab
  simp only [fseek_set, ftell]
  rw [h1]
  dsimp only
  rw [a1, h2]
  dsimp only
  rw [symbols_of_append, symbols_of_append, ← a2]
  have e : ∀ o : List Out, symbols_of (Out.symtab s :: o) = symbols_of o := fun _ => rfl
  rw [e, c1, List.nil_append]
  exact List.append_nil _

/-- C20: with at least 72 bytes at the cursor `macho_read_dysymtab` returns 0,
sets the 18 fields of the record, in their declared order, to the little-endian
32-bit values at offsets 0, 4, ..., 68 from the cursor and leaves the cursor
exactly 72 bytes further; with at least 16 bytes `macho_read_symtab` does the
same for its 4 fields and 16 bytes.  A dysymtab command (tag 0x0B) whose 80
bytes are present therefore leaves the cursor 80 bytes after the start of the
command, which is command start + declared size when the declared size
is 80. -/
theorem dysymtab_reads_18_fields (lim : Nat) (d : List Byte) (p : Nat) :
    (p + 72 ≤ d.length →
      macho_read_dysymtab ⟨d, p⟩
        = (0, ⟨le_sum ⟨d, p⟩ 4, le_sum ⟨d, p + 4⟩ 4, le_sum ⟨d, p + 8⟩ 4, le_sum ⟨d, p + 12⟩ 4,
              le_sum ⟨d, p + 16⟩ 4, le_sum ⟨d, p + 20⟩ 4, le_sum ⟨d, p + 24⟩ 4,
              le_sum ⟨d, p + 28⟩ 4, le_sum ⟨d, p + 32⟩ 4, le_sum ⟨d, p + 36⟩ 4,
              le_sum ⟨d, p + 40⟩ 4, le_sum ⟨d, p + 44⟩ 4, le_sum ⟨d, p + 48⟩ 4,
              le_sum ⟨d, p + 52⟩ 4, le_sum ⟨d, p + 56⟩ 4, le_sum ⟨d, p + 60⟩ 4,
              le_sum ⟨d, p + 64⟩ 4, le_sum ⟨d, p + 68⟩ 4⟩,
            ⟨d, p + 72⟩))
    ∧ (p + 16 ≤ d.length →
      macho_read_symtab ⟨d, p⟩
        = (0, ⟨le_sum ⟨d, p⟩ 4, le_sum ⟨d, p + 4⟩ 4, le_sum ⟨d, p + 8⟩ 4,
              le_sum ⟨d, p + 12⟩ 4⟩,
            ⟨d, p + 16⟩))
    ∧ (∀ (bits : Nat) (l : Locals), p + 80 ≤ d.length →
        (macho_read_load_command ⟨d, p⟩).2.1.type = 0x0B →
          (parse_macho_command lim bits l ⟨d, p⟩).2.2 = ⟨d, p + 80⟩
          ∧ ((macho_read_load_command ⟨d, p⟩).2.1.size = 80 →
              (parse_macho_command lim bits l ⟨d, p⟩).2.2
                = ⟨d, p + (macho_read_load_command ⟨d, p⟩).2.1.size⟩)) := by
  refine ⟨macho_read_dysymtab_mk d p, macho_read_symtab_mk d p, fun bits l h ht => ?_⟩
  rcases hr : macho_read_load_command ⟨d, p⟩ with ⟨r, lc, f1⟩
  rw [hr] at ht
  have hmk := macho_read_load_command_mk d p (by omega)
  rw [hr] at hmk
  have hf1 : f1 = ⟨d, p + 8⟩ := congrArg (fun x => x.2.2) hmk
  subst hf1
  have e := parse_macho_command_eq lim bits l ⟨d, p⟩ r lc _ _ _ _ hr
    (parse_macho_switch_dysymtab lim bits l lc _ ht)
  rw [e, parse_macho_dysymtab_mk d (p + 8) (by omega)]
  refine ⟨rfl, fun hs => ?_⟩
  dsimp only at hs
  dsimp only
  rw [hs]

/-- C21: `parse_macho` decodes a segment command in the same way for the tag
0x01 and for the tag 0x19: for either tag, and whatever the declared size, the
switch runs the segment branch on the stream after the command header, with
the width `bits` that `parse_macho` derived from the header.  That width is 64
when bit 0x01000000 (bit 24) of `cpu_type` is set and 32 otherwise; the tag of
the command does not enter the decoding of the SegmentLoad or of its Section
records. -/
theorem segment_tag_does_not_select_width (lim : Nat) (bits : Nat) (l : Locals) (f : FILE)
    (size size' : Nat) :
    parse_macho_switch lim bits l ⟨0x01, size⟩ f = parse_macho_segment bits l f
    ∧ parse_macho_switch lim bits l ⟨0x19, size'⟩ f = parse_macho_segment bits l f
    ∧ parse_macho_switch lim bits l ⟨0x01, size⟩ f = parse_macho_switch lim bits l ⟨0x19, size'⟩ f
    ∧ (∀ h : MachoHeader,
        parse_macho_bits h = if h.cpu_type.testBit 24 = true then 64 else 32)
    ∧ (∀ (r : Int) (lc : MachoLoadCommand) (f1 : FILE),
        macho_read_load_command f = (r, lc, f1) → (lc.type = 0x01 ∨ lc.type = 0x19) →
          parse_macho_command lim bits l f
            = (Out.load_command lc :: (parse_macho_segment bits l f1).1,
                (parse_macho_segment bits l f1).2.1, (parse_macho_segment bits l f1).2.2)) := by
  have h1 := parse_macho_switch_segment lim bits l ⟨0x01, size⟩ f (Or.inl rfl)
  have h2 := parse_macho_switch_segment lim bits l ⟨0x19, size'⟩ f (Or.inr rfl)
  exact ⟨h1, h2, h1.trans h2.symm, parse_macho_bits_eq,
    fun r lc f1 hr htag => parse_macho_command_segment lim bits l f r lc f1 hr htag⟩

/-- C22: for every cpu type code other than exactly 0x0C (ARM) and 0x07 (x86),
`get_cpu_subtype` returns the empty label whatever the subtype code is.  In
particular the codes with the architecture-64 bit set, 0x0100000C and
0x01000007, get the empty subtype label, although `get_cpu_type` strips that
bit and returns the label of the base architecture, "ARM" and "x86". -/
theorem subtype_label_needs_exact_cpu_type (c s : Int) (h1 : c ≠ 0x0C) (h2 : c ≠ 0x07) :
    get_cpu_subtype c s = some ""
    ∧ get_cpu_subtype (toInt32 0x0100000C) s = some ""
    ∧ get_cpu_subtype (toInt32 0x01000007) s = some ""
    ∧ get_cpu_type (toInt32 0x0100000C) = some "ARM"
    ∧ get_cpu_type (toInt32 0x01000007) = some "x86"
    ∧ (∀ h : MachoHeader, h.cpu_type = 0x0100000C ∨ h.cpu_type = 0x01000007 →
        (macho_print_header h).2.1 = some "") :=
  ⟨get_cpu_subtype_other c s h1 h2,
   get_cpu_subtype_other (toInt32 0x0100000C) s (by decide) (by decide),
   get_cpu_subtype_other (toInt32 0x01000007) s (by decide) (by decide),
   by decide, by decide,
   fun h hc => by
     have e : (macho_print_header h).2.1
         = get_cpu_subtype (toInt32 h.cpu_type) (toInt32 h.cpu_subtype) := rfl
     rw [e]
     rcases hc with hc | hc
     · rw [hc]
       exact get_cpu_subtype_other (toInt32 0x0100000C) (toInt32 h.cpu_subtype)
         (by decide) (by decide)
     · rw [hc]
       exact get_cpu_subtype_other (toInt32 0x01000007) (toInt32 h.cpu_subtype)
         (by decide) (by decide)⟩

end Decoders

/-! ## The claims on concrete streams -/

set_option maxRecDepth 100000

/-- C1, the code at a failing input: a 32-bit file with two load commands, a
symtab command (tag 0x02) of declared size 32 (24 bytes of content and 8 bytes
of padding) at offset 28 and an unrecognized command at offset 60.  After the
symtab command the cursor is at 52, not at 28 + 32 = 60: the symtab branch
never looks at the declared size.  The next command header is then read from
the padding, and the run ends at offset 4294967348 instead of 76. -/
theorem symtab_command_ignores_declared_size :
    macho_read_load_command
        ⟨[0xCE, 0xFA, 0xED, 0xFE, 7, 0, 0, 0, 3, 0, 0, 0, 1, 0, 0, 0, 2, 0, 0, 0, 48, 0, 0, 0,
          0, 0, 0, 0, 2, 0, 0, 0, 32, 0, 0, 0] ++ List.replicate 24 0
          ++ [0x26, 0, 0, 0, 16, 0, 0, 0] ++ List.replicate 8 0, 28⟩
      = (0, ⟨2, 32⟩,
        ⟨[0xCE, 0xFA, 0xED, 0xFE, 7, 0, 0, 0, 3, 0, 0, 0, 1, 0, 0, 0, 2, 0, 0, 0, 48, 0, 0, 0,
          0, 0, 0, 0, 2, 0, 0, 0, 32, 0, 0, 0] ++ List.replicate 24 0
          ++ [0x26, 0, 0, 0, 16, 0, 0, 0] ++ List.replicate 8 0, 36⟩)
    ∧ (parse_macho_command LONG_MAX 32
        ⟨⟨[], 0, 0, 0, 0, 0, 0, 0, 0⟩, ⟨[], [], 0, 0, 0, 0, 0, 0, 0, 0, 0, 0⟩⟩
        ⟨[0xCE, 0xFA, 0xED, 0xFE, 7, 0, 0, 0, 3, 0, 0, 0, 1, 0, 0, 0, 2, 0, 0, 0, 48, 0, 0, 0,
          0, 0, 0, 0, 2, 0, 0, 0, 32, 0, 0, 0] ++ List.replicate 24 0
          ++ [0x26, 0, 0, 0, 16, 0, 0, 0] ++ List.replicate 8 0, 28⟩).2.2.pos = 52
    ∧ (52 : Nat) ≠ 28 + 32
    ∧ (parse_macho LONG_MAX
        ⟨[0xCE, 0xFA, 0xED, 0xFE, 7, 0, 0, 0, 3, 0, 0, 0, 1, 0, 0, 0, 2, 0, 0, 0, 48, 0, 0, 0,
          0, 0, 0, 0, 2, 0, 0, 0, 32, 0, 0, 0] ++ List.replicate 24 0
          ++ [0x26, 0, 0, 0, 16, 0, 0, 0] ++ List.replicate 8 0, 0⟩
        ⟨⟨[], 0, 0, 0, 0, 0, 0, 0, 0⟩, ⟨[], [], 0, 0, 0, 0, 0, 0, 0, 0, 0, 0⟩⟩).map
          (fun r => (r.1, r.2.2.pos))
        = some (0, 4294967348) := by
  decide

/-- C2, the claim as stated fails: a file that consists of a 28-byte header
with `load_command_count = 4097`, on a stream whose offset limit is
17592186040320 (16 TiB less one 4 KiB block).  Every command header is read at
the end of the file and is all `EOF`: tag 0xFFFFFFFF, none of the recognized
tags, and declared size 0xFFFFFFFF.  After 4096 seeks by
`size - 8 = 4294967287` the cursor is at 17592186007580; the next target
passes the limit, the seek fails, and the cursor is not advanced by
`size - 8`: the run ends at 17592186007580. -/
theorem unrecognized_seek_fails :
    (parse_macho 17592186040320
        ⟨[0xCE, 0xFA, 0xED, 0xFE, 7, 0, 0, 0, 3, 0, 0, 0, 1, 0, 0, 0, 0x01, 0x10, 0, 0,
          0, 0, 0, 0, 0, 0, 0, 0], 0⟩
        ⟨⟨[], 0, 0, 0, 0, 0, 0, 0, 0⟩, ⟨[], [], 0, 0, 0, 0, 0, 0, 0, 0, 0, 0⟩⟩).map
          (fun r => (r.1, r.2.2.pos))
      = some (0, 17592186007580)
    ∧ parse_macho_command 17592186040320 32
        ⟨⟨[], 0, 0, 0, 0, 0, 0, 0, 0⟩, ⟨[], [], 0, 0, 0, 0, 0, 0, 0, 0, 0, 0⟩⟩
        ⟨[0xCE, 0xFA, 0xED, 0xFE, 7, 0, 0, 0, 3, 0, 0, 0, 1, 0, 0, 0, 0x01, 0x10, 0, 0,
          0, 0, 0, 0, 0, 0, 0, 0], 17592186007580⟩
      = ([Out.load_command ⟨0xFFFFFFFF, 0xFFFFFFFF⟩],
         ⟨⟨[], 0, 0, 0, 0, 0, 0, 0, 0⟩, ⟨[], [], 0, 0, 0, 0, 0, 0, 0, 0, 0, 0⟩⟩,
         ⟨[0xCE, 0xFA, 0xED, 0xFE, 7, 0, 0, 0, 3, 0, 0, 0, 1, 0, 0, 0, 0x01, 0x10, 0, 0,
          0, 0, 0, 0, 0, 0, 0, 0], 17592186007580⟩)
    ∧ (17592186007580 : Nat) ≠ 17592186007580 + (0xFFFFFFFF - 8) := by
  refine ⟨?_, by decide, by decide⟩
  have hh : macho_read_header
      ⟨[0xCE, 0xFA, 0xED, 0xFE, 7, 0, 0, 0, 3, 0, 0, 0, 1, 0, 0, 0, 0x01, 0x10, 0, 0,
        0, 0, 0, 0, 0, 0, 0, 0], 0⟩
      = (0, ⟨0xFEEDFACE, 7, 3, 1, 4097, 0, 0, 0⟩,
          ⟨[0xCE, 0xFA, 0xED, 0xFE, 7, 0, 0, 0, 3, 0, 0, 0, 1, 0, 0, 0, 0x01, 0x10, 0, 0,
            0, 0, 0, 0, 0, 0, 0, 0], 28⟩) := by decide
  rw [parse_macho_of_header _ _ _ _ _ hh (by decide),
    parse_macho_loop_past 17592186040320 _ _ _ 4096 28 _ (by decide) (by decide) (by decide)]
  rfl

/-- C2 as amended, witness: tag 0x7F with declared size 40 advances the cursor
by 32 bytes past the 8-byte header. -/
theorem unrecognized_command_skips_witness :
    parse_macho_command LONG_MAX 64
      ⟨⟨[], 0, 0, 0, 0, 0, 0, 0, 0⟩, ⟨[], [], 0, 0, 0, 0, 0, 0, 0, 0, 0, 0⟩⟩
      ⟨[0x7F, 0, 0, 0, 40, 0, 0, 0] ++ List.replicate 32 0 ++ [0x2A, 0, 0, 0], 0⟩
    = ([Out.load_command ⟨0x7F, 40⟩],
       ⟨⟨[], 0, 0, 0, 0, 0, 0, 0, 0⟩, ⟨[], [], 0, 0, 0, 0, 0, 0, 0, 0, 0, 0⟩⟩,
       ⟨[0x7F, 0, 0, 0, 40, 0, 0, 0] ++ List.replicate 32 0 ++ [0x2A, 0, 0, 0], 0 + 8 + (40 - 8)⟩) :=
  (unrecognized_command_skips LONG_MAX 64 _ _ 0 ⟨0x7F, 40⟩
    ⟨[0x7F, 0, 0, 0, 40, 0, 0, 0] ++ List.replicate 32 0 ++ [0x2A, 0, 0, 0], 8⟩
    (by decide) (by decide) (by decide) (by decide) (by decide) (by decide) (by decide)).2.1
    (by decide) (by decide)

/-- C3, the code at a failing input: a well-formed 32-bit file of 168 bytes with
two load commands.  The first, at offset 28, is a segment command (tag 0x01)
with `section_count = 1` and declared size 124 = 8 + 48 + 68: a 32-bit Section
record is 68 bytes, it has no third reserved word.  `macho_read_section` reads
eight 32-bit words after the two width-dependent fields also when
`bits == 32`, 72 bytes in all: it takes the tag 0x26 of the next command as
`reserved3` and leaves the cursor at 156, not at 28 + 124 = 152.  The second
command header is then read 4 bytes late, as tag 16 with size 0 instead of tag
0x26 with size 16, and the run ends at offset 4294967452 instead of 168.  In
64-bit width the numbers of the claim are those of the code: a segment command
with `k` sections whose bytes are present advances the cursor by
8 + 64 + 80 * k, and the cursor is at command start + declared size when the
declared size is that number. -/
theorem segment32_section_overrun :
    macho_read_load_command
        ⟨[0xCE, 0xFA, 0xED, 0xFE, 7, 0, 0, 0, 3, 0, 0, 0, 1, 0, 0, 0, 2, 0, 0, 0, 0x8C, 0, 0, 0,
          0, 0, 0, 0, 1, 0, 0, 0, 124, 0, 0, 0] ++ List.replicate 16 65
          ++ [0, 0x10, 0, 0, 0, 0x10, 0, 0, 0, 0, 0, 0, 0, 0x10, 0, 0, 7, 0, 0, 0, 5, 0, 0, 0,
              1, 0, 0, 0, 0, 0, 0, 0]
          ++ List.replicate 16 66 ++ List.replicate 16 65
          ++ [0, 0x10, 0, 0, 0x40, 0, 0, 0, 0xA8, 0, 0, 0, 2, 0, 0, 0, 0, 0, 0, 0, 0, 0, 0, 0,
              0, 4, 0, 0x80, 0, 0, 0, 0, 0, 0, 0, 0]
          ++ [0x26, 0, 0, 0, 16, 0, 0, 0, 0, 0, 0, 0, 0, 0, 0, 0], 28⟩
      = (0, ⟨1, 124⟩,
        ⟨[0xCE, 0xFA, 0xED, 0xFE, 7, 0, 0, 0, 3, 0, 0, 0, 1, 0, 0, 0, 2, 0, 0, 0, 0x8C, 0, 0, 0,
          0, 0, 0, 0, 1, 0, 0, 0, 124, 0, 0, 0] ++ List.replicate 16 65
          ++ [0, 0x10, 0, 0, 0, 0x10, 0, 0, 0, 0, 0, 0, 0, 0x10, 0, 0, 7, 0, 0, 0, 5, 0, 0, 0,
              1, 0, 0, 0, 0, 0, 0, 0]
          ++ List.replicate 16 66 ++ List.replicate 16 65
          ++ [0, 0x10, 0, 0, 0x40, 0, 0, 0, 0xA8, 0, 0, 0, 2, 0, 0, 0, 0, 0, 0, 0, 0, 0, 0, 0,
              0, 4, 0, 0x80, 0, 0, 0, 0, 0, 0, 0, 0]
          ++ [0x26, 0, 0, 0, 16, 0, 0, 0, 0, 0, 0, 0, 0, 0, 0, 0], 36⟩)
    ∧ (parse_macho_command LONG_MAX 32
        ⟨⟨[], 0, 0, 0, 0, 0, 0, 0, 0⟩, ⟨[], [], 0, 0, 0, 0, 0, 0, 0, 0, 0, 0⟩⟩
        ⟨[0xCE, 0xFA, 0xED, 0xFE, 7, 0, 0, 0, 3, 0, 0, 0, 1, 0, 0, 0, 2, 0, 0, 0, 0x8C, 0, 0, 0,
          0, 0, 0, 0, 1, 0, 0, 0, 124, 0, 0, 0] ++ List.replicate 16 65
          ++ [0, 0x10, 0, 0, 0, 0x10, 0, 0, 0, 0, 0, 0, 0, 0x10, 0, 0, 7, 0, 0, 0, 5, 0, 0, 0,
              1, 0, 0, 0, 0, 0, 0, 0]
          ++ List.replicate 16 66 ++ List.replicate 16 65
          ++ [0, 0x10, 0, 0, 0x40, 0, 0, 0, 0xA8, 0, 0, 0, 2, 0, 0, 0, 0, 0, 0, 0, 0, 0, 0, 0,
              0, 4, 0, 0x80, 0, 0, 0, 0, 0, 0, 0, 0]
          ++ [0x26, 0, 0, 0, 16, 0, 0, 0, 0, 0, 0, 0, 0, 0, 0, 0], 28⟩).2.2.pos = 156
    ∧ (156 : Nat) ≠ 28 + (8 + 48 + 68 * 1)
    ∧ (parse_macho_command LONG_MAX 32
        ⟨⟨[], 0, 0, 0, 0, 0, 0, 0, 0⟩, ⟨[], [], 0, 0, 0, 0, 0, 0, 0, 0, 0, 0⟩⟩
        ⟨[0xCE, 0xFA, 0xED, 0xFE, 7, 0, 0, 0, 3, 0, 0, 0, 1, 0, 0, 0, 2, 0, 0, 0, 0x8C, 0, 0, 0,
          0, 0, 0, 0, 1, 0, 0, 0, 124, 0, 0, 0] ++ List.replicate 16 65
          ++ [0, 0x10, 0, 0, 0, 0x10, 0, 0, 0, 0, 0, 0, 0, 0x10, 0, 0, 7, 0, 0, 0, 5, 0, 0, 0,
              1, 0, 0, 0, 0, 0, 0, 0]
          ++ List.replicate 16 66 ++ List.replicate 16 65
          ++ [0, 0x10, 0, 0, 0x40, 0, 0, 0, 0xA8, 0, 0, 0, 2, 0, 0, 0, 0, 0, 0, 0, 0, 0, 0, 0,
              0, 4, 0, 0x80, 0, 0, 0, 0, 0, 0, 0, 0]
          ++ [0x26, 0, 0, 0, 16, 0, 0, 0, 0, 0, 0, 0, 0, 0, 0, 0], 28⟩).2.1.macho_section.reserved3
        = 0x26
    ∧ (parse_macho LONG_MAX
        ⟨[0xCE, 0xFA, 0xED, 0xFE, 7, 0, 0, 0, 3, 0, 0, 0, 1, 0, 0, 0, 2, 0, 0, 0, 0x8C, 0, 0, 0,
          0, 0, 0, 0, 1, 0, 0, 0, 124, 0, 0, 0] ++ List.replicate 16 65
          ++ [0, 0x10, 0, 0, 0, 0x10, 0, 0, 0, 0, 0, 0, 0, 0x10, 0, 0, 7, 0, 0, 0, 5, 0, 0, 0,
              1, 0, 0, 0, 0, 0, 0, 0]
          ++ List.replicate 16 66 ++ List.replicate 16 65
          ++ [0, 0x10, 0, 0, 0x40, 0, 0, 0, 0xA8, 0, 0, 0, 2, 0, 0, 0, 0, 0, 0, 0, 0, 0, 0, 0,
              0, 4, 0, 0x80, 0, 0, 0, 0, 0, 0, 0, 0]
          ++ [0x26, 0, 0, 0, 16, 0, 0, 0, 0, 0, 0, 0, 0, 0, 0, 0], 0⟩
        ⟨⟨[], 0, 0, 0, 0, 0, 0, 0, 0⟩, ⟨[], [], 0, 0, 0, 0, 0, 0, 0, 0, 0, 0⟩⟩).map
          (fun r => (r.1, r.2.1.filter is_load_command, r.2.2.pos))
      = some (0, [Out.load_command ⟨1, 124⟩, Out.load_command ⟨16, 0⟩], 4294967452)
    ∧ (∀ (lim : Nat) (l : Locals) (f : FILE) (r : Int) (lc : MachoLoadCommand) (f1 : FILE)
        (r2 : Int) (seg : MachoSegmentLoad) (f2 : FILE) (k : Nat),
        macho_read_load_command f = (r, lc, f1) → (lc.type = 0x01 ∨ lc.type = 0x19) →
        macho_read_segment_load l.macho_segment_load f1 64 = (r2, seg, f2) →
        seg.section_count = k → f.pos + (8 + 64 + 80 * k) ≤ f.data.length →
          (∃ (secs : List MachoSection) (l2 : Locals), secs.length = k
            ∧ parse_macho_command lim 64 l f
              = (Out.load_command lc :: Out.segment_load seg :: secs.map Out.sect, l2,
                  ⟨f.data, f.pos + (8 + 64 + 80 * k)⟩))
          ∧ (lc.size = 8 + 64 + 80 * k →
              (parse_macho_command lim 64 l f).2.2 = ⟨f.data, f.pos + lc.size⟩)) :=
  ⟨by decide, by decide, by decide, by decide, by decide,
    fun lim l f r lc f1 r2 seg f2 k hr htag hs hk hp =>
      segment_command_consumes lim 64 l f r lc f1 r2 seg f2 k hr htag hs hk hp⟩

/-- C8, witness: the magic 0xDEADBEEF. -/
theorem bad_magic_stops_decoding_witness :
    (macho_read_header ⟨[0xEF, 0xBE, 0xAD, 0xDE, 1, 0, 0, 0, 2, 0, 0, 0], 0⟩).1 = -1
    ∧ (macho_read_header ⟨[0xEF, 0xBE, 0xAD, 0xDE, 1, 0, 0, 0, 2, 0, 0, 0], 0⟩).2.2.pos ≤ 4
    ∧ parse_macho LONG_MAX ⟨[0xEF, 0xBE, 0xAD, 0xDE, 1, 0, 0, 0, 2, 0, 0, 0], 0⟩
        ⟨⟨[], 0, 0, 0, 0, 0, 0, 0, 0⟩, ⟨[], [], 0, 0, 0, 0, 0, 0, 0, 0, 0, 0⟩⟩
      = some (-1, [Out.error_not_macho],
          ⟨[0xEF, 0xBE, 0xAD, 0xDE, 1, 0, 0, 0, 2, 0, 0, 0], 4⟩) := by
  have h := bad_magic_stops_decoding LONG_MAX ⟨[0xEF, 0xBE, 0xAD, 0xDE, 1, 0, 0, 0, 2, 0, 0, 0], 0⟩
    ⟨⟨[], 0, 0, 0, 0, 0, 0, 0, 0⟩, ⟨[], [], 0, 0, 0, 0, 0, 0, 0, 0, 0, 0⟩⟩ (by decide)
  exact ⟨h.1, h.2.2.1, h.2.2.2.trans (by decide)⟩

/-- C9, witness: the bytes 34 12, CF FA ED FE and CF FA ED FE 34 12 00 80. -/
theorem read_uint_little_endian_witness :
    toUInt16 (read_uint16 ⟨[0x34, 0x12, 0xCE, 0xFA, 0xED, 0xFE, 0x00, 0x80], 0⟩).1 = 0x1234
    ∧ toUInt32 (read_uint32 ⟨[0xCF, 0xFA, 0xED, 0xFE, 0x34, 0x12, 0x00, 0x80], 0⟩).1 = 0xFEEDFACF
    ∧ (read_uint64 ⟨[0xCF, 0xFA, 0xED, 0xFE, 0x34, 0x12, 0x00, 0x80], 0⟩).1
        = 0x80001234FEEDFACF := by
  refine ⟨?_, ?_, ?_⟩
  · exact ((read_uint_little_endian _).1 (by decide)).1.trans (by decide)
  · exact ((read_uint_little_endian _).2.1 (by decide)).1.trans (by decide)
  · exact ((read_uint_little_endian _).2.2 (by decide)).1.trans (by decide)


/-- C10, the claim as stated fails: on a stream too short for the field the
readers return a filled-in value instead of an error, and
`macho_read_load_command` returns 0 with a record made of such values. -/
theorem short_read_returns_filled_value :
    read_uint8 ⟨[], 0⟩ = (-1, ⟨[], 0⟩)
    ∧ read_uint16 ⟨[0x12], 0⟩ = (-238, ⟨[0x12], 1⟩)
    ∧ read_uint32 ⟨[0x12], 0⟩ = (-238, ⟨[0x12], 1⟩)
    ∧ read_uint64 ⟨[0x12], 0⟩ = (0xFFFFFFFFFFFFFF12, ⟨[0x12], 1⟩)
    ∧ macho_read_load_command ⟨[0x12], 0⟩ = (0, ⟨0xFFFFFF12, 0xFFFFFFFF⟩, ⟨[0x12], 1⟩) := by
  decide


/-- C10 as amended, witness: `read_uint32` on the two bytes 12 34. -/
theorem short_read_fills_with_eof_witness :
    toUInt32 (read_uint32 ⟨[0x12, 0x34], 0⟩).1 = 0xFFFF3412
      ∧ (read_uint32 ⟨[0x12, 0x34], 0⟩).2 = ⟨[0x12, 0x34], 2⟩ := by
  have h := (short_read_fills_with_eof ⟨[0x12, 0x34], 0⟩ 2 (by decide)).2.2.1 (by decide)
  exact ⟨h.1.trans (by decide), h.2⟩

/-- C12, the claim as stated fails: a build-version command (tag 0x32) of
declared size 40 at offset 0 of a stream that holds only 18 bytes leaves the
cursor at offset 18, the end of the stream, not at 0 + 40. -/
theorem build_version_short_stream :
    macho_read_load_command ⟨[0x32, 0, 0, 0, 40, 0, 0, 0, 1, 2, 3, 4, 5, 6, 7, 8, 9, 10], 0⟩
      = (0, ⟨0x32, 40⟩, ⟨[0x32, 0, 0, 0, 40, 0, 0, 0, 1, 2, 3, 4, 5, 6, 7, 8, 9, 10], 8⟩)
    ∧ (parse_macho_command LONG_MAX 64
        ⟨⟨[], 0, 0, 0, 0, 0, 0, 0, 0⟩, ⟨[], [], 0, 0, 0, 0, 0, 0, 0, 0, 0, 0⟩⟩
        ⟨[0x32, 0, 0, 0, 40, 0, 0, 0, 1, 2, 3, 4, 5, 6, 7, 8, 9, 10], 0⟩).2.2
      = ⟨[0x32, 0, 0, 0, 40, 0, 0, 0, 1, 2, 3, 4, 5, 6, 7, 8, 9, 10], 18⟩
    ∧ (18 : Nat) ≠ 0 + 40 := by
  decide

/-- C12 as amended, witness: a build-version command of declared size 16
whose bytes are all present leaves the cursor at command start + 16, and one
of declared size 40 in a stream of 18 bytes leaves it at offset 18. -/
theorem build_version_stops_at_end_witness :
    (parse_macho_command LONG_MAX 64
        ⟨⟨[], 0, 0, 0, 0, 0, 0, 0, 0⟩, ⟨[], [], 0, 0, 0, 0, 0, 0, 0, 0, 0, 0⟩⟩
        ⟨[0x32, 0, 0, 0, 16, 0, 0, 0, 1, 2, 3, 4, 5, 6, 7, 8, 9, 10], 0⟩).2.2
      = ⟨[0x32, 0, 0, 0, 16, 0, 0, 0, 1, 2, 3, 4, 5, 6, 7, 8, 9, 10], 0 + 16⟩
    ∧ (parse_macho_command LONG_MAX 64
        ⟨⟨[], 0, 0, 0, 0, 0, 0, 0, 0⟩, ⟨[], [], 0, 0, 0, 0, 0, 0, 0, 0, 0, 0⟩⟩
        ⟨[0x32, 0, 0, 0, 40, 0, 0, 0, 1, 2, 3, 4, 5, 6, 7, 8, 9, 10], 0⟩).2.2
      = ⟨[0x32, 0, 0, 0, 40, 0, 0, 0, 1, 2, 3, 4, 5, 6, 7, 8, 9, 10], 18⟩ :=
  ⟨(build_version_stops_at_end LONG_MAX 64 _ ⟨[0x32, 0, 0, 0, 16, 0, 0, 0, 1, 2, 3, 4, 5, 6, 7, 8, 9, 10], 0⟩
      0 ⟨0x32, 16⟩ ⟨[0x32, 0, 0, 0, 16, 0, 0, 0, 1, 2, 3, 4, 5, 6, 7, 8, 9, 10], 8⟩
      (by decide) (by decide) (by decide)).2.1 (by decide),
   (build_version_stops_at_end LONG_MAX 64 _ ⟨[0x32, 0, 0, 0, 40, 0, 0, 0, 1, 2, 3, 4, 5, 6, 7, 8, 9, 10], 0⟩
      0 ⟨0x32, 40⟩ ⟨[0x32, 0, 0, 0, 40, 0, 0, 0, 1, 2, 3, 4, 5, 6, 7, 8, 9, 10], 8⟩
      (by decide) (by decide) (by decide)).2.2 (by decide) (by decide)⟩

/-- C13, witness: a 64-bit header (magic 0xFEEDFACF) of 32 bytes followed by
four more bytes, and a 32-bit header (magic 0xFEEDFACE) followed by the same
bytes: the first ends at offset 32 with the reserved word read, the second at
offset 28 with `reserved = 0`. -/
theorem header_fields_in_order_witness :
    macho_read_header ⟨[0xCF, 0xFA, 0xED, 0xFE, 7, 0, 0, 1, 3, 0, 0, 0x80, 2, 0, 0, 0,
        5, 0, 0, 0, 0x34, 0x12, 0, 0, 0x85, 0, 0x20, 0, 0x2A, 0, 0, 0, 0x19, 0, 0, 0], 0⟩
      = (0, ⟨0xFEEDFACF, 0x01000007, 0x80000003, 2, 5, 0x1234, 0x200085, 0x2A⟩,
          ⟨[0xCF, 0xFA, 0xED, 0xFE, 7, 0, 0, 1, 3, 0, 0, 0x80, 2, 0, 0, 0,
            5, 0, 0, 0, 0x34, 0x12, 0, 0, 0x85, 0, 0x20, 0, 0x2A, 0, 0, 0, 0x19, 0, 0, 0], 32⟩)
    ∧ (macho_read_header ⟨[0xCE, 0xFA, 0xED, 0xFE, 7, 0, 0, 0, 3, 0, 0, 0, 2, 0, 0, 0,
        5, 0, 0, 0, 0x34, 0x12, 0, 0, 0x85, 0, 0x20, 0, 0x2A, 0, 0, 0, 0x19, 0, 0, 0], 0⟩).2.1.reserved
        = 0
    ∧ (macho_read_header ⟨[0xCE, 0xFA, 0xED, 0xFE, 7, 0, 0, 0, 3, 0, 0, 0, 2, 0, 0, 0,
        5, 0, 0, 0, 0x34, 0x12, 0, 0, 0x85, 0, 0x20, 0, 0x2A, 0, 0, 0, 0x19, 0, 0, 0], 0⟩).2.2.pos
        = 0 + 28 := by
  have h64 := header_fields_in_order [0xCF, 0xFA, 0xED, 0xFE, 7, 0, 0, 1, 3, 0, 0, 0x80,
    2, 0, 0, 0, 5, 0, 0, 0, 0x34, 0x12, 0, 0, 0x85, 0, 0x20, 0, 0x2A, 0, 0, 0, 0x19, 0, 0, 0] 0
    (by decide) (by decide)
  have h32 := header_fields_in_order [0xCE, 0xFA, 0xED, 0xFE, 7, 0, 0, 0, 3, 0, 0, 0,
    2, 0, 0, 0, 5, 0, 0, 0, 0x34, 0x12, 0, 0, 0x85, 0, 0x20, 0, 0x2A, 0, 0, 0, 0x19, 0, 0, 0] 0
    (by decide) (by decide)
  refine ⟨by decide, (h32.2.2.2.2.2.2.2.2.2 (by decide)).1, ?_⟩
  rw [(h32.2.2.2.2.2.2.2.2.2 (by decide)).2]

/-- C14, the code at a failing input: the string table `\0Alice\0Bob` declared
with size 11 in a stream that holds only these 10 bytes.  The first pass reads
bytes 1 to 9, and for the byte 10 that is missing `getc` returns `EOF`, which
the loop does not test for: it is printed as the character 255 and counted in
the entry, so the second entry is "Bob" followed by the character 255 where
the claim gives (7, "Bob").  With the table complete (`\0Alice\0Bob\0\0`, size
11) the pass prints exactly the entries (1, "Alice") and (7, "Bob"). -/
theorem string_table_pass_prints_eof :
    (macho_print_symtab ⟨0, 0, 0, 11⟩ ⟨[0, 65, 108, 105, 99, 101, 0, 66, 111, 98], 0⟩ 32).1
      = [Out.symtab ⟨0, 0, 0, 11⟩,
         Out.str_label 1, Out.chr 65, Out.chr 108, Out.chr 105, Out.chr 99, Out.chr 101,
         Out.newline,
         Out.str_label 7, Out.chr 66, Out.chr 111, Out.chr 98, Out.chr 255,
         Out.newline]
    ∧ (string_table_loop (11 - 1) 1 0 ⟨[0, 65, 108, 105, 99, 101, 0, 66, 111, 98], 0 + 1⟩).1
      = [Out.str_label 1, Out.chr 65, Out.chr 108, Out.chr 105, Out.chr 99, Out.chr 101,
         Out.newline,
         Out.str_label 7, Out.chr 66, Out.chr 111, Out.chr 98, Out.chr 255]
    ∧ (string_table_loop (11 - 1) 1 0
        ⟨[0, 65, 108, 105, 99, 101, 0, 66, 111, 98, 0, 0], 0 + 1⟩).1
      = [Out.str_label 1, Out.chr 65, Out.chr 108, Out.chr 105, Out.chr 99, Out.chr 101,
         Out.newline,
         Out.str_label 7, Out.chr 66, Out.chr 111, Out.chr 98, Out.newline] := by
  decide

/-- C15, the code at failing inputs: for a code with bit 31 set the `int`
argument is negative, the only test `value >= max` lets it through, and
`get_cpu_type`, `get_cpu_subtype_arm` and `get_file_type` index their table
outside its bounds (`none`); a header with `cpu_type = 0x0C`,
`cpu_subtype = 0xFFFFFFFF` and `file_type = 0x80000000` makes
`macho_print_header` do so twice.  The three functions go outside their table
exactly for the codes with bit 31 set; for every other code they return a
label.  `get_cpu_subtype_x86` returns "???" for every code other than its 14
exact codes. -/
theorem label_lookup_outside_table :
    get_cpu_type (toInt32 0x80000000) = none
    ∧ get_cpu_subtype_arm (toInt32 0xFFFFFFFF) = none
    ∧ get_file_type (toInt32 0x80000000) = none
    ∧ macho_print_header ⟨0xFEEDFACE, 0x0000000C, 0xFFFFFFFF, 0x80000000, 0, 0, 0, 0⟩
        = (some "ARM", none, none)
    ∧ get_file_type (toInt32 13) = some "???"
    ∧ get_file_type (toInt32 12) = some "Composite MachOs"
    ∧ (∀ n : Nat, get_cpu_type (toInt32 n) = none ↔ 2 ^ 31 ≤ n % 2 ^ 32)
    ∧ (∀ n : Nat, get_cpu_subtype_arm (toInt32 n) = none ↔ 2 ^ 31 ≤ n % 2 ^ 32)
    ∧ (∀ n : Nat, get_file_type (toInt32 n) = none ↔ 2 ^ 31 ≤ n % 2 ^ 32)
    ∧ (∀ v : Int, v ∉ ([0x03, 0x04, 0x84, 0x56, 0x67, 0x77, 0x08, 0x18, 0x28, 0x0a, 0x0b,
          0x1b, 0x0c, 0x1c] : List Int) → get_cpu_subtype_x86 v = "???") :=
  ⟨by decide, by decide, by decide, by decide, by decide, by decide,
    get_cpu_type_eq_none_iff, get_cpu_subtype_arm_eq_none_iff, get_file_type_eq_none_iff,
    get_cpu_subtype_x86_default⟩

/-- C16, the code at failing inputs: in 32-bit width a width-dependent field
whose most significant byte is 0x80 or above is not stored as its unsigned
32-bit value.  `read_uint32` returns an `int`, which is negative for such
bytes, and the conversion to the `uint64_t` field extends the sign: the bytes
00 10 00 80 give 0xFFFFFFFF80001000, which is not below 2^32, in the
`address` of a SegmentLoad, in the `address` of a Section and in the `value` of
a Symbol, where the unsigned 32-bit value of the bytes is 0x80001000.  Bytes
with the top bit clear (00 10 00 70) are stored as their value. -/
theorem width32_field_is_sign_extended :
    (macho_read_segment_load ⟨[], 0, 0, 0, 0, 0, 0, 0, 0⟩
        ⟨List.replicate 16 65 ++ [0x00, 0x10, 0x00, 0x80, 0x00, 0x20, 0, 0, 0, 0, 0, 0,
          0x00, 0x20, 0, 0, 7, 0, 0, 0, 5, 0, 0, 0, 0, 0, 0, 0, 0, 0, 0, 0], 0⟩ 32).2.1.address
      = 0xFFFFFFFF80001000
    ∧ le_sum ⟨List.replicate 16 65 ++ [0x00, 0x10, 0x00, 0x80, 0x00, 0x20, 0, 0, 0, 0, 0, 0,
          0x00, 0x20, 0, 0, 7, 0, 0, 0, 5, 0, 0, 0, 0, 0, 0, 0, 0, 0, 0, 0], 16⟩ 4 = 0x80001000
    ∧ ¬ ((macho_read_segment_load ⟨[], 0, 0, 0, 0, 0, 0, 0, 0⟩
        ⟨List.replicate 16 65 ++ [0x00, 0x10, 0x00, 0x80, 0x00, 0x20, 0, 0, 0, 0, 0, 0,
          0x00, 0x20, 0, 0, 7, 0, 0, 0, 5, 0, 0, 0, 0, 0, 0, 0, 0, 0, 0, 0], 0⟩ 32).2.1.address
        < 2 ^ 32)
    ∧ (macho_read_section ⟨[], [], 0, 0, 0, 0, 0, 0, 0, 0, 0, 0⟩
        ⟨List.replicate 32 65 ++ [0x00, 0x10, 0x00, 0x80, 0x10, 0, 0, 0] ++ List.replicate 32 0,
          0⟩ 32).2.1.address = 0xFFFFFFFF80001000
    ∧ (macho_read_symbol ⟨[1, 0, 0, 0, 0x0F, 1, 0, 0, 0x00, 0x10, 0x00, 0x80], 0⟩ 32).2.1.value
      = 0xFFFFFFFF80001000
    ∧ (macho_read_symbol ⟨[1, 0, 0, 0, 0x0F, 1, 0, 0, 0x00, 0x10, 0x00, 0x70], 0⟩ 32).2.1.value
      = 0x70001000 := by
  decide

/-- C17, witness: with 20 bytes left at the cursor `macho_read_segment_load`
succeeds and `macho_read_section` fails, leaving the integer fields of the
record as they were and the cursor at the end of the stream. -/
theorem name_read_failure_witness :
    (macho_read_segment_load ⟨[], 1, 2, 3, 4, 5, 6, 7, 8⟩
        ⟨List.replicate 24 65, 4⟩ 32).1 = 0
    ∧ (macho_read_section ⟨[], [], 1, 2, 3, 4, 5, 6, 7, 8, 9, 10⟩
        ⟨List.replicate 24 65, 4⟩ 32).1 = -1
    ∧ (macho_read_section ⟨[], [], 1, 2, 3, 4, 5, 6, 7, 8, 9, 10⟩
        ⟨List.replicate 24 65, 4⟩ 32).2.1
      = ⟨List.replicate 16 65, List.replicate 4 65, 1, 2, 3, 4, 5, 6, 7, 8, 9, 10⟩
    ∧ (macho_read_section ⟨[], [], 1, 2, 3, 4, 5, 6, 7, 8, 9, 10⟩
        ⟨List.replicate 24 65, 4⟩ 32).2.2 = ⟨List.replicate 24 65, 24⟩ := by
  have h := name_read_failure ⟨[], 1, 2, 3, 4, 5, 6, 7, 8⟩
    ⟨[], [], 1, 2, 3, 4, 5, 6, 7, 8, 9, 10⟩ ⟨List.replicate 24 65, 4⟩ 32
  exact ⟨h.2.1.2 (by decide), h.2.2.2.1.2 (by decide), by decide,
    (h.2.2.2.2.2 (by decide)).2.trans (by decide)⟩

/-- C19, witness: two 32-bit symbols at offsets 12 and 24 whose names are found
at string indices 7 and 1; the second record is decoded from offset 12 + 12
although the name lookup of the first moved the cursor to offset 7. -/
theorem symbol_records_are_sequential_witness :
    symbols_of (macho_print_symtab ⟨12, 2, 0, 12⟩
        ⟨[0, 65, 108, 105, 99, 101, 0, 66, 111, 98, 0, 0,
          7, 0, 0, 0, 0x0F, 1, 0, 0, 0x00, 0x10, 0, 0,
          1, 0, 0, 0, 0x0F, 1, 0, 0, 0x00, 0x20, 0, 0], 36⟩ 32).1
      = [⟨7, 0x0F, 1, 0, 0x1000⟩, ⟨1, 0x0F, 1, 0, 0x2000⟩] :=
  (symbol_records_are_sequential ⟨12, 2, 0, 12⟩
    ⟨[0, 65, 108, 105, 99, 101, 0, 66, 111, 98, 0, 0,
      7, 0, 0, 0, 0x0F, 1, 0, 0, 0x00, 0x10, 0, 0,
      1, 0, 0, 0, 0x0F, 1, 0, 0, 0x00, 0x20, 0, 0], 36⟩ 32).trans (by decide)

/-- C20, witness: a dysymtab command of declared size 80 at offset 4 of a
stream of 88 bytes leaves the cursor at offset 84. -/
theorem dysymtab_reads_18_fields_witness :
    (parse_macho_command LONG_MAX 64
        ⟨⟨[], 0, 0, 0, 0, 0, 0, 0, 0⟩, ⟨[], [], 0, 0, 0, 0, 0, 0, 0, 0, 0, 0⟩⟩
        ⟨[0, 0, 0, 0, 0x0B, 0, 0, 0, 80, 0, 0, 0] ++ List.replicate 72 1 ++ [9, 9, 9, 9], 4⟩).2.2
      = ⟨[0, 0, 0, 0, 0x0B, 0, 0, 0, 80, 0, 0, 0] ++ List.replicate 72 1 ++ [9, 9, 9, 9],
          4 + 80⟩ :=
  ((dysymtab_reads_18_fields LONG_MAX
      ([0, 0, 0, 0, 0x0B, 0, 0, 0, 80, 0, 0, 0] ++ List.replicate 72 1 ++ [9, 9, 9, 9]) 4).2.2
    64 ⟨⟨[], 0, 0, 0, 0, 0, 0, 0, 0⟩, ⟨[], [], 0, 0, 0, 0, 0, 0, 0, 0, 0, 0⟩⟩
    (by decide) (by decide)).1

/-- C21, witness: two streams that differ only in the tag of a segment command
(0x01 and 0x19).  In 64-bit width both are decoded with 64-bit fields and end
8 + 64 = 72 bytes after the start of the command; in 32-bit width both are
decoded with 32-bit fields and end at 8 + 48 = 56; the SegmentLoad printed is
the same for both tags. -/
theorem segment_tag_does_not_select_width_witness :
    (parse_macho_command LONG_MAX 64
        ⟨⟨[], 0, 0, 0, 0, 0, 0, 0, 0⟩, ⟨[], [], 0, 0, 0, 0, 0, 0, 0, 0, 0, 0⟩⟩
        ⟨[0x01, 0, 0, 0, 72, 0, 0, 0] ++ List.replicate 16 65 ++ [0, 0x10, 0, 0, 1, 0, 0, 0]
          ++ List.replicate 40 0, 0⟩).2.2.pos = 72
    ∧ (parse_macho_command LONG_MAX 64
        ⟨⟨[], 0, 0, 0, 0, 0, 0, 0, 0⟩, ⟨[], [], 0, 0, 0, 0, 0, 0, 0, 0, 0, 0⟩⟩
        ⟨[0x19, 0, 0, 0, 72, 0, 0, 0] ++ List.replicate 16 65 ++ [0, 0x10, 0, 0, 1, 0, 0, 0]
          ++ List.replicate 40 0, 0⟩).2.2.pos = 72
    ∧ (parse_macho_command LONG_MAX 32
        ⟨⟨[], 0, 0, 0, 0, 0, 0, 0, 0⟩, ⟨[], [], 0, 0, 0, 0, 0, 0, 0, 0, 0, 0⟩⟩
        ⟨[0x01, 0, 0, 0, 72, 0, 0, 0] ++ List.replicate 16 65 ++ [0, 0x10, 0, 0, 1, 0, 0, 0]
          ++ List.replicate 40 0, 0⟩).2.2.pos = 56
    ∧ (parse_macho_command LONG_MAX 32
        ⟨⟨[], 0, 0, 0, 0, 0, 0, 0, 0⟩, ⟨[], [], 0, 0, 0, 0, 0, 0, 0, 0, 0, 0⟩⟩
        ⟨[0x19, 0, 0, 0, 72, 0, 0, 0] ++ List.replicate 16 65 ++ [0, 0x10, 0, 0, 1, 0, 0, 0]
          ++ List.replicate 40 0, 0⟩).2.2.pos = 56
    ∧ (parse_macho_command LONG_MAX 64
        ⟨⟨[], 0, 0, 0, 0, 0, 0, 0, 0⟩, ⟨[], [], 0, 0, 0, 0, 0, 0, 0, 0, 0, 0⟩⟩
        ⟨[0x01, 0, 0, 0, 72, 0, 0, 0] ++ List.replicate 16 65 ++ [0, 0x10, 0, 0, 1, 0, 0, 0]
          ++ List.replicate 40 0, 0⟩).1.tail
      = (parse_macho_command LONG_MAX 64
        ⟨⟨[], 0, 0, 0, 0, 0, 0, 0, 0⟩, ⟨[], [], 0, 0, 0, 0, 0, 0, 0, 0, 0, 0⟩⟩
        ⟨[0x19, 0, 0, 0, 72, 0, 0, 0] ++ List.replicate 16 65 ++ [0, 0x10, 0, 0, 1, 0, 0, 0]
          ++ List.replicate 40 0, 0⟩).1.tail
    ∧ parse_macho_switch LONG_MAX 32
        ⟨⟨[], 0, 0, 0, 0, 0, 0, 0, 0⟩, ⟨[], [], 0, 0, 0, 0, 0, 0, 0, 0, 0, 0⟩⟩ ⟨0x01, 72⟩
        ⟨[0x01, 0, 0, 0, 72, 0, 0, 0] ++ List.replicate 16 65 ++ [0, 0x10, 0, 0, 1, 0, 0, 0]
          ++ List.replicate 40 0, 8⟩
      = parse_macho_switch LONG_MAX 32
        ⟨⟨[], 0, 0, 0, 0, 0, 0, 0, 0⟩, ⟨[], [], 0, 0, 0, 0, 0, 0, 0, 0, 0, 0⟩⟩ ⟨0x19, 72⟩
        ⟨[0x01, 0, 0, 0, 72, 0, 0, 0] ++ List.replicate 16 65 ++ [0, 0x10, 0, 0, 1, 0, 0, 0]
          ++ List.replicate 40 0, 8⟩ :=
  ⟨by decide, by decide, by decide, by decide, by decide,
    (segment_tag_does_not_select_width LONG_MAX 32 _ _ 72 72).2.2.1⟩

/-- C22, witness: a header with `cpu_type = 0x0100000C` and `cpu_subtype = 2`
is printed with the cpu label "ARM" and an empty subtype label, where
`cpu_type = 0x0C` with the same subtype gets the label of the ARM table. -/
theorem subtype_label_needs_exact_cpu_type_witness :
    get_cpu_subtype (toInt32 0x0100000C) (toInt32 2) = some ""
    ∧ macho_print_header ⟨0xFEEDFACF, 0x0100000C, 2, 1, 0, 0, 0, 0⟩
        = (some "ARM", some "", some "Relocatable object")
    ∧ macho_print_header ⟨0xFEEDFACE, 0x0000000C, 2, 1, 0, 0, 0, 0⟩
        = (some "ARM", some "Optimized for ARM-A500 or newer.", some "Relocatable object") :=
  ⟨(subtype_label_needs_exact_cpu_type (toInt32 0x0100000C) (toInt32 2)
      (by decide) (by decide)).1,
   by decide, by decide⟩

end PrintMacho
